import Mathlib

/-!
Voxel store and edit history (`src/voxels.js`)

A shallow embedding of `VoxelGrid` and `VoxelHistory`.

Modelling conventions.

* A coordinate is a triple of integers.  `keyFor` builds the template string
  `x,y,z`; on integer triples that string determines the triple, so the key is
  modelled by the triple itself (`Key`).
* A JavaScript `Map` is an association list in insertion order (`JsMap`):
  `set` on a present key replaces the value where it stands, `set` on a new key
  appends, `delete` removes the entry, iteration follows the list.
* The `THREE.InstancedMesh` is modelled by what the store writes into it: per
  slot the translation of the instance matrix as the `Float32Array` holds it (an
  integer written to it is rounded to 24 significant bits and becomes an
  infinity from `2^128` on, `float32`) and the colour as `setHex` keeps it (the
  low 24 bits of the hex value; the conversion of the three bytes to floats is
  one-to-one and is not modelled), the lazily created `instanceColor` attribute,
  and `mesh.count`.  Writes outside the typed
  array are ignored, as in JavaScript.  The `needsUpdate` flags and the scratch
  objects `tempMatrix` / `tempColor` (always written before they are read) are
  left out.
* A method call returns the new store, the history object it was handed (or
  `none` for `null`), the console warnings it printed and its return value.
-/

/-- Kind of a voxel, the `type` field: `'wood'` or `'leaf'` in the callers. -/
inductive VoxelType where
  | wood
  | leaf
deriving DecidableEq, Repr

/-- Voxel record `{ x, y, z, color, type }` as built by the callers in `main.js`. -/
structure Voxel where
  x : Int
  y : Int
  z : Int
  color : Nat
  type : VoxelType
deriving DecidableEq, Repr

/-- Map key of a coordinate (the string `x,y,z` of the source). -/
structure Key where
  x : Int
  y : Int
  z : Int
deriving DecidableEq, Repr

/-- Source: `keyFor(x, y, z)`. -/
def keyFor (x y z : Int) : Key := ⟨x, y, z⟩

/-- Source: the object spread `{ ...voxel, x, y, z }`. -/
def Voxel.withCoord (voxel : Voxel) (x y z : Int) : Voxel :=
  ⟨x, y, z, voxel.color, voxel.type⟩

/-- Key of the coordinate a record carries. -/
def Voxel.key (voxel : Voxel) : Key := keyFor voxel.x voxel.y voxel.z

/-- JavaScript `Map`: entries in insertion order. -/
abbrev JsMap (κ α : Type) := List (κ × α)

namespace JsMap

variable {κ α : Type} [DecidableEq κ]

/-- `Map.prototype.get`: `none` stands for `undefined`. -/
def get : JsMap κ α → κ → Option α
  | [], _ => none
  | (k', v') :: m, k => if k' = k then some v' else get m k

/-- `Map.prototype.has`. -/
def has (m : JsMap κ α) (k : κ) : Bool := (get m k).isSome

/-- `Map.prototype.set`: a present key keeps its place, a new key goes last. -/
def set : JsMap κ α → κ → α → JsMap κ α
  | [], k, v => [(k, v)]
  | (k', v') :: m, k, v => if k' = k then (k, v) :: m else (k', v') :: set m k v

/-- `Map.prototype.delete`. -/
def delete : JsMap κ α → κ → JsMap κ α
  | [], _ => []
  | (k', v') :: m, k => if k' = k then delete m k else (k', v') :: delete m k

/-- `Map.prototype.values`, in iteration order. -/
def values (m : JsMap κ α) : List α := m.map Prod.snd

/-- Keys in iteration order. -/
def keys (m : JsMap κ α) : List κ := m.map Prod.fst

/-- `Map.prototype.size`. -/
def size (m : JsMap κ α) : Nat := m.length

end JsMap

/-- A JavaScript number as far as the instance buffer meets one: an integer, or an
infinity (what a 32-bit float holds from `2^128` on). -/
inductive JsNumber where
  | int (n : Int)
  | infinity (negative : Bool)
deriving DecidableEq, Repr

instance : Coe Int JsNumber := ⟨JsNumber.int⟩

instance (n : Nat) : OfNat JsNumber n := ⟨JsNumber.int n⟩

/-- Translation part of an instance matrix (`makeTranslation(x, y, z)`). -/
structure Position where
  x : JsNumber
  y : JsNumber
  z : JsNumber
deriving DecidableEq, Repr

/-- Number of low bits of the magnitude `mag` that do not fit the 24-bit
significand of a 32-bit float.  The first argument bounds the recursion; `mag`
itself is always enough. -/
def float32Shift : Nat → Nat → Nat
  | 0, _ => 0
  | fuel + 1, mag => if mag < 16777216 then 0 else float32Shift fuel (mag / 2) + 1

/-- Magnitude of an integer after rounding to 24 significant bits, to nearest,
ties to even. -/
def float32Mag (mag : Nat) : Nat :=
  if 2 ^ float32Shift mag mag < 2 * (mag % 2 ^ float32Shift mag mag) ∨
      (2 * (mag % 2 ^ float32Shift mag mag) = 2 ^ float32Shift mag mag ∧
        mag / 2 ^ float32Shift mag mag % 2 = 1) then
    (mag / 2 ^ float32Shift mag mag + 1) * 2 ^ float32Shift mag mag
  else
    mag / 2 ^ float32Shift mag mag * 2 ^ float32Shift mag mag

/-- The number a `Float32Array` element holds after the integer `n` is written to
it: `n` itself up to magnitude `2^24`, beyond that the nearest integer with 24
significant bits, and an infinity when that integer reaches `2^128`
(`340282366920938463463374607431768211456`). -/
def float32 (n : Int) : JsNumber :=
  if float32Mag n.natAbs < 340282366920938463463374607431768211456 then
    if n < 0 then JsNumber.int (-((float32Mag n.natAbs : Nat) : Int))
    else JsNumber.int ((float32Mag n.natAbs : Nat) : Int)
  else JsNumber.infinity (decide (n < 0))

/-- The number a `Float32Array` element holds after a number is written to it. -/
def JsNumber.toFloat32 : JsNumber → JsNumber
  | JsNumber.int n => float32 n
  | JsNumber.infinity negative => JsNumber.infinity negative

/-- An element of a `Float32Array`: a value some number is rounded to. -/
abbrev Float32Value := { v : JsNumber // ∃ m : JsNumber, m.toFloat32 = v }

/-- Writing the number `m` into a `Float32Array` element. -/
def Float32Value.ofNumber (m : JsNumber) : Float32Value := ⟨m.toFloat32, m, rfl⟩

/-- Translation of one instance as the `Float32Array` `instanceMatrix` holds it. -/
structure StoredPosition where
  x : Float32Value
  y : Float32Value
  z : Float32Value
deriving DecidableEq, Repr

/-- The numbers of a stored translation, as `getMatrixAt` reads them. -/
def StoredPosition.toPosition (p : StoredPosition) : Position := ⟨p.x.val, p.y.val, p.z.val⟩

/-- A `THREE.Color` set by `setHex`, identified by the 24 bits (three bytes) it is
built from. -/
abbrev StoredColor := Fin 16777216

/-- `Color.setHex(hex)`: the bytes `hex >> 16 & 255`, `hex >> 8 & 255`, `hex & 255`,
that is the low 24 bits of `hex`. -/
def setHex (hex : Nat) : StoredColor := ⟨hex % 16777216, Nat.mod_lt _ (by decide)⟩

/-- The instanced render buffer, as far as the store writes it. -/
structure InstancedMesh where
  instanceMatrix : List StoredPosition
  instanceColor : Option (List StoredColor)
  count : Nat
deriving DecidableEq, Repr

namespace InstancedMesh

/-- `new THREE.InstancedMesh(geometry, material, maxInstances)`: one matrix per
instance, no colour attribute yet, `count` is the capacity. -/
def create (maxInstances : Nat) : InstancedMesh :=
  ⟨List.replicate maxInstances
    ⟨Float32Value.ofNumber 0, Float32Value.ofNumber 0, Float32Value.ofNumber 0⟩,
    none, maxInstances⟩

/-- `setMatrixAt(index, matrix)`: the numbers of the matrix are written into the
`Float32Array`. -/
def setMatrixAt (mesh : InstancedMesh) (index : Nat) (m : Position) : InstancedMesh :=
  let stored : StoredPosition :=
    ⟨Float32Value.ofNumber m.x, Float32Value.ofNumber m.y, Float32Value.ofNumber m.z⟩
  { mesh with instanceMatrix := mesh.instanceMatrix.set index stored }

/-- `getMatrixAt(index, target)`; the default is only read outside the array. -/
def getMatrixAt (mesh : InstancedMesh) (index : Nat) : Position :=
  match mesh.instanceMatrix[index]? with
  | some p => p.toPosition
  | none => ⟨0, 0, 0⟩

/-- `setColorAt(index, color)`: creates the white-filled colour attribute on
first use. -/
def setColorAt (mesh : InstancedMesh) (index : Nat) (color : StoredColor) : InstancedMesh :=
  match mesh.instanceColor with
  | none =>
    let fresh := List.replicate mesh.instanceMatrix.length (setHex 0xffffff)
    { mesh with instanceColor := some (fresh.set index color) }
  | some cs => { mesh with instanceColor := some (cs.set index color) }

/-- `getColorAt(index, target)` on an existing colour attribute. -/
def getColorAt (cs : List StoredColor) (index : Nat) : StoredColor :=
  (cs[index]?).getD (setHex 0xffffff)

/-- Colour held by slot `index` (its 24-bit hex value), if the colour attribute
exists and has the slot. -/
def colorAt (mesh : InstancedMesh) (index : Nat) : Option Nat :=
  mesh.instanceColor.bind (fun cs => (cs[index]?).map (fun stored => stored.val))

/-- Translation held by slot `index`. -/
def positionAt (mesh : InstancedMesh) (index : Nat) : Option Position :=
  (mesh.instanceMatrix[index]?).map StoredPosition.toPosition

end InstancedMesh

/-- Transaction object `{ label, adds, removes }`. -/
structure Transaction where
  label : String
  adds : List Voxel
  removes : List Voxel
deriving DecidableEq, Repr

/-- Source: `class VoxelHistory`.  The stacks are arrays: the top is the last
element. -/
structure VoxelHistory where
  limit : Nat
  undoStack : List Transaction
  redoStack : List Transaction
  current : Option Transaction
deriving DecidableEq, Repr

/-- Value a modelled method returns. -/
inductive JsReturn where
  | undefined
  | null
  | action (t : Transaction)
deriving DecidableEq, Repr

namespace VoxelHistory

/-- Source: `constructor(limit = 50)`. -/
def create (limit : Nat) : VoxelHistory := ⟨limit, [], [], none⟩

/-- Source: `begin(label)`. -/
def begin (h : VoxelHistory) (label : String) : VoxelHistory :=
  match h.current with
  | some _ => h
  | none => { h with current := some ⟨label, [], []⟩ }

/-- Source: `recordAdd(voxel)`. -/
def recordAdd (h : VoxelHistory) (voxel : Voxel) : VoxelHistory :=
  match h.current with
  | none => h
  | some cur => { h with current := some { cur with adds := cur.adds ++ [voxel] } }

/-- Source: `recordRemove(voxel)`. -/
def recordRemove (h : VoxelHistory) (voxel : Voxel) : VoxelHistory :=
  match h.current with
  | none => h
  | some cur => { h with current := some { cur with removes := cur.removes ++ [voxel] } }

/-- Source: `commit()`. -/
def commit (h : VoxelHistory) : VoxelHistory :=
  match h.current with
  | none => h
  | some cur =>
    if cur.adds.length ≠ 0 ∨ cur.removes.length ≠ 0 then
      let pushed := h.undoStack ++ [cur]
      let kept := if pushed.length > h.limit then pushed.tail else pushed
      { h with undoStack := kept, redoStack := [], current := none }
    else
      { h with current := none }

/-- Source: `cancel()`. -/
def cancel (h : VoxelHistory) : VoxelHistory := { h with current := none }

end VoxelHistory

/-- Source: `class VoxelGrid` (fields `grid`, `maxInstances`, `mesh`,
`keyToIndex`, `indexToKey`, `count`). -/
structure VoxelGrid where
  grid : JsMap Key Voxel
  maxInstances : Nat
  mesh : InstancedMesh
  keyToIndex : JsMap Key Nat
  indexToKey : List Key
  count : Nat
deriving DecidableEq, Repr

/-- Outcome of a store method call. -/
structure CallResult where
  grid : VoxelGrid
  history : Option VoxelHistory
  warnings : List String
  returned : JsReturn

/-- Array element assignment `xs[i] = v` for `i` up to the length (an index
past the length, which would leave holes, needs `count > indexToKey.length` and
is never produced by the store). -/
def arrayAssign {α : Type} (xs : List α) (i : Nat) (v : α) : List α :=
  if i < xs.length then xs.set i v else xs ++ [v]

/-- Optional call `if (history) history.recordAdd(voxel)`. -/
def recordAddOn (history : Option VoxelHistory) (voxel : Voxel) : Option VoxelHistory :=
  history.map (fun h => h.recordAdd voxel)

/-- Optional call `if (history) history.recordRemove(voxel)`. -/
def recordRemoveOn (history : Option VoxelHistory) (voxel : Voxel) : Option VoxelHistory :=
  history.map (fun h => h.recordRemove voxel)

namespace VoxelGrid

/-- Source: `constructor(scene, { maxInstances })`. -/
def create (maxInstances : Nat) : VoxelGrid :=
  ⟨[], maxInstances, InstancedMesh.create maxInstances, [], [], 0⟩

/-- Source: `getCount()`. -/
def getCount (g : VoxelGrid) : Nat := g.count

/-- Source: `hasVoxel(x, y, z)`. -/
def hasVoxel (g : VoxelGrid) (x y z : Int) : Bool := g.grid.has (keyFor x y z)

/-- Source: `getVoxel(x, y, z)`. -/
def getVoxel (g : VoxelGrid) (x y z : Int) : Option Voxel := g.grid.get (keyFor x y z)

/-- Source: `setVoxel(x, y, z, voxel, history)`. -/
def setVoxel (g : VoxelGrid) (x y z : Int) (voxel : Voxel)
    (history : Option VoxelHistory) : CallResult :=
  let key := keyFor x y z
  match g.grid.get key with
  | some existing =>
    if existing.color ≠ voxel.color ∨ existing.type ≠ voxel.type then
      let grid1 := g.grid.set key (voxel.withCoord x y z)
      match g.keyToIndex.get key with
      | some index =>
        ⟨{ g with grid := grid1, mesh := g.mesh.setColorAt index (setHex voxel.color) },
          history, [], JsReturn.undefined⟩
      | none => ⟨{ g with grid := grid1 }, history, [], JsReturn.undefined⟩
    else
      ⟨g, history, [], JsReturn.undefined⟩
  | none =>
    if g.count ≥ g.maxInstances then
      ⟨g, history, ["Voxel instance limit reached."], JsReturn.undefined⟩
    else
      let index := g.count
      let mesh1 := (g.mesh.setMatrixAt index ⟨x, y, z⟩).setColorAt index (setHex voxel.color)
      ⟨{ g with
          keyToIndex := g.keyToIndex.set key index
          indexToKey := arrayAssign g.indexToKey index key
          grid := g.grid.set key (voxel.withCoord x y z)
          mesh := { mesh1 with count := g.count + 1 }
          count := g.count + 1 },
        recordAddOn history (voxel.withCoord x y z), [], JsReturn.undefined⟩

/-- Swap step of `removeVoxel`: the body of `if (index !== lastIndex)`.  When
`indexToKey[lastIndex]` is `undefined` (only with a broken index) the two index
writes are skipped. -/
def moveLast (g : VoxelGrid) (index lastIndex : Nat) : VoxelGrid :=
  let mesh1 := g.mesh.setMatrixAt index (g.mesh.getMatrixAt lastIndex)
  let mesh2 :=
    match mesh1.instanceColor with
    | some cs => mesh1.setColorAt index (InstancedMesh.getColorAt cs lastIndex)
    | none => mesh1
  match g.indexToKey[lastIndex]? with
  | some lastKey =>
    { g with
      mesh := mesh2
      keyToIndex := g.keyToIndex.set lastKey index
      indexToKey := arrayAssign g.indexToKey index lastKey }
  | none => { g with mesh := mesh2 }

/-- Source: `removeVoxel(x, y, z, history)`.  `count - 1` is a natural-number
subtraction (an occupied store has `count ≥ 1`), and a missing index entry for an
occupied key (only with a broken index) skips the swap step. -/
def removeVoxel (g : VoxelGrid) (x y z : Int) (history : Option VoxelHistory) : CallResult :=
  let key := keyFor x y z
  match g.grid.get key with
  | none => ⟨g, history, [], JsReturn.undefined⟩
  | some existing =>
    let lastIndex := g.count - 1
    let g1 :=
      match g.keyToIndex.get key with
      | some index => if index ≠ lastIndex then g.moveLast index lastIndex else g
      | none => g
    ⟨{ g1 with
        keyToIndex := g1.keyToIndex.delete key
        indexToKey := g1.indexToKey.dropLast
        grid := g1.grid.delete key
        mesh := { g1.mesh with count := g.count - 1 }
        count := g.count - 1 },
      recordRemoveOn history existing, [], JsReturn.undefined⟩

/-- Source: `clear()`. -/
def clear (g : VoxelGrid) : VoxelGrid :=
  { g with
    grid := []
    keyToIndex := []
    indexToKey := []
    count := 0
    mesh := { g.mesh with count := 0 } }

/-- Source: `exportData()`; the result is the `voxels` array. -/
def exportData (g : VoxelGrid) : List Voxel := g.grid.values

/-- Source: the loop of `importData`: `setVoxel(voxel.x, voxel.y, voxel.z, voxel, null)`
for every voxel. -/
def setAll (g : VoxelGrid) (voxels : List Voxel) : VoxelGrid :=
  voxels.foldl (fun acc voxel => (acc.setVoxel voxel.x voxel.y voxel.z voxel none).grid) g

/-- Source: `importData(data)`; `none` is a `data` without a `voxels` list. -/
def importData (g : VoxelGrid) (data : Option (List Voxel)) : VoxelGrid :=
  match data with
  | none => g.clear
  | some voxels => g.clear.setAll voxels

/-- Source: `forEachVoxel(callback)`: the records in the order the callback
receives them. -/
def forEachVoxel (g : VoxelGrid) : List Voxel := g.grid.map (fun e => e.2)

/-- Loop `for (const voxel of voxels) grid.removeVoxel(voxel.x, voxel.y, voxel.z, null)`. -/
def removeAll (g : VoxelGrid) (voxels : List Voxel) : VoxelGrid :=
  voxels.foldl (fun acc voxel => (acc.removeVoxel voxel.x voxel.y voxel.z none).grid) g

end VoxelGrid

/-- Outcome of `undo` / `redo`. -/
structure ReplayResult where
  history : VoxelHistory
  grid : VoxelGrid
  returned : JsReturn

namespace VoxelHistory

/-- Source: `undo(grid)`. -/
def undo (h : VoxelHistory) (grid : VoxelGrid) : ReplayResult :=
  match h.undoStack.getLast? with
  | none => ⟨h, grid, JsReturn.null⟩
  | some action =>
    let g1 := grid.removeAll action.adds
    let g2 := g1.setAll action.removes
    ⟨{ h with undoStack := h.undoStack.dropLast, redoStack := h.redoStack ++ [action] },
      g2, JsReturn.action action⟩

/-- Source: `redo(grid)`. -/
def redo (h : VoxelHistory) (grid : VoxelGrid) : ReplayResult :=
  match h.redoStack.getLast? with
  | none => ⟨h, grid, JsReturn.null⟩
  | some action =>
    let g1 := grid.removeAll action.removes
    let g2 := g1.setAll action.adds
    ⟨{ h with redoStack := h.redoStack.dropLast, undoStack := h.undoStack ++ [action] },
      g2, JsReturn.action action⟩

end VoxelHistory

/-- Store invariants with the exact mirror: the sparse map has one entry per key,
`count` is its size and stays within the capacity, the two index directions agree
on the slots `[0, count)`, every record carries its own coordinate, and the dense
buffer holds the position and the colour of the record of each occupied slot
themselves.  A store reached from the constructor satisfies them when the typed
arrays hold its coordinates and colours unchanged (`VoxelGrid.WF`,
`Voxel.fitsBuffer`). -/
structure VoxelGrid.Inv (g : VoxelGrid) : Prop where
  nodup : g.grid.keys.Nodup
  count_eq : g.count = g.grid.size
  count_le : g.count ≤ g.maxInstances
  i2k_len : g.indexToKey.length = g.count
  dom : ∀ k, g.keyToIndex.get k = none ↔ g.grid.get k = none
  k2i : ∀ k i, g.keyToIndex.get k = some i → g.indexToKey[i]? = some k
  i2k : ∀ i k, g.indexToKey[i]? = some k → g.keyToIndex.get k = some i
  rec_key : ∀ k v, g.grid.get k = some v → v.key = k
  mat_len : g.mesh.instanceMatrix.length = g.maxInstances
  col_len : ∀ cs, g.mesh.instanceColor = some cs → cs.length = g.maxInstances
  dense : ∀ k i v, g.keyToIndex.get k = some i → g.grid.get k = some v →
    g.mesh.positionAt i = some ⟨k.x, k.y, k.z⟩ ∧ g.mesh.colorAt i = some v.color

/-- Invariants of every store reached from the constructor: those of
`VoxelGrid.Inv`, with the dense buffer mirroring each occupied slot as the typed
arrays hold it (the position rounded by `float32`, the low 24 bits of the
colour). -/
structure VoxelGrid.WF (g : VoxelGrid) : Prop where
  nodup : g.grid.keys.Nodup
  count_eq : g.count = g.grid.size
  count_le : g.count ≤ g.maxInstances
  i2k_len : g.indexToKey.length = g.count
  dom : ∀ k, g.keyToIndex.get k = none ↔ g.grid.get k = none
  k2i : ∀ k i, g.keyToIndex.get k = some i → g.indexToKey[i]? = some k
  i2k : ∀ i k, g.indexToKey[i]? = some k → g.keyToIndex.get k = some i
  rec_key : ∀ k v, g.grid.get k = some v → v.key = k
  mat_len : g.mesh.instanceMatrix.length = g.maxInstances
  col_len : ∀ cs, g.mesh.instanceColor = some cs → cs.length = g.maxInstances
  dense : ∀ k i v, g.keyToIndex.get k = some i → g.grid.get k = some v →
    g.mesh.positionAt i = some ⟨float32 k.x, float32 k.y, float32 k.z⟩ ∧
    g.mesh.colorAt i = some (v.color % 16777216)

/-- The record is held exactly by the typed arrays: its coordinates are 32-bit
float values and its colour has at most 24 bits. -/
def Voxel.fitsBuffer (v : Voxel) : Bool :=
  decide (float32 v.x = JsNumber.int v.x) && decide (float32 v.y = JsNumber.int v.y) &&
    decide (float32 v.z = JsNumber.int v.z) && decide (v.color < 16777216)

/-- A call on the store made by its users; `recorded` tells whether the history
object is passed (`true`) or `null` (`false`). -/
inductive Call where
  | setVoxel (x y z : Int) (voxel : Voxel) (recorded : Bool)
  | removeVoxel (x y z : Int) (recorded : Bool)
  | clear
  | importData (data : Option (List Voxel))
deriving DecidableEq, Repr

/-- The store together with the history object of the application. -/
structure World where
  grid : VoxelGrid
  history : VoxelHistory
deriving DecidableEq, Repr

/-- The history argument of a call. -/
def World.historyArg (w : World) (recorded : Bool) : Option VoxelHistory :=
  if recorded then some w.history else none

/-- One call on the world. -/
def World.step (w : World) : Call → World
  | Call.setVoxel x y z voxel recorded =>
    let r := w.grid.setVoxel x y z voxel (w.historyArg recorded)
    ⟨r.grid, r.history.getD w.history⟩
  | Call.removeVoxel x y z recorded =>
    let r := w.grid.removeVoxel x y z (w.historyArg recorded)
    ⟨r.grid, r.history.getD w.history⟩
  | Call.clear => ⟨w.grid.clear, w.history⟩
  | Call.importData data => ⟨w.grid.importData data, w.history⟩

/-- A sequence of calls, in order. -/
def World.run (w : World) (calls : List Call) : World := calls.foldl World.step w

/-- The call is `setVoxel` or `removeVoxel`. -/
def Call.isEdit : Call → Bool
  | Call.setVoxel _ _ _ _ _ => true
  | Call.removeVoxel _ _ _ _ => true
  | _ => false

/-- A freshly constructed store with any history object. -/
def World.fresh (maxInstances : Nat) (h : VoxelHistory) : World :=
  ⟨VoxelGrid.create maxInstances, h⟩

/-- Record `A` of the scenarios, placed at `(0,0,0)`. -/
def voxelA : Voxel := ⟨0, 0, 0, 0x8b5a2b, VoxelType.wood⟩

/-- Record `B` of the scenarios, placed at `(1,0,0)`. -/
def voxelB : Voxel := ⟨1, 0, 0, 0x2e8b57, VoxelType.leaf⟩

/-- Record `C` of the scenarios, placed at `(2,0,0)`. -/
def voxelC : Voxel := ⟨2, 0, 0, 0x6b4226, VoxelType.wood⟩

/-- Store of the scenarios: `A`, `B`, `C` inserted in this order (as far as the
capacity allows) into a fresh store, without history. -/
def storeABC (maxInstances : Nat) : VoxelGrid :=
  (VoxelGrid.create maxInstances).setAll [voxelA, voxelB, voxelC]

/-- Store holding `A` only. -/
def storeA (maxInstances : Nat) : VoxelGrid :=
  (VoxelGrid.create maxInstances).setAll [voxelA]

/-- The call is `removeVoxel`. -/
def Call.isRemove : Call → Bool
  | Call.removeVoxel _ _ _ _ => true
  | _ => false

/-- A second record for `(0,0,0)`, with another colour and kind than `A`. -/
def voxelA2 : Voxel := ⟨0, 0, 0, 0x66bb6a, VoxelType.leaf⟩

/-- An edit made inside a transaction: `setVoxel` / `removeVoxel` passed the history. -/
inductive Edit where
  | set (x y z : Int) (voxel : Voxel)
  | remove (x y z : Int)
deriving DecidableEq, Repr

/-- The store call an edit makes. -/
def Edit.toCall : Edit → Call
  | Edit.set x y z voxel => Call.setVoxel x y z voxel true
  | Edit.remove x y z => Call.removeVoxel x y z true

/-- Caller side `history.begin(label)`. -/
def World.begin (w : World) (label : String) : World :=
  { w with history := w.history.begin label }

/-- Caller side `history.commit()`. -/
def World.commit (w : World) : World :=
  { w with history := w.history.commit }

/-- Caller side `history.undo(voxelGrid)`. -/
def World.undo (w : World) : World :=
  ⟨(w.history.undo w.grid).grid, (w.history.undo w.grid).history⟩

/-- Caller side `history.redo(voxelGrid)`. -/
def World.redo (w : World) : World :=
  ⟨(w.history.redo w.grid).grid, (w.history.redo w.grid).history⟩

/-- The edits of a transaction, before `commit`. -/
def World.edit (w : World) (label : String) (edits : List Edit) : World :=
  (w.begin label).run (edits.map Edit.toCall)

/-- A whole transaction: `begin(label)`, the edits, `commit()`. -/
def World.transaction (w : World) (label : String) (edits : List Edit) : World :=
  (w.edit label edits).commit

/-- The open transaction has recorded at least one add or remove. -/
def World.hasRecorded (w : World) : Bool :=
  match w.history.current with
  | some t => !t.adds.isEmpty || !t.removes.isEmpty
  | none => false

/-- Restriction on the edits of a transaction, checked call by call: no
`setVoxel` changes the colour or kind of an occupied coordinate, and no
`removeVoxel` targets a coordinate the open transaction has added. -/
def World.admissible : World → List Edit → Bool
  | _, [] => true
  | w, Edit.set x y z voxel :: rest =>
    (match w.grid.getVoxel x y z with
      | some e => decide (e.color = voxel.color ∧ e.type = voxel.type)
      | none => true) &&
    World.admissible (w.step (Call.setVoxel x y z voxel true)) rest
  | w, Edit.remove x y z :: rest =>
    (match w.history.current with
      | some t => decide (keyFor x y z ∉ t.adds.map Voxel.key)
      | none => true) &&
    World.admissible (w.step (Call.removeVoxel x y z true)) rest

/-- Relation between the store `g0` at `begin`, the current store `g` and the open
transaction `t`, kept by admissible edits. -/
structure TxInv (g0 g : VoxelGrid) (t : Transaction) : Prop where
  inv : g.WF
  cap : g.maxInstances = g0.maxInstances
  adds_nodup : (t.adds.map Voxel.key).Nodup
  removes_nodup : (t.removes.map Voxel.key).Nodup
  adds_cur : ∀ a ∈ t.adds, g.grid.get a.key = some a
  adds_old : ∀ a ∈ t.adds, g0.grid.get a.key = none ∨ a.key ∈ t.removes.map Voxel.key
  removes_old : ∀ r ∈ t.removes, g0.grid.get r.key = some r
  removes_cur : ∀ r ∈ t.removes, r.key ∉ t.adds.map Voxel.key → g.grid.get r.key = none
  other : ∀ k, k ∉ t.adds.map Voxel.key → k ∉ t.removes.map Voxel.key →
    g.grid.get k = g0.grid.get k

/-- The transaction of the scenario: set `A`, set `B`, remove `(0,0,0)`. -/
def scenarioEdits : List Edit :=
  [Edit.set 0 0 0 voxelA, Edit.set 1 0 0 voxelB, Edit.remove 0 0 0]

/-- A fresh store of capacity 4 with a fresh history of depth 50. -/
def scenarioWorld : World := World.fresh 4 (VoxelHistory.create 50)

/-- A transaction within the restriction: remove `(0,0,0)`, set `B`, set a new record
at `(0,0,0)`. -/
def restrictedEdits : List Edit :=
  [Edit.remove 0 0 0, Edit.set 1 0 0 voxelB, Edit.set 0 0 0 voxelA2]

/-- A store of capacity 4 holding `A`, with a fresh history of depth 50. -/
def restrictedWorld : World := ⟨storeA 4, VoxelHistory.create 50⟩

/-- Calls of a sample session on a store of capacity 2: two recorded insertions and
one unrecorded removal. -/
def sampleCalls : List Call :=
  [Call.setVoxel 0 0 0 voxelA true, Call.setVoxel 1 0 0 voxelB true,
    Call.removeVoxel 0 0 0 false]

/-- What the interaction layer does for one transaction on the history alone:
`begin(label)`, `recordAdd` for every add, `recordRemove` for every remove,
`commit()`. -/
def VoxelHistory.commitTransaction (h : VoxelHistory) (t : Transaction) : VoxelHistory :=
  (t.removes.foldl VoxelHistory.recordRemove
    (t.adds.foldl VoxelHistory.recordAdd (h.begin t.label))).commit

/-- Committing transactions one after the other, no `undo` / `redo` in between. -/
def VoxelHistory.commitAll (h : VoxelHistory) (ts : List Transaction) : VoxelHistory :=
  ts.foldl VoxelHistory.commitTransaction h

/-- The transaction has recorded at least one add or remove. -/
def Transaction.nonEmpty (t : Transaction) : Bool := !t.adds.isEmpty || !t.removes.isEmpty

/-- Return values of `k` consecutive `undo` calls. -/
def World.undoReturns : World → Nat → List JsReturn
  | _, 0 => []
  | w, k + 1 => (w.history.undo w.grid).returned :: World.undoReturns w.undo k

/-- A transaction that adds `A`. -/
def txA : Transaction := ⟨"a", [voxelA], []⟩

/-- A transaction that adds `B`. -/
def txB : Transaction := ⟨"b", [voxelB], []⟩

/-- A transaction that removes `C`. -/
def txC : Transaction := ⟨"c", [], [voxelC]⟩

/-- A history whose redo stack holds `txA`: `txA` committed, then undone on the store
holding `A`. -/
def historyWithRedo : VoxelHistory :=
  (World.undo ⟨storeA 4, (VoxelHistory.create 50).commitAll [txA]⟩).history

/-- Key of the coordinate an edit targets. -/
def Edit.key : Edit → Key
  | Edit.set x y z _ => keyFor x y z
  | Edit.remove x y z => keyFor x y z

/-- World of the store holding `A` with the transaction `t1` open, after
`removeVoxel(0,0,0)` and `setVoxel(0,0,0,A)`: `(0,0,0)` holds `A` again. -/
def reinsertedWorld : World :=
  (restrictedWorld.begin "t1").run [Call.removeVoxel 0 0 0 true, Call.setVoxel 0 0 0 voxelA true]

/-- World of the store holding `A` and `B` with the transaction `t1` open, in which
`B` has been inserted. -/
def openWorldAB : World :=
  (restrictedWorld.begin "t1").run [Call.setVoxel 1 0 0 voxelB true]

/-- A store call replayed by the history, without recording. -/
inductive ReplayStep where
  | remove (x y z : Int)
  | set (x y z : Int) (voxel : Voxel)
deriving DecidableEq, Repr

/-- Effect of one replayed call on the store. -/
def ReplayStep.apply (g : VoxelGrid) : ReplayStep → VoxelGrid
  | ReplayStep.remove x y z => (g.removeVoxel x y z none).grid
  | ReplayStep.set x y z voxel => (g.setVoxel x y z voxel none).grid

/-- Reference definition of `undo`, following the specification's wording:
`removeVoxel(coordinate)` for every entry of `adds` in list order, then
`setVoxel(coordinate, voxel)` for every entry of `removes` in list order. -/
def undoReference (g : VoxelGrid) (t : Transaction) : VoxelGrid :=
  (t.adds.map (fun v => ReplayStep.remove v.x v.y v.z)
    ++ t.removes.map (fun v => ReplayStep.set v.x v.y v.z v)).foldl ReplayStep.apply g

/-- Reference definition of `redo`, following the specification's wording:
`removeVoxel(coordinate)` for every entry of `removes` in list order, then
`setVoxel(coordinate, voxel)` for every entry of `adds` in list order. -/
def redoReference (g : VoxelGrid) (t : Transaction) : VoxelGrid :=
  (t.removes.map (fun v => ReplayStep.remove v.x v.y v.z)
    ++ t.adds.map (fun v => ReplayStep.set v.x v.y v.z v)).foldl ReplayStep.apply g

/-- The last entry of a list of records that lies at the coordinate `k`. -/
def lastAt (voxels : List Voxel) (k : Key) : Option Voxel :=
  (voxels.filter (fun v => decide (v.key = k))).getLast?

/-- World of capacity 1 in which the transaction `set((0,0,0),A); remove((0,0,0))`
has been committed and `B` has then been inserted at `(1,0,0)` without history: the
store is full and the transaction is on top of the undo stack. -/
def fullWorld : World :=
  ((World.fresh 1 (VoxelHistory.create 50)).transaction "t1"
    [Edit.set 0 0 0 voxelA, Edit.remove 0 0 0]).step (Call.setVoxel 1 0 0 voxelB false)

/-- Restriction of the restricted inverse law, checked call by call: every
`setVoxel` targets a coordinate that is unoccupied at the time of the call, and no
`removeVoxel` targets a coordinate the open transaction has added. -/
def World.restricted : World → List Edit → Bool
  | _, [] => true
  | w, Edit.set x y z voxel :: rest =>
    !(w.grid.hasVoxel x y z) &&
    World.restricted (w.step (Call.setVoxel x y z voxel true)) rest
  | w, Edit.remove x y z :: rest =>
    (match w.history.current with
      | some t => decide (keyFor x y z ∉ t.adds.map Voxel.key)
      | none => true) &&
    World.restricted (w.step (Call.removeVoxel x y z true)) rest

/-- A call on the history object. -/
inductive HistoryCall where
  | begin (label : String)
  | recordAdd (voxel : Voxel)
  | recordRemove (voxel : Voxel)
  | commit
  | cancel
  | undo
  | redo
deriving DecidableEq, Repr

/-- One history call; `undo` and `redo` act on the store of the world. -/
def World.historyStep (w : World) : HistoryCall → World
  | HistoryCall.begin label => { w with history := w.history.begin label }
  | HistoryCall.recordAdd voxel => { w with history := w.history.recordAdd voxel }
  | HistoryCall.recordRemove voxel => { w with history := w.history.recordRemove voxel }
  | HistoryCall.commit => { w with history := w.history.commit }
  | HistoryCall.cancel => { w with history := w.history.cancel }
  | HistoryCall.undo => w.undo
  | HistoryCall.redo => w.redo

/-- A sequence of history calls, in order. -/
def World.historyRun (w : World) (calls : List HistoryCall) : World :=
  calls.foldl World.historyStep w

/-- Material name of a colour (source: `materialName(color)`, the string `mat_`
followed by the colour in hexadecimal, padded to six digits).  The string
determines the colour, so it is modelled by the colour it names. -/
structure MaterialName where
  color : Nat
deriving DecidableEq, Repr

/-- Source: `materialName(color)`. -/
def materialName (color : Nat) : MaterialName := ⟨color⟩

/-- A line of the OBJ text.  A vertex line `v x y z` carries its coordinates in
half units (the source adds `±0.5` to integer coordinates); a face line
`f a b c d` carries its four vertex numbers. -/
inductive ObjLine where
  | mtllib
  | object
  | usemtl (mat : MaterialName)
  | v (x2 y2 z2 : Int)
  | f (a b c d : Nat)
deriving DecidableEq, Repr

/-- Entry of `FACE_DEFS`: the direction of the neighbour and the four corners, in
half units. -/
structure FaceDef where
  dir : Int × Int × Int
  corners : List (Int × Int × Int)
deriving DecidableEq, Repr

/-- Source: `FACE_DEFS` (corner offsets `±0.5` written as `±1` half units). -/
def FACE_DEFS : List FaceDef :=
  [⟨(1, 0, 0), [(1, -1, -1), (1, -1, 1), (1, 1, 1), (1, 1, -1)]⟩,
   ⟨(-1, 0, 0), [(-1, -1, 1), (-1, -1, -1), (-1, 1, -1), (-1, 1, 1)]⟩,
   ⟨(0, 1, 0), [(-1, 1, -1), (1, 1, -1), (1, 1, 1), (-1, 1, 1)]⟩,
   ⟨(0, -1, 0), [(-1, -1, 1), (1, -1, 1), (1, -1, -1), (-1, -1, -1)]⟩,
   ⟨(0, 0, 1), [(1, -1, 1), (-1, -1, 1), (-1, 1, 1), (1, 1, 1)]⟩,
   ⟨(0, 0, -1), [(-1, -1, -1), (1, -1, -1), (1, 1, -1), (-1, 1, -1)]⟩]

/-- Local state of `exportOBJ`: `materials`, `facesByMaterial`, `vertexIndex`. -/
structure ExportState where
  materials : JsMap MaterialName Nat
  facesByMaterial : JsMap MaterialName (List ObjLine)
  vertexIndex : Nat
deriving DecidableEq, Repr

/-- Source: the callback of `FACE_DEFS.forEach` in `exportOBJ`.  The array
`facesByMaterial.get(matName)` exists at this point (it is created just before the
loop); pushing onto it is a `set` that keeps the key in place. -/
def exportFace (grid : VoxelGrid) (voxel : Voxel) (matName : MaterialName)
    (st : ExportState) (face : FaceDef) : ExportState :=
  let nx := voxel.x + face.dir.1
  let ny := voxel.y + face.dir.2.1
  let nz := voxel.z + face.dir.2.2
  if grid.hasVoxel nx ny nz then st
  else
    let vertices := face.corners.map (fun corner =>
      ObjLine.v (2 * voxel.x + corner.1) (2 * voxel.y + corner.2.1) (2 * voxel.z + corner.2.2))
    let faceLine := ObjLine.f st.vertexIndex (st.vertexIndex + 1) (st.vertexIndex + 2)
      (st.vertexIndex + 3)
    let lines := (st.facesByMaterial.get matName).getD []
    { st with
      vertexIndex := st.vertexIndex + 4
      facesByMaterial := st.facesByMaterial.set matName (lines ++ vertices ++ [faceLine]) }

/-- Source: the callback of `grid.forEachVoxel` in `exportOBJ`. -/
def exportVoxel (grid : VoxelGrid) (st : ExportState) (voxel : Voxel) : ExportState :=
  let matName := materialName voxel.color
  let materials1 :=
    if st.materials.has matName then st.materials else st.materials.set matName voxel.color
  let faces1 :=
    if st.facesByMaterial.has matName then st.facesByMaterial
    else st.facesByMaterial.set matName []
  FACE_DEFS.foldl (exportFace grid voxel matName)
    { st with materials := materials1, facesByMaterial := faces1 }

/-- Result of `exportOBJ`: the lines of `obj` (joined by newlines in the source) and
the materials from which the `mtl` text is printed (its colour formatting is not
modelled). -/
structure ObjExport where
  obj : List ObjLine
  materials : JsMap MaterialName Nat
deriving DecidableEq, Repr

/-- Source: `exportOBJ(grid)`. -/
def exportOBJ (grid : VoxelGrid) : ObjExport :=
  let st := grid.forEachVoxel.foldl (exportVoxel grid) ⟨[], [], 1⟩
  let header := [ObjLine.mtllib, ObjLine.object]
  let body := st.facesByMaterial.foldl
    (fun objLines entry => objLines ++ (ObjLine.usemtl entry.1 :: entry.2)) header
  ⟨body, st.materials⟩

/-- The line is a vertex line. -/
def ObjLine.isVertex : ObjLine → Bool
  | ObjLine.v _ _ _ => true
  | _ => false

/-- Number of vertex lines among the first `n` lines: the OBJ number of the last
vertex defined before line `n`. -/
def vertexLinesBefore (lines : List ObjLine) (n : Nat) : Nat :=
  ((lines.take n).filter ObjLine.isVertex).length

/-- The property of a face line at position `i` (from 0): the four lines before it
are vertex lines and its numbers are the OBJ numbers of exactly those four lines.
Positions that hold no face line satisfy it. -/
def faceOwnsItsVertices (lines : List ObjLine) (i : Nat) : Bool :=
  match lines[i]? with
  | some (ObjLine.f a b c d) =>
    decide (4 ≤ i) &&
    ((lines.drop (i - 4)).take 4).all ObjLine.isVertex &&
    decide (a = vertexLinesBefore lines (i - 4) + 1) &&
    decide (b = vertexLinesBefore lines (i - 4) + 2) &&
    decide (c = vertexLinesBefore lines (i - 4) + 3) &&
    decide (d = vertexLinesBefore lines (i - 4) + 4)
  | _ => true

/-- Every face line of the text has the property. -/
def allFacesOwnTheirVertices (lines : List ObjLine) : Bool :=
  (List.range lines.length).all (faceOwnsItsVertices lines)

/-- Record `D` of the export scenario: the colour of `A`, placed at `(4,0,0)`. -/
def voxelD : Voxel := ⟨4, 0, 0, 0x8b5a2b, VoxelType.wood⟩

/-- Store in which the colours alternate in iteration order: `A` at `(0,0,0)`, `C` (another
colour) at `(2,0,0)`, `D` (the colour of `A`) at `(4,0,0)`. -/
def storeACD : VoxelGrid := (VoxelGrid.create 3).setAll [voxelA, voxelC, voxelD]

/-- Store with two colours that do not alternate: `A` at `(0,0,0)`, `C` at `(2,0,0)`. -/
def storeAC : VoxelGrid := (VoxelGrid.create 3).setAll [voxelA, voxelC]

/-- A record outside the range of the typed arrays: `x` needs 25 significant bits
and the colour has a 25th bit. -/
def voxelFar : Voxel := ⟨16777217, 0, 0, 0x1000000, VoxelType.wood⟩

/-- Insertion order after `setVoxel` on the coordinate `k`: an occupied coordinate
keeps its place, a new one goes last if the store has room. -/
def insertionOrderSet (maxInstances : Nat) (order : List Key) (k : Key) : List Key :=
  if k ∈ order then order
  else if order.length < maxInstances then order ++ [k]
  else order

/-- Insertion order after one call: `removeVoxel` takes the coordinate out,
`clear` empties the list, `importData` starts over with its voxels. -/
def insertionOrderStep (maxInstances : Nat) (order : List Key) : Call → List Key
  | Call.setVoxel x y z _ _ => insertionOrderSet maxInstances order (keyFor x y z)
  | Call.removeVoxel x y z _ => order.filter (fun k => k != keyFor x y z)
  | Call.clear => []
  | Call.importData none => []
  | Call.importData (some voxels) =>
    voxels.foldl (fun acc voxel => insertionOrderSet maxInstances acc voxel.key) []

/-- Reference for the snapshot order, computed from the calls alone: the occupied
coordinates in the order in which they became occupied. -/
def insertionOrder (maxInstances : Nat) (calls : List Call) : List Key :=
  calls.foldl (insertionOrderStep maxInstances) []

/-- Three insertions and the removal of the first one. -/
def removalCalls : List Call :=
  [Call.setVoxel 0 0 0 voxelA true, Call.setVoxel 1 0 0 voxelB false,
    Call.setVoxel 2 0 0 voxelC true, Call.removeVoxel 0 0 0 false]

/-! ## Lemmas on the insertion-ordered map -/

section JsMapLemmas

variable {κ α : Type} [DecidableEq κ]

theorem JsMap.get_set_self (m : JsMap κ α) (k : κ) (v : α) : (m.set k v).get k = some v := by
  induction m with
  | nil => simp [JsMap.set, JsMap.get]
  | cons e m ih =>
    obtain ⟨k', v'⟩ := e
    by_cases h : k' = k
    · simp [JsMap.set, JsMap.get, h]
    · simp [JsMap.set, JsMap.get, h, ih]

theorem JsMap.get_set_ne (m : JsMap κ α) {k k2 : κ} (v : α) (hne : k2 ≠ k) :
    (m.set k v).get k2 = m.get k2 := by
  induction m with
  | nil => simp [JsMap.set, JsMap.get, Ne.symm hne]
  | cons e m ih =>
    obtain ⟨k', v'⟩ := e
    by_cases h : k' = k
    · subst h
      simp [JsMap.set, JsMap.get, Ne.symm hne]
    · by_cases h2 : k' = k2
      · subst h2
        simp [JsMap.set, JsMap.get, h]
      · simp [JsMap.set, JsMap.get, h, h2, ih]

theorem JsMap.get_delete_self (m : JsMap κ α) (k : κ) : (m.delete k).get k = none := by
  induction m with
  | nil => simp [JsMap.delete, JsMap.get]
  | cons e m ih =>
    obtain ⟨k', v'⟩ := e
    by_cases h : k' = k
    · simp [JsMap.delete, h, ih]
    · simp [JsMap.delete, JsMap.get, h, ih]

theorem JsMap.get_delete_ne (m : JsMap κ α) {k k2 : κ} (hne : k2 ≠ k) :
    (m.delete k).get k2 = m.get k2 := by
  induction m with
  | nil => simp [JsMap.delete, JsMap.get]
  | cons e m ih =>
    obtain ⟨k', v'⟩ := e
    by_cases h : k' = k
    · subst h
      simp [JsMap.delete, JsMap.get, Ne.symm hne, ih]
    · by_cases h2 : k' = k2
      · subst h2
        simp [JsMap.delete, JsMap.get, h]
      · simp [JsMap.delete, JsMap.get, h, h2, ih]

theorem JsMap.get_eq_none_iff (m : JsMap κ α) (k : κ) : m.get k = none ↔ k ∉ m.keys := by
  induction m with
  | nil => simp [JsMap.get, JsMap.keys]
  | cons e m ih =>
    obtain ⟨k', v'⟩ := e
    by_cases h : k' = k
    · simp [JsMap.get, JsMap.keys, h]
    · have ih2 : JsMap.get m k = none ↔ k ∉ List.map Prod.fst m := ih
      simp only [JsMap.get, h, if_false, ih2, JsMap.keys, List.map_cons, List.mem_cons]
      constructor
      · intro hm hc
        rcases hc with hc | hc
        · exact h hc.symm
        · exact hm hc
      · intro hm hc
        exact hm (Or.inr hc)

theorem JsMap.set_of_get_none (m : JsMap κ α) (k : κ) (v : α) (hk : m.get k = none) :
    m.set k v = m ++ [(k, v)] := by
  induction m with
  | nil => simp [JsMap.set]
  | cons e m ih =>
    obtain ⟨k', v'⟩ := e
    by_cases h : k' = k
    · simp [JsMap.get, h] at hk
    · simp only [JsMap.get, h, if_false] at hk
      simp [JsMap.set, h, ih hk]

theorem JsMap.keys_set_of_get_some (m : JsMap κ α) (k : κ) (v w : α) (hk : m.get k = some w) :
    (m.set k v).keys = m.keys := by
  induction m with
  | nil => simp [JsMap.get] at hk
  | cons e m ih =>
    obtain ⟨k', v'⟩ := e
    by_cases h : k' = k
    · simp [JsMap.set, JsMap.keys, h]
    · simp only [JsMap.get, h, if_false] at hk
      have := ih hk
      simp only [JsMap.keys] at this
      simp [JsMap.set, JsMap.keys, h, this]

theorem JsMap.keys_delete (m : JsMap κ α) (k : κ) :
    (m.delete k).keys = m.keys.filter (fun k2 => k2 != k) := by
  induction m with
  | nil => simp [JsMap.delete, JsMap.keys]
  | cons e m ih =>
    obtain ⟨k', v'⟩ := e
    simp only [JsMap.keys] at ih
    by_cases h : k' = k
    · simp [JsMap.delete, JsMap.keys, h, ih]
    · simp [JsMap.delete, JsMap.keys, h, ih]

theorem JsMap.nodup_keys_delete (m : JsMap κ α) (k : κ) (hm : m.keys.Nodup) :
    (m.delete k).keys.Nodup := by
  rw [JsMap.keys_delete]
  exact hm.filter _

theorem JsMap.length_delete (m : JsMap κ α) (k : κ) (v : α) (hm : m.keys.Nodup)
    (hk : m.get k = some v) : (m.delete k).length + 1 = m.length := by
  have hmem : k ∈ m.keys := by
    by_contra hc
    rw [(JsMap.get_eq_none_iff m k).mpr hc] at hk
    cases hk
  have h1 : (m.delete k).length = (m.delete k).keys.length := by simp [JsMap.keys]
  have h2 : m.length = m.keys.length := by simp [JsMap.keys]
  rw [h1, h2, JsMap.keys_delete, ← List.Nodup.erase_eq_filter hm k,
    List.length_erase_of_mem hmem]
  have : 0 < m.keys.length := List.length_pos_of_mem hmem
  omega

end JsMapLemmas

theorem JsMap.mem_of_get {κ α : Type} [DecidableEq κ] (m : JsMap κ α) (k : κ) (v : α)
    (h : JsMap.get m k = some v) : (k, v) ∈ m := by
  induction m with
  | nil => simp [JsMap.get] at h
  | cons e m ih =>
    obtain ⟨k', v'⟩ := e
    by_cases hk : k' = k
    · subst hk
      simp only [JsMap.get, if_true, Option.some.injEq] at h
      subst h
      exact List.mem_cons_self _ _
    · simp only [JsMap.get, hk, if_false] at h
      exact List.mem_cons_of_mem _ (ih h)

theorem JsMap.get_of_mem {κ α : Type} [DecidableEq κ] (m : JsMap κ α) (k : κ) (v : α)
    (hm : JsMap.keys m |>.Nodup) (h : (k, v) ∈ m) : JsMap.get m k = some v := by
  induction m with
  | nil => cases h
  | cons e m ih =>
    obtain ⟨k', v'⟩ := e
    simp only [JsMap.keys, List.map_cons, List.nodup_cons] at hm
    rcases List.mem_cons.mp h with heq | hmem
    · cases heq
      simp [JsMap.get]
    · have hk : k' ≠ k := by
        intro hc
        subst hc
        exact hm.1 (List.mem_map_of_mem Prod.fst hmem)
      simp only [JsMap.get, hk, if_false]
      exact ih hm.2 hmem

/-! ## The branches of `setVoxel` and `removeVoxel` -/

theorem setVoxel_same (g : VoxelGrid) (x y z : Int) (voxel : Voxel)
    (history : Option VoxelHistory) (e : Voxel) (he : g.grid.get (keyFor x y z) = some e)
    (hc : e.color = voxel.color) (ht : e.type = voxel.type) :
    g.setVoxel x y z voxel history = ⟨g, history, [], JsReturn.undefined⟩ := by
  simp [VoxelGrid.setVoxel, he, hc, ht]

theorem setVoxel_update (g : VoxelGrid) (x y z : Int) (voxel : Voxel)
    (history : Option VoxelHistory) (e : Voxel) (index : Nat)
    (he : g.grid.get (keyFor x y z) = some e)
    (hd : e.color ≠ voxel.color ∨ e.type ≠ voxel.type)
    (hi : g.keyToIndex.get (keyFor x y z) = some index) :
    g.setVoxel x y z voxel history =
      ⟨{ g with grid := g.grid.set (keyFor x y z) (voxel.withCoord x y z),
                mesh := g.mesh.setColorAt index (setHex voxel.color) },
        history, [], JsReturn.undefined⟩ := by
  simp only [VoxelGrid.setVoxel, he, hi]
  rw [if_pos hd]

theorem setVoxel_full (g : VoxelGrid) (x y z : Int) (voxel : Voxel)
    (history : Option VoxelHistory) (he : g.grid.get (keyFor x y z) = none)
    (hc : g.maxInstances ≤ g.count) :
    g.setVoxel x y z voxel history =
      ⟨g, history, ["Voxel instance limit reached."], JsReturn.undefined⟩ := by
  simp only [VoxelGrid.setVoxel, he]
  rw [if_pos hc]

theorem setVoxel_insert (g : VoxelGrid) (x y z : Int) (voxel : Voxel)
    (history : Option VoxelHistory) (he : g.grid.get (keyFor x y z) = none)
    (hc : g.count < g.maxInstances) :
    g.setVoxel x y z voxel history =
      ⟨{ g with
          keyToIndex := g.keyToIndex.set (keyFor x y z) g.count
          indexToKey := arrayAssign g.indexToKey g.count (keyFor x y z)
          grid := g.grid.set (keyFor x y z) (voxel.withCoord x y z)
          mesh := { (g.mesh.setMatrixAt g.count ⟨x, y, z⟩).setColorAt g.count
                      (setHex voxel.color) with count := g.count + 1 }
          count := g.count + 1 },
        recordAddOn history (voxel.withCoord x y z), [], JsReturn.undefined⟩ := by
  simp only [VoxelGrid.setVoxel, he]
  rw [if_neg (by simpa using hc)]

theorem removeVoxel_absent (g : VoxelGrid) (x y z : Int) (history : Option VoxelHistory)
    (he : g.grid.get (keyFor x y z) = none) :
    g.removeVoxel x y z history = ⟨g, history, [], JsReturn.undefined⟩ := by
  simp [VoxelGrid.removeVoxel, he]

theorem removeVoxel_last (g : VoxelGrid) (x y z : Int) (history : Option VoxelHistory)
    (e : Voxel) (he : g.grid.get (keyFor x y z) = some e)
    (hi : g.keyToIndex.get (keyFor x y z) = some (g.count - 1)) :
    g.removeVoxel x y z history =
      ⟨{ g with
          keyToIndex := g.keyToIndex.delete (keyFor x y z)
          indexToKey := g.indexToKey.dropLast
          grid := g.grid.delete (keyFor x y z)
          mesh := { g.mesh with count := g.count - 1 }
          count := g.count - 1 },
        recordRemoveOn history e, [], JsReturn.undefined⟩ := by
  simp [VoxelGrid.removeVoxel, he, hi]

theorem removeVoxel_swap (g : VoxelGrid) (x y z : Int) (history : Option VoxelHistory)
    (e : Voxel) (index : Nat) (lastKey : Key) (cs : List StoredColor)
    (he : g.grid.get (keyFor x y z) = some e)
    (hi : g.keyToIndex.get (keyFor x y z) = some index) (hne : index ≠ g.count - 1)
    (hlast : g.indexToKey[g.count - 1]? = some lastKey)
    (hcs : g.mesh.instanceColor = some cs) :
    g.removeVoxel x y z history =
      ⟨{ g with
          keyToIndex := (g.keyToIndex.set lastKey index).delete (keyFor x y z)
          indexToKey := (arrayAssign g.indexToKey index lastKey).dropLast
          grid := g.grid.delete (keyFor x y z)
          mesh := { (g.mesh.setMatrixAt index (g.mesh.getMatrixAt (g.count - 1))).setColorAt
                      index (InstancedMesh.getColorAt cs (g.count - 1))
                    with count := g.count - 1 }
          count := g.count - 1 },
        recordRemoveOn history e, [], JsReturn.undefined⟩ := by
  have hcs1 : (g.mesh.setMatrixAt index (g.mesh.getMatrixAt (g.count - 1))).instanceColor
      = some cs := hcs
  simp [VoxelGrid.removeVoxel, he, hi, hne, VoxelGrid.moveLast, hlast, hcs1]

theorem removeVoxel_grid_present (g : VoxelGrid) (x y z : Int)
    (history : Option VoxelHistory) (e : Voxel) (he : g.grid.get (keyFor x y z) = some e) :
    (g.removeVoxel x y z history).grid.grid = g.grid.delete (keyFor x y z) := by
  simp only [VoxelGrid.removeVoxel, he]
  split
  · split
    · unfold VoxelGrid.moveLast
      simp only []
      split <;> rfl
    · rfl
  · rfl

/-! ## Consequences of the store invariants -/

theorem VoxelGrid.WF.index_lt {g : VoxelGrid} (hg : g.WF) {k : Key} {i : Nat}
    (hi : g.keyToIndex.get k = some i) : i < g.count := by
  have h := hg.k2i k i hi
  rw [List.getElem?_eq_some_iff] at h
  obtain ⟨hlt, _⟩ := h
  rw [hg.i2k_len] at hlt
  exact hlt

theorem VoxelGrid.WF.index_inj {g : VoxelGrid} (hg : g.WF) {k1 k2 : Key} {i : Nat}
    (h1 : g.keyToIndex.get k1 = some i) (h2 : g.keyToIndex.get k2 = some i) : k1 = k2 := by
  have a := hg.k2i k1 i h1
  have b := hg.k2i k2 i h2
  rw [a] at b
  exact Option.some.inj b

theorem VoxelGrid.WF.has_index {g : VoxelGrid} (hg : g.WF) {k : Key} {v : Voxel}
    (hv : g.grid.get k = some v) : ∃ i, g.keyToIndex.get k = some i := by
  cases hi : g.keyToIndex.get k with
  | none =>
    rw [(hg.dom k).mp hi] at hv
    cases hv
  | some i => exact ⟨i, rfl⟩

theorem VoxelGrid.WF.has_record {g : VoxelGrid} (hg : g.WF) {k : Key} {i : Nat}
    (hi : g.keyToIndex.get k = some i) : ∃ v, g.grid.get k = some v := by
  cases hv : g.grid.get k with
  | none =>
    rw [(hg.dom k).mpr hv] at hi
    cases hi
  | some v => exact ⟨v, rfl⟩

theorem VoxelGrid.WF.has_colors {g : VoxelGrid} (hg : g.WF) {k : Key} {i : Nat}
    (hi : g.keyToIndex.get k = some i) :
    ∃ cs, g.mesh.instanceColor = some cs ∧ cs.length = g.maxInstances := by
  obtain ⟨v, hv⟩ := hg.has_record hi
  have h := (hg.dense k i v hi hv).2
  cases hcs : g.mesh.instanceColor with
  | none => simp [InstancedMesh.colorAt, hcs] at h
  | some cs => exact ⟨cs, rfl, hg.col_len cs hcs⟩

theorem VoxelGrid.WF.last_key {g : VoxelGrid} (hg : g.WF) (hpos : 0 < g.count) :
    ∃ lastKey, g.indexToKey[g.count - 1]? = some lastKey := by
  have hlt : g.count - 1 < g.indexToKey.length := by
    rw [hg.i2k_len]
    omega
  exact ⟨g.indexToKey[g.count - 1], List.getElem?_eq_getElem hlt⟩

/-! ## The dense buffer -/

theorem float32Shift_spec (fuel mag : Nat) (h : mag ≤ fuel) :
    mag / 2 ^ float32Shift fuel mag < 16777216 ∧
      (0 < float32Shift fuel mag → 16777216 ≤ mag / 2 ^ (float32Shift fuel mag - 1)) := by
  induction fuel generalizing mag with
  | zero =>
    have : mag = 0 := by omega
    subst this
    simp [float32Shift]
  | succ fuel ih =>
    by_cases hlt : mag < 16777216
    · simp [float32Shift, hlt]
    · have hhalf : mag / 2 ≤ fuel := by omega
      obtain ⟨h1, h2⟩ := ih (mag / 2) hhalf
      simp only [float32Shift, hlt, if_false]
      refine ⟨?_, ?_⟩
      · rw [pow_succ, mul_comm, ← Nat.div_div_eq_div_mul]
        exact h1
      · intro _
        simp only [Nat.add_sub_cancel]
        by_cases hs : float32Shift fuel (mag / 2) = 0
        · rw [hs]
          simp
          omega
        · have hpos : 0 < float32Shift fuel (mag / 2) := Nat.pos_of_ne_zero hs
          have h3 := h2 hpos
          have hpow : 2 ^ float32Shift fuel (mag / 2)
              = 2 * 2 ^ (float32Shift fuel (mag / 2) - 1) := by
            conv_lhs => rw [← Nat.sub_add_cancel hpos]
            rw [pow_succ, mul_comm]
          rw [hpow, ← Nat.div_div_eq_div_mul]
          exact h3

theorem float32Shift_unique (fuel mag s : Nat) (h : mag ≤ fuel)
    (h1 : mag / 2 ^ s < 16777216) (h2 : 0 < s → 16777216 ≤ mag / 2 ^ (s - 1)) :
    float32Shift fuel mag = s := by
  obtain ⟨a1, a2⟩ := float32Shift_spec fuel mag h
  rcases Nat.lt_trichotomy (float32Shift fuel mag) s with hlt | heq | hgt
  · exfalso
    have hs : 0 < s := by omega
    have hle : 2 ^ float32Shift fuel mag ≤ 2 ^ (s - 1) :=
      Nat.pow_le_pow_right (by decide) (by omega)
    have hdiv : mag / 2 ^ (s - 1) ≤ mag / 2 ^ float32Shift fuel mag :=
      Nat.div_le_div_left hle (Nat.two_pow_pos _)
    have := h2 hs
    omega
  · exact heq
  · exfalso
    have hs : 0 < float32Shift fuel mag := by omega
    have hle : 2 ^ s ≤ 2 ^ (float32Shift fuel mag - 1) :=
      Nat.pow_le_pow_right (by decide) (by omega)
    have hdiv : mag / 2 ^ (float32Shift fuel mag - 1) ≤ mag / 2 ^ s :=
      Nat.div_le_div_left hle (Nat.two_pow_pos _)
    have := a2 hs
    omega

theorem float32Mag_exact (q s : Nat) (hq : q < 16777216) (hs : 0 < s → 8388608 ≤ q) :
    float32Mag (q * 2 ^ s) = q * 2 ^ s := by
  have hpos : 0 < 2 ^ s := Nat.two_pow_pos s
  have hshift : float32Shift (q * 2 ^ s) (q * 2 ^ s) = s := by
    apply float32Shift_unique _ _ _ (Nat.le_refl _)
    · rw [Nat.mul_div_cancel _ hpos]
      exact hq
    · intro h0
      have hpow : 2 ^ s = 2 * 2 ^ (s - 1) := by
        conv_lhs => rw [← Nat.sub_add_cancel h0]
        rw [pow_succ, mul_comm]
      rw [hpow, ← Nat.mul_assoc, Nat.mul_div_cancel _ (Nat.two_pow_pos _)]
      have := hs h0
      omega
  unfold float32Mag
  rw [hshift, Nat.mul_mod_left, Nat.mul_div_cancel _ hpos]
  rw [if_neg]
  intro hc
  rcases hc with hc | ⟨hc, _⟩ <;> omega

theorem float32Mag_cases (mag : Nat) :
    float32Mag mag = mag / 2 ^ float32Shift mag mag * 2 ^ float32Shift mag mag ∨
      (float32Mag mag = (mag / 2 ^ float32Shift mag mag + 1) * 2 ^ float32Shift mag mag ∧
        mag % 2 ^ float32Shift mag mag ≠ 0) := by
  have hpos : 0 < 2 ^ float32Shift mag mag := Nat.two_pow_pos _
  unfold float32Mag
  split_ifs with hup
  · right
    refine ⟨rfl, ?_⟩
    rcases hup with hc | ⟨hc, _⟩ <;> omega
  · left
    rfl

theorem float32Mag_idem (mag : Nat) : float32Mag (float32Mag mag) = float32Mag mag := by
  obtain ⟨h1, h2⟩ := float32Shift_spec mag mag (Nat.le_refl _)
  have hq : 0 < float32Shift mag mag → 8388608 ≤ mag / 2 ^ float32Shift mag mag := by
    intro h0
    have h3 := h2 h0
    have hpow : 2 ^ float32Shift mag mag = 2 ^ (float32Shift mag mag - 1) * 2 := by
      conv_lhs => rw [← Nat.sub_add_cancel h0]
      rw [pow_succ]
    rw [hpow, ← Nat.div_div_eq_div_mul]
    omega
  rcases float32Mag_cases mag with h | ⟨h, hr⟩
  · rw [h]
    exact float32Mag_exact _ _ h1 hq
  · rw [h]
    have hspos : 0 < float32Shift mag mag := by
      by_contra hc
      have h0 : float32Shift mag mag = 0 := by omega
      rw [h0] at hr
      simp [Nat.mod_one] at hr
    have hq2 := hq hspos
    by_cases hfull : mag / 2 ^ float32Shift mag mag + 1 = 16777216
    · rw [hfull]
      have : 16777216 * 2 ^ float32Shift mag mag
          = 8388608 * 2 ^ (float32Shift mag mag + 1) := by
        rw [pow_succ]
        omega
      rw [this]
      exact float32Mag_exact 8388608 _ (by decide) (fun _ => Nat.le_refl _)
    · exact float32Mag_exact _ _ (by omega) (fun _ => by omega)

theorem float32_int (n : Int) (m : Int) (h : float32 n = JsNumber.int m) :
    float32 m = JsNumber.int m := by
  unfold float32 at h
  split_ifs at h with hlt hneg
  · injection h with h
    subst h
    have hidem := float32Mag_idem n.natAbs
    by_cases hz : float32Mag n.natAbs = 0
    · rw [hz]
      decide
    · have hpos : 0 < float32Mag n.natAbs := Nat.pos_of_ne_zero hz
      have hneg2 : -((float32Mag n.natAbs : Nat) : Int) < 0 := by omega
      unfold float32
      rw [Int.natAbs_neg, Int.natAbs_ofNat, hidem, if_pos hlt, if_pos hneg2]
  · injection h with h
    subst h
    have hidem := float32Mag_idem n.natAbs
    have hnn : ¬ (((float32Mag n.natAbs : Nat) : Int) < 0) := by omega
    unfold float32
    rw [Int.natAbs_ofNat, hidem, if_pos hlt, if_neg hnn]

theorem toFloat32_idem (m : JsNumber) : m.toFloat32.toFloat32 = m.toFloat32 := by
  cases m with
  | infinity negative => rfl
  | int n =>
    show (float32 n).toFloat32 = float32 n
    cases h : float32 n with
    | infinity negative => rfl
    | int k => exact float32_int n k h

theorem float32_of_small (n : Int) (h : n.natAbs < 16777216) : float32 n = JsNumber.int n := by
  have hs : float32Shift n.natAbs n.natAbs = 0 := by
    cases hm : n.natAbs with
    | zero => rfl
    | succ m =>
      rw [hm] at h
      simp [float32Shift, h]
  have hmag : float32Mag n.natAbs = n.natAbs := by
    unfold float32Mag
    rw [hs]
    simp [Nat.mod_one]
  unfold float32
  rw [hmag, if_pos (by omega)]
  split_ifs with hn
  · congr 1
    omega
  · congr 1
    omega

theorem colorAt_setColorAt_self (mesh : InstancedMesh) (i : Nat) (c : StoredColor)
    (hi : i < mesh.instanceMatrix.length)
    (hlen : ∀ cs, mesh.instanceColor = some cs → cs.length = mesh.instanceMatrix.length) :
    (mesh.setColorAt i c).colorAt i = some c.val := by
  cases hcs : mesh.instanceColor with
  | none =>
    simp [InstancedMesh.setColorAt, InstancedMesh.colorAt, hcs, List.getElem?_set_self, hi]
  | some cs =>
    have hl := hlen cs hcs
    simp [InstancedMesh.setColorAt, InstancedMesh.colorAt, hcs, List.getElem?_set_self, hi, hl]

theorem colorAt_setColorAt_ne (mesh : InstancedMesh) (i j : Nat) (c : StoredColor) (c2 : Nat)
    (hne : i ≠ j) (hold : mesh.colorAt j = some c2) :
    (mesh.setColorAt i c).colorAt j = some c2 := by
  cases hcs : mesh.instanceColor with
  | none => simp [InstancedMesh.colorAt, hcs] at hold
  | some cs =>
    simp only [InstancedMesh.colorAt, hcs, Option.some_bind] at hold
    simp only [InstancedMesh.setColorAt, InstancedMesh.colorAt, hcs, Option.some_bind,
      List.getElem?_set_ne hne]
    exact hold

theorem instanceMatrix_setColorAt (mesh : InstancedMesh) (i : Nat) (c : StoredColor) :
    (mesh.setColorAt i c).instanceMatrix = mesh.instanceMatrix := by
  cases hcs : mesh.instanceColor <;> simp [InstancedMesh.setColorAt, hcs]

theorem instanceColor_setColorAt_length (mesh : InstancedMesh) (i : Nat) (c : StoredColor)
    (n : Nat) (hmat : mesh.instanceMatrix.length = n)
    (hlen : ∀ cs, mesh.instanceColor = some cs → cs.length = n) :
    ∀ cs, (mesh.setColorAt i c).instanceColor = some cs → cs.length = n := by
  intro cs h
  cases hcs : mesh.instanceColor with
  | none =>
    simp only [InstancedMesh.setColorAt, hcs, Option.some.injEq] at h
    rw [← h]
    simp [hmat]
  | some cs0 =>
    simp only [InstancedMesh.setColorAt, hcs, Option.some.injEq] at h
    rw [← h]
    simp [hlen cs0 hcs]

theorem positionAt_setColorAt (mesh : InstancedMesh) (i j : Nat) (c : StoredColor) :
    (mesh.setColorAt i c).positionAt j = mesh.positionAt j := by
  simp [InstancedMesh.positionAt, instanceMatrix_setColorAt]

theorem positionAt_setMatrixAt_self (mesh : InstancedMesh) (i : Nat) (m : Position)
    (hi : i < mesh.instanceMatrix.length) :
    (mesh.setMatrixAt i m).positionAt i
      = some ⟨m.x.toFloat32, m.y.toFloat32, m.z.toFloat32⟩ := by
  simp only [InstancedMesh.positionAt, InstancedMesh.setMatrixAt, List.getElem?_set_self hi]
  rfl

theorem positionAt_setMatrixAt_ne (mesh : InstancedMesh) (i j : Nat) (m : Position)
    (hne : i ≠ j) : (mesh.setMatrixAt i m).positionAt j = mesh.positionAt j := by
  simp only [InstancedMesh.positionAt, InstancedMesh.setMatrixAt, List.getElem?_set_ne hne]

theorem colorAt_setMatrixAt (mesh : InstancedMesh) (i j : Nat) (m : Position) :
    (mesh.setMatrixAt i m).colorAt j = mesh.colorAt j := rfl

theorem positionAt_float32 (mesh : InstancedMesh) (i : Nat) (p : Position)
    (h : mesh.positionAt i = some p) :
    p.x.toFloat32 = p.x ∧ p.y.toFloat32 = p.y ∧ p.z.toFloat32 = p.z := by
  simp only [InstancedMesh.positionAt, Option.map_eq_some'] at h
  obtain ⟨sp, _, rfl⟩ := h
  obtain ⟨mx, hx⟩ := sp.x.property
  obtain ⟨my, hy⟩ := sp.y.property
  obtain ⟨mz, hz⟩ := sp.z.property
  refine ⟨?_, ?_, ?_⟩
  · show sp.x.val.toFloat32 = sp.x.val
    rw [← hx]
    exact toFloat32_idem mx
  · show sp.y.val.toFloat32 = sp.y.val
    rw [← hy]
    exact toFloat32_idem my
  · show sp.z.val.toFloat32 = sp.z.val
    rw [← hz]
    exact toFloat32_idem mz

theorem colorAt_lt (mesh : InstancedMesh) (i c : Nat) (h : mesh.colorAt i = some c) :
    c < 16777216 := by
  cases hcs : mesh.instanceColor with
  | none => simp [InstancedMesh.colorAt, hcs] at h
  | some cs =>
    simp only [InstancedMesh.colorAt, hcs, Option.some_bind, Option.map_eq_some'] at h
    obtain ⟨stored, _, rfl⟩ := h
    exact stored.isLt

theorem getMatrixAt_of_positionAt (mesh : InstancedMesh) (i : Nat) (p : Position)
    (h : mesh.positionAt i = some p) : mesh.getMatrixAt i = p := by
  simp only [InstancedMesh.positionAt, Option.map_eq_some'] at h
  obtain ⟨sp, hsp, rfl⟩ := h
  simp [InstancedMesh.getMatrixAt, hsp]

theorem getColorAt_of_colorAt (mesh : InstancedMesh) (cs : List StoredColor) (i c : Nat)
    (hcs : mesh.instanceColor = some cs) (h : mesh.colorAt i = some c) :
    (InstancedMesh.getColorAt cs i).val = c := by
  simp only [InstancedMesh.colorAt, hcs, Option.some_bind, Option.map_eq_some'] at h
  obtain ⟨stored, hst, rfl⟩ := h
  simp [InstancedMesh.getColorAt, hst]

theorem setHex_val (hex : Nat) : (setHex hex).val = hex % 16777216 := rfl

theorem JsMap.nodup_keys_set {κ α : Type} [DecidableEq κ] (m : JsMap κ α) (k : κ) (v : α)
    (hm : m.keys.Nodup) : (m.set k v).keys.Nodup := by
  cases hk : JsMap.get m k with
  | none =>
    rw [JsMap.set_of_get_none m k v hk]
    have hnot := (JsMap.get_eq_none_iff m k).mp hk
    simp only [JsMap.keys, List.map_append, List.map_cons, List.map_nil]
    simp only [JsMap.keys] at hm hnot
    rw [List.nodup_append]
    refine ⟨hm, List.nodup_singleton k, ?_⟩
    intro a ha hb
    simp only [List.mem_singleton] at hb
    subst hb
    exact hnot ha
  | some w =>
    rw [JsMap.keys_set_of_get_some m k v w hk]
    exact hm

theorem JsMap.length_set_of_get_some {κ α : Type} [DecidableEq κ] (m : JsMap κ α) (k : κ)
    (v w : α) (hk : m.get k = some w) : (m.set k v).length = m.length := by
  have h := congrArg List.length (JsMap.keys_set_of_get_some m k v w hk)
  simpa [JsMap.keys] using h

/-! ## Preservation of the store invariants -/

theorem wf_create (maxInstances : Nat) : (VoxelGrid.create maxInstances).WF := by
  constructor <;>
    simp [VoxelGrid.create, InstancedMesh.create, JsMap.keys, JsMap.size, JsMap.get]

theorem wf_clear (g : VoxelGrid) (hg : g.WF) : g.clear.WF := by
  constructor <;> simp [VoxelGrid.clear, JsMap.keys, JsMap.size, JsMap.get]
  · exact hg.mat_len
  · exact hg.col_len

theorem wf_setVoxel_update (g : VoxelGrid) (hg : g.WF) (x y z : Int) (voxel e : Voxel)
    (index : Nat) (he : g.grid.get (keyFor x y z) = some e)
    (hi : g.keyToIndex.get (keyFor x y z) = some index) :
    VoxelGrid.WF { g with grid := g.grid.set (keyFor x y z) (voxel.withCoord x y z),
                           mesh := g.mesh.setColorAt index (setHex voxel.color) } := by
  have hilt : index < g.mesh.instanceMatrix.length := by
    rw [hg.mat_len]
    exact Nat.lt_of_lt_of_le (hg.index_lt hi) hg.count_le
  have hcl : ∀ cs, g.mesh.instanceColor = some cs → cs.length = g.mesh.instanceMatrix.length := by
    intro cs hcs
    rw [hg.mat_len]
    exact hg.col_len cs hcs
  constructor
  · show (JsMap.set g.grid (keyFor x y z) (voxel.withCoord x y z)).keys.Nodup
    exact JsMap.nodup_keys_set _ _ _ hg.nodup
  · show g.count = (JsMap.set g.grid (keyFor x y z) (voxel.withCoord x y z)).length
    rw [JsMap.length_set_of_get_some _ _ _ e he]
    exact hg.count_eq
  · exact hg.count_le
  · exact hg.i2k_len
  · intro k
    show g.keyToIndex.get k = none ↔
      (JsMap.set g.grid (keyFor x y z) (voxel.withCoord x y z)).get k = none
    by_cases hk : k = keyFor x y z
    · subst hk
      simp [JsMap.get_set_self, hi]
    · rw [JsMap.get_set_ne _ _ hk]
      exact hg.dom k
  · exact hg.k2i
  · exact hg.i2k
  · intro k v
    show (JsMap.set g.grid (keyFor x y z) (voxel.withCoord x y z)).get k = some v → v.key = k
    by_cases hk : k = keyFor x y z
    · subst hk
      rw [JsMap.get_set_self]
      intro h
      cases h
      rfl
    · rw [JsMap.get_set_ne _ _ hk]
      exact hg.rec_key k v
  · show (g.mesh.setColorAt index (setHex voxel.color)).instanceMatrix.length = g.maxInstances
    rw [instanceMatrix_setColorAt]
    exact hg.mat_len
  · exact instanceColor_setColorAt_length _ _ _ _ hg.mat_len hg.col_len
  · intro k i v hki
    show (JsMap.set g.grid (keyFor x y z) (voxel.withCoord x y z)).get k = some v →
      (g.mesh.setColorAt index (setHex voxel.color)).positionAt i
        = some ⟨float32 k.x, float32 k.y, float32 k.z⟩ ∧
      (g.mesh.setColorAt index (setHex voxel.color)).colorAt i = some (v.color % 16777216)
    have hki2 : g.keyToIndex.get k = some i := hki
    have hpos : (g.mesh.setColorAt index (setHex voxel.color)).positionAt i
        = g.mesh.positionAt i := positionAt_setColorAt _ _ _ _
    by_cases hk : k = keyFor x y z
    · subst hk
      rw [JsMap.get_set_self]
      intro h
      cases h
      rw [hi] at hki2
      cases hki2
      refine ⟨?_, ?_⟩
      · rw [hpos]
        exact (hg.dense _ _ e hi he).1
      · exact colorAt_setColorAt_self _ _ _ hilt hcl
    · rw [JsMap.get_set_ne _ _ hk]
      intro hv
      have hne : index ≠ i := by
        intro hc
        subst hc
        exact hk (hg.index_inj hki2 hi)
      refine ⟨?_, ?_⟩
      · rw [hpos]
        exact (hg.dense k i v hki2 hv).1
      · exact colorAt_setColorAt_ne _ _ _ _ _ hne (hg.dense k i v hki2 hv).2

theorem wf_setVoxel_insert (g : VoxelGrid) (hg : g.WF) (x y z : Int) (voxel : Voxel)
    (he : g.grid.get (keyFor x y z) = none) (hc : g.count < g.maxInstances) :
    VoxelGrid.WF { g with
      keyToIndex := g.keyToIndex.set (keyFor x y z) g.count
      indexToKey := arrayAssign g.indexToKey g.count (keyFor x y z)
      grid := g.grid.set (keyFor x y z) (voxel.withCoord x y z)
      mesh := { (g.mesh.setMatrixAt g.count ⟨x, y, z⟩).setColorAt g.count
                  (setHex voxel.color) with count := g.count + 1 }
      count := g.count + 1 } := by
  have hidx : g.keyToIndex.get (keyFor x y z) = none := (hg.dom _).mpr he
  have harr : arrayAssign g.indexToKey g.count (keyFor x y z) = g.indexToKey ++ [keyFor x y z] := by
    simp [arrayAssign, hg.i2k_len]
  have hmat : (g.mesh.setMatrixAt g.count ⟨x, y, z⟩).instanceMatrix.length = g.maxInstances := by
    simp [InstancedMesh.setMatrixAt, hg.mat_len]
  have hcol : ∀ cs, (g.mesh.setMatrixAt g.count ⟨x, y, z⟩).instanceColor = some cs →
      cs.length = g.maxInstances := fun cs hcs => hg.col_len cs hcs
  constructor
  · show (JsMap.set g.grid (keyFor x y z) (voxel.withCoord x y z)).keys.Nodup
    exact JsMap.nodup_keys_set _ _ _ hg.nodup
  · show g.count + 1 = (JsMap.set g.grid (keyFor x y z) (voxel.withCoord x y z)).length
    rw [JsMap.set_of_get_none _ _ _ he, List.length_append, hg.count_eq]
    rfl
  · show g.count + 1 ≤ g.maxInstances
    omega
  · show (arrayAssign g.indexToKey g.count (keyFor x y z)).length = g.count + 1
    rw [harr, List.length_append, hg.i2k_len]
    rfl
  · intro k
    show (JsMap.set g.keyToIndex (keyFor x y z) g.count).get k = none ↔
      (JsMap.set g.grid (keyFor x y z) (voxel.withCoord x y z)).get k = none
    by_cases hk : k = keyFor x y z
    · subst hk
      simp [JsMap.get_set_self]
    · rw [JsMap.get_set_ne _ _ hk, JsMap.get_set_ne _ _ hk]
      exact hg.dom k
  · intro k i
    show (JsMap.set g.keyToIndex (keyFor x y z) g.count).get k = some i →
      (arrayAssign g.indexToKey g.count (keyFor x y z))[i]? = some k
    rw [harr]
    by_cases hk : k = keyFor x y z
    · subst hk
      rw [JsMap.get_set_self]
      intro h
      cases h
      rw [← hg.i2k_len]
      exact List.getElem?_concat_length _ _
    · rw [JsMap.get_set_ne _ _ hk]
      intro h
      have hlt : i < g.indexToKey.length := by
        rw [hg.i2k_len]
        exact hg.index_lt h
      rw [List.getElem?_append_left hlt]
      exact hg.k2i k i h
  · intro i k
    show (arrayAssign g.indexToKey g.count (keyFor x y z))[i]? = some k →
      (JsMap.set g.keyToIndex (keyFor x y z) g.count).get k = some i
    rw [harr]
    intro h
    by_cases hlt : i < g.indexToKey.length
    · rw [List.getElem?_append_left hlt] at h
      have hold := hg.i2k i k h
      have hk : k ≠ keyFor x y z := by
        intro hc
        subst hc
        rw [hidx] at hold
        cases hold
      rw [JsMap.get_set_ne _ _ hk]
      exact hold
    · have hge : g.indexToKey.length ≤ i := Nat.le_of_not_lt hlt
      rw [List.getElem?_append_right hge] at h
      have hi0 : i - g.indexToKey.length = 0 := by
        by_contra hc
        obtain ⟨n, hn⟩ := Nat.exists_eq_succ_of_ne_zero hc
        rw [hn] at h
        simp at h
      rw [hi0] at h
      simp only [List.getElem?_cons_zero, Option.some.injEq] at h
      subst h
      have : i = g.count := by
        rw [← hg.i2k_len]
        omega
      subst this
      exact JsMap.get_set_self _ _ _
  · intro k v
    show (JsMap.set g.grid (keyFor x y z) (voxel.withCoord x y z)).get k = some v → v.key = k
    by_cases hk : k = keyFor x y z
    · subst hk
      rw [JsMap.get_set_self]
      intro h
      cases h
      rfl
    · rw [JsMap.get_set_ne _ _ hk]
      exact hg.rec_key k v
  · show ((g.mesh.setMatrixAt g.count ⟨x, y, z⟩).setColorAt g.count
        (setHex voxel.color)).instanceMatrix.length = g.maxInstances
    rw [instanceMatrix_setColorAt]
    exact hmat
  · exact instanceColor_setColorAt_length _ _ _ _ hmat hcol
  · intro k i v
    show (JsMap.set g.keyToIndex (keyFor x y z) g.count).get k = some i →
      (JsMap.set g.grid (keyFor x y z) (voxel.withCoord x y z)).get k = some v →
      InstancedMesh.positionAt { (g.mesh.setMatrixAt g.count ⟨x, y, z⟩).setColorAt g.count
          (setHex voxel.color) with count := g.count + 1 } i
        = some ⟨float32 k.x, float32 k.y, float32 k.z⟩ ∧
      InstancedMesh.colorAt { (g.mesh.setMatrixAt g.count ⟨x, y, z⟩).setColorAt g.count
          (setHex voxel.color) with count := g.count + 1 } i = some (v.color % 16777216)
    have hpos : InstancedMesh.positionAt { (g.mesh.setMatrixAt g.count ⟨x, y, z⟩).setColorAt
        g.count (setHex voxel.color) with count := g.count + 1 } i
        = (g.mesh.setMatrixAt g.count ⟨x, y, z⟩).positionAt i :=
      positionAt_setColorAt _ _ _ _
    have hcolr : InstancedMesh.colorAt { (g.mesh.setMatrixAt g.count ⟨x, y, z⟩).setColorAt
        g.count (setHex voxel.color) with count := g.count + 1 } i
        = ((g.mesh.setMatrixAt g.count ⟨x, y, z⟩).setColorAt g.count
            (setHex voxel.color)).colorAt i := rfl
    rw [hpos, hcolr]
    by_cases hk : k = keyFor x y z
    · subst hk
      rw [JsMap.get_set_self, JsMap.get_set_self]
      intro h1 h2
      cases h1
      cases h2
      refine ⟨?_, ?_⟩
      · exact positionAt_setMatrixAt_self _ _ _ (by rw [hg.mat_len]; exact hc)
      · apply colorAt_setColorAt_self
        · rw [hmat]
          exact hc
        · intro cs hcs
          rw [hmat]
          exact hcol cs hcs
    · rw [JsMap.get_set_ne _ _ hk, JsMap.get_set_ne _ _ hk]
      intro h1 h2
      have hilt := hg.index_lt h1
      have hne : g.count ≠ i := by omega
      have hd := hg.dense k i v h1 h2
      refine ⟨?_, ?_⟩
      · rw [positionAt_setMatrixAt_ne _ _ _ _ hne]
        exact hd.1
      · exact colorAt_setColorAt_ne _ _ _ _ _ hne hd.2

theorem wf_setVoxel (g : VoxelGrid) (hg : g.WF) (x y z : Int) (voxel : Voxel)
    (history : Option VoxelHistory) : (g.setVoxel x y z voxel history).grid.WF := by
  cases he : g.grid.get (keyFor x y z) with
  | some e =>
    by_cases hd : e.color ≠ voxel.color ∨ e.type ≠ voxel.type
    · obtain ⟨index, hi⟩ := hg.has_index he
      rw [setVoxel_update g x y z voxel history e index he hd hi]
      exact wf_setVoxel_update g hg x y z voxel e index he hi
    · have hc : e.color = voxel.color := by
        by_contra hc
        exact hd (Or.inl hc)
      have ht : e.type = voxel.type := by
        by_contra ht
        exact hd (Or.inr ht)
      rw [setVoxel_same g x y z voxel history e he hc ht]
      exact hg
  | none =>
    by_cases hc : g.count < g.maxInstances
    · rw [setVoxel_insert g x y z voxel history he hc]
      exact wf_setVoxel_insert g hg x y z voxel he hc
    · rw [setVoxel_full g x y z voxel history he (Nat.le_of_not_lt hc)]
      exact hg

theorem wf_removeVoxel_last (g : VoxelGrid) (hg : g.WF) (x y z : Int) (e : Voxel)
    (he : g.grid.get (keyFor x y z) = some e)
    (hi : g.keyToIndex.get (keyFor x y z) = some (g.count - 1)) :
    VoxelGrid.WF { g with
      keyToIndex := g.keyToIndex.delete (keyFor x y z)
      indexToKey := g.indexToKey.dropLast
      grid := g.grid.delete (keyFor x y z)
      mesh := { g.mesh with count := g.count - 1 }
      count := g.count - 1 } := by
  have hpos : 0 < g.count := Nat.lt_of_le_of_lt (Nat.zero_le _) (hg.index_lt hi)
  have hlen := JsMap.length_delete g.grid (keyFor x y z) e hg.nodup he
  constructor
  · exact JsMap.nodup_keys_delete _ _ hg.nodup
  · show g.count - 1 = (JsMap.delete g.grid (keyFor x y z)).length
    have := hg.count_eq
    simp only [JsMap.size] at this
    omega
  · show g.count - 1 ≤ g.maxInstances
    have := hg.count_le
    omega
  · show g.indexToKey.dropLast.length = g.count - 1
    rw [List.length_dropLast, hg.i2k_len]
  · intro k
    show (JsMap.delete g.keyToIndex (keyFor x y z)).get k = none ↔
      (JsMap.delete g.grid (keyFor x y z)).get k = none
    by_cases hk : k = keyFor x y z
    · subst hk
      simp [JsMap.get_delete_self]
    · rw [JsMap.get_delete_ne _ hk, JsMap.get_delete_ne _ hk]
      exact hg.dom k
  · intro k i
    show (JsMap.delete g.keyToIndex (keyFor x y z)).get k = some i →
      g.indexToKey.dropLast[i]? = some k
    by_cases hk : k = keyFor x y z
    · subst hk
      simp [JsMap.get_delete_self]
    · rw [JsMap.get_delete_ne _ hk]
      intro h
      have hlt := hg.index_lt h
      have hne : i ≠ g.count - 1 := by
        intro hc
        subst hc
        exact hk (hg.index_inj h hi)
      rw [List.getElem?_dropLast, if_pos (by rw [hg.i2k_len]; omega)]
      exact hg.k2i k i h
  · intro i k
    show g.indexToKey.dropLast[i]? = some k →
      (JsMap.delete g.keyToIndex (keyFor x y z)).get k = some i
    rw [List.getElem?_dropLast]
    split_ifs with hlt
    · intro h
      have hold := hg.i2k i k h
      have hk : k ≠ keyFor x y z := by
        intro hc
        subst hc
        rw [hi] at hold
        rw [hg.i2k_len] at hlt
        cases hold
        omega
      rw [JsMap.get_delete_ne _ hk]
      exact hold
    · intro h
      cases h
  · intro k v
    show (JsMap.delete g.grid (keyFor x y z)).get k = some v → v.key = k
    by_cases hk : k = keyFor x y z
    · subst hk
      simp [JsMap.get_delete_self]
    · rw [JsMap.get_delete_ne _ hk]
      exact hg.rec_key k v
  · exact hg.mat_len
  · exact hg.col_len
  · intro k i v
    show (JsMap.delete g.keyToIndex (keyFor x y z)).get k = some i →
      (JsMap.delete g.grid (keyFor x y z)).get k = some v →
      g.mesh.positionAt i = some ⟨float32 k.x, float32 k.y, float32 k.z⟩ ∧
      g.mesh.colorAt i = some (v.color % 16777216)
    by_cases hk : k = keyFor x y z
    · subst hk
      simp [JsMap.get_delete_self]
    · rw [JsMap.get_delete_ne _ hk, JsMap.get_delete_ne _ hk]
      exact hg.dense k i v

theorem wf_removeVoxel_swap (g : VoxelGrid) (hg : g.WF) (x y z : Int) (e : Voxel)
    (index : Nat) (lastKey : Key) (cs : List StoredColor)
    (he : g.grid.get (keyFor x y z) = some e)
    (hi : g.keyToIndex.get (keyFor x y z) = some index) (hne : index ≠ g.count - 1)
    (hlast : g.indexToKey[g.count - 1]? = some lastKey)
    (hcs : g.mesh.instanceColor = some cs) :
    VoxelGrid.WF { g with
      keyToIndex := (g.keyToIndex.set lastKey index).delete (keyFor x y z)
      indexToKey := (arrayAssign g.indexToKey index lastKey).dropLast
      grid := g.grid.delete (keyFor x y z)
      mesh := { (g.mesh.setMatrixAt index (g.mesh.getMatrixAt (g.count - 1))).setColorAt
                  index (InstancedMesh.getColorAt cs (g.count - 1))
                with count := g.count - 1 }
      count := g.count - 1 } := by
  have hilt : index < g.count := hg.index_lt hi
  have hlastIdx : g.keyToIndex.get lastKey = some (g.count - 1) := hg.i2k _ _ hlast
  have hlk : lastKey ≠ keyFor x y z := by
    intro hc
    rw [hc, hi] at hlastIdx
    cases hlastIdx
    exact hne rfl
  have hlen := JsMap.length_delete g.grid (keyFor x y z) e hg.nodup he
  have harr : arrayAssign g.indexToKey index lastKey = g.indexToKey.set index lastKey := by
    simp [arrayAssign, hg.i2k_len, hilt]
  obtain ⟨lv, hlv⟩ := hg.has_record hlastIdx
  have hdl := hg.dense lastKey (g.count - 1) lv hlastIdx hlv
  have hmatLast : g.mesh.getMatrixAt (g.count - 1)
      = ⟨float32 lastKey.x, float32 lastKey.y, float32 lastKey.z⟩ :=
    getMatrixAt_of_positionAt _ _ _ hdl.1
  have hcolLast : (InstancedMesh.getColorAt cs (g.count - 1)).val = lv.color % 16777216 :=
    getColorAt_of_colorAt _ _ _ _ hcs hdl.2
  have hmatLen : (g.mesh.setMatrixAt index (g.mesh.getMatrixAt (g.count - 1))).instanceMatrix.length
      = g.maxInstances := by
    simp [InstancedMesh.setMatrixAt, hg.mat_len]
  have hcolLen : ∀ cl, (g.mesh.setMatrixAt index
      (g.mesh.getMatrixAt (g.count - 1))).instanceColor = some cl →
      cl.length = g.maxInstances := fun cl hcl => hg.col_len cl hcl
  have hkey : ∀ k i, ((g.keyToIndex.set lastKey index).delete (keyFor x y z)).get k = some i →
      k ≠ keyFor x y z ∧
        ((k = lastKey ∧ i = index) ∨
          (k ≠ lastKey ∧ g.keyToIndex.get k = some i ∧ i ≠ index ∧ i < g.count - 1)) := by
    intro k i h
    by_cases hk : k = keyFor x y z
    · subst hk
      rw [JsMap.get_delete_self] at h
      cases h
    · rw [JsMap.get_delete_ne _ hk] at h
      refine ⟨hk, ?_⟩
      by_cases hkl : k = lastKey
      · subst hkl
        rw [JsMap.get_set_self] at h
        cases h
        exact Or.inl ⟨rfl, rfl⟩
      · rw [JsMap.get_set_ne _ _ hkl] at h
        have h1 : i ≠ index := by
          intro hc
          subst hc
          exact hk (hg.index_inj h hi)
        have h2 : i ≠ g.count - 1 := by
          intro hc
          subst hc
          exact hkl (hg.index_inj h hlastIdx)
        have h3 := hg.index_lt h
        exact Or.inr ⟨hkl, h, h1, by omega⟩
  constructor
  · exact JsMap.nodup_keys_delete _ _ hg.nodup
  · show g.count - 1 = (JsMap.delete g.grid (keyFor x y z)).length
    have := hg.count_eq
    simp only [JsMap.size] at this
    omega
  · show g.count - 1 ≤ g.maxInstances
    have := hg.count_le
    omega
  · show (arrayAssign g.indexToKey index lastKey).dropLast.length = g.count - 1
    rw [harr, List.length_dropLast, List.length_set, hg.i2k_len]
  · intro k
    show ((g.keyToIndex.set lastKey index).delete (keyFor x y z)).get k = none ↔
      (JsMap.delete g.grid (keyFor x y z)).get k = none
    by_cases hk : k = keyFor x y z
    · subst hk
      simp [JsMap.get_delete_self]
    · rw [JsMap.get_delete_ne _ hk, JsMap.get_delete_ne _ hk]
      by_cases hkl : k = lastKey
      · subst hkl
        rw [JsMap.get_set_self]
        simp [hlv]
      · rw [JsMap.get_set_ne _ _ hkl]
        exact hg.dom k
  · intro k i h
    show (arrayAssign g.indexToKey index lastKey).dropLast[i]? = some k
    obtain ⟨_, hcase⟩ := hkey k i h
    rw [harr, List.getElem?_dropLast, List.length_set, hg.i2k_len]
    rcases hcase with ⟨h1, h2⟩ | ⟨_, h2, h3, h4⟩
    · subst h1
      subst h2
      rw [if_pos (by omega), List.getElem?_set_self (by rw [hg.i2k_len]; exact hilt)]
    · rw [if_pos h4, List.getElem?_set_ne (Ne.symm h3)]
      exact hg.k2i k i h2
  · intro i k
    show (arrayAssign g.indexToKey index lastKey).dropLast[i]? = some k →
      ((g.keyToIndex.set lastKey index).delete (keyFor x y z)).get k = some i
    rw [harr, List.getElem?_dropLast, List.length_set, hg.i2k_len]
    split_ifs with hlt
    · by_cases hii : index = i
      · subst hii
        rw [List.getElem?_set_self (by rw [hg.i2k_len]; exact hilt)]
        intro h
        cases h
        rw [JsMap.get_delete_ne _ hlk, JsMap.get_set_self]
      · rw [List.getElem?_set_ne hii]
        intro h
        have hold := hg.i2k i k h
        have hk : k ≠ keyFor x y z := by
          intro hc
          subst hc
          rw [hi] at hold
          cases hold
          exact hii rfl
        have hkl : k ≠ lastKey := by
          intro hc
          subst hc
          rw [hlastIdx] at hold
          cases hold
          omega
        rw [JsMap.get_delete_ne _ hk, JsMap.get_set_ne _ _ hkl]
        exact hold
    · intro h
      cases h
  · intro k v
    show (JsMap.delete g.grid (keyFor x y z)).get k = some v → v.key = k
    by_cases hk : k = keyFor x y z
    · subst hk
      simp [JsMap.get_delete_self]
    · rw [JsMap.get_delete_ne _ hk]
      exact hg.rec_key k v
  · show ((g.mesh.setMatrixAt index (g.mesh.getMatrixAt (g.count - 1))).setColorAt index
        (InstancedMesh.getColorAt cs (g.count - 1))).instanceMatrix.length = g.maxInstances
    rw [instanceMatrix_setColorAt]
    exact hmatLen
  · exact instanceColor_setColorAt_length _ _ _ _ hmatLen hcolLen
  · intro k i v h
    show (JsMap.delete g.grid (keyFor x y z)).get k = some v →
      ((g.mesh.setMatrixAt index (g.mesh.getMatrixAt (g.count - 1))).setColorAt index
        (InstancedMesh.getColorAt cs (g.count - 1))).positionAt i
        = some ⟨float32 k.x, float32 k.y, float32 k.z⟩ ∧
      ((g.mesh.setMatrixAt index (g.mesh.getMatrixAt (g.count - 1))).setColorAt index
        (InstancedMesh.getColorAt cs (g.count - 1))).colorAt i = some (v.color % 16777216)
    obtain ⟨hk, hcase⟩ := hkey k i h
    rw [JsMap.get_delete_ne _ hk, positionAt_setColorAt]
    intro hv
    rcases hcase with ⟨h1, h2⟩ | ⟨_, h2, h3, _⟩
    · subst h1
      subst h2
      rw [hlv] at hv
      cases hv
      have hm : i < g.mesh.instanceMatrix.length := by
        rw [hg.mat_len]
        exact Nat.lt_of_lt_of_le hilt hg.count_le
      refine ⟨?_, ?_⟩
      · rw [positionAt_setMatrixAt_self _ _ _ hm, hmatLast]
        show some (Position.mk (JsNumber.int k.x).toFloat32.toFloat32
          (JsNumber.int k.y).toFloat32.toFloat32 (JsNumber.int k.z).toFloat32.toFloat32) = _
        rw [toFloat32_idem, toFloat32_idem, toFloat32_idem]
        rfl
      · rw [← hcolLast]
        apply colorAt_setColorAt_self
        · rw [hmatLen]
          exact Nat.lt_of_lt_of_le hilt hg.count_le
        · intro cl hcl
          rw [hmatLen]
          exact hcolLen cl hcl
    · have hd := hg.dense k i v h2 hv
      refine ⟨?_, ?_⟩
      · rw [positionAt_setMatrixAt_ne _ _ _ _ (Ne.symm h3)]
        exact hd.1
      · exact colorAt_setColorAt_ne _ _ _ _ _ (Ne.symm h3) hd.2

theorem wf_removeVoxel (g : VoxelGrid) (hg : g.WF) (x y z : Int)
    (history : Option VoxelHistory) : (g.removeVoxel x y z history).grid.WF := by
  cases he : g.grid.get (keyFor x y z) with
  | none =>
    rw [removeVoxel_absent g x y z history he]
    exact hg
  | some e =>
    obtain ⟨index, hi⟩ := hg.has_index he
    by_cases hne : index = g.count - 1
    · subst hne
      rw [removeVoxel_last g x y z history e he hi]
      exact wf_removeVoxel_last g hg x y z e he hi
    · have hpos : 0 < g.count := Nat.lt_of_le_of_lt (Nat.zero_le _) (hg.index_lt hi)
      obtain ⟨lastKey, hlast⟩ := hg.last_key hpos
      obtain ⟨cs, hcs, _⟩ := hg.has_colors hi
      rw [removeVoxel_swap g x y z history e index lastKey cs he hi hne hlast hcs]
      exact wf_removeVoxel_swap g hg x y z e index lastKey cs he hi hne hlast hcs

theorem maxInstances_setVoxel (g : VoxelGrid) (x y z : Int) (voxel : Voxel)
    (history : Option VoxelHistory) :
    (g.setVoxel x y z voxel history).grid.maxInstances = g.maxInstances := by
  unfold VoxelGrid.setVoxel
  simp only []
  split
  · split
    · split <;> rfl
    · rfl
  · split <;> rfl

theorem maxInstances_removeVoxel (g : VoxelGrid) (x y z : Int)
    (history : Option VoxelHistory) :
    (g.removeVoxel x y z history).grid.maxInstances = g.maxInstances := by
  unfold VoxelGrid.removeVoxel
  simp only []
  split
  · rfl
  · show VoxelGrid.maxInstances (match g.keyToIndex.get (keyFor x y z) with
      | some index => if index ≠ g.count - 1 then g.moveLast index (g.count - 1) else g
      | none => g) = g.maxInstances
    split
    · split
      · unfold VoxelGrid.moveLast
        simp only []
        split <;> rfl
      · rfl
    · rfl

theorem wf_setAll (voxels : List Voxel) (g : VoxelGrid) (hg : g.WF) :
    (g.setAll voxels).WF := by
  induction voxels generalizing g with
  | nil => exact hg
  | cons v vs ih => exact ih _ (wf_setVoxel g hg v.x v.y v.z v none)

theorem wf_removeAll (voxels : List Voxel) (g : VoxelGrid) (hg : g.WF) :
    (g.removeAll voxels).WF := by
  induction voxels generalizing g with
  | nil => exact hg
  | cons v vs ih => exact ih _ (wf_removeVoxel g hg v.x v.y v.z none)

theorem maxInstances_setAll (voxels : List Voxel) (g : VoxelGrid) :
    (g.setAll voxels).maxInstances = g.maxInstances := by
  induction voxels generalizing g with
  | nil => rfl
  | cons v vs ih =>
    show ((g.setVoxel v.x v.y v.z v none).grid.setAll vs).maxInstances = g.maxInstances
    rw [ih, maxInstances_setVoxel]

theorem maxInstances_removeAll (voxels : List Voxel) (g : VoxelGrid) :
    (g.removeAll voxels).maxInstances = g.maxInstances := by
  induction voxels generalizing g with
  | nil => rfl
  | cons v vs ih =>
    show ((g.removeVoxel v.x v.y v.z none).grid.removeAll vs).maxInstances = g.maxInstances
    rw [ih, maxInstances_removeVoxel]

theorem wf_importData (g : VoxelGrid) (hg : g.WF) (data : Option (List Voxel)) :
    (g.importData data).WF := by
  cases data with
  | none => exact wf_clear g hg
  | some voxels => exact wf_setAll voxels _ (wf_clear g hg)

theorem maxInstances_importData (g : VoxelGrid) (data : Option (List Voxel)) :
    (g.importData data).maxInstances = g.maxInstances := by
  cases data with
  | none => rfl
  | some voxels =>
    show (g.clear.setAll voxels).maxInstances = g.maxInstances
    rw [maxInstances_setAll]
    rfl

theorem wf_step (w : World) (hw : w.grid.WF) (c : Call) : (w.step c).grid.WF := by
  cases c with
  | setVoxel x y z voxel recorded => exact wf_setVoxel _ hw _ _ _ _ _
  | removeVoxel x y z recorded => exact wf_removeVoxel _ hw _ _ _ _
  | clear => exact wf_clear _ hw
  | importData data => exact wf_importData _ hw data

theorem maxInstances_step (w : World) (c : Call) :
    (w.step c).grid.maxInstances = w.grid.maxInstances := by
  cases c with
  | setVoxel x y z voxel recorded => exact maxInstances_setVoxel _ _ _ _ _ _
  | removeVoxel x y z recorded => exact maxInstances_removeVoxel _ _ _ _ _
  | clear => rfl
  | importData data => exact maxInstances_importData _ data

theorem wf_run (calls : List Call) (w : World) (hw : w.grid.WF) :
    (w.run calls).grid.WF := by
  induction calls generalizing w with
  | nil => exact hw
  | cons c cs ih => exact ih _ (wf_step w hw c)

theorem maxInstances_run (calls : List Call) (w : World) :
    (w.run calls).grid.maxInstances = w.grid.maxInstances := by
  induction calls generalizing w with
  | nil => rfl
  | cons c cs ih =>
    show ((w.step c).run cs).grid.maxInstances = w.grid.maxInstances
    rw [ih, maxInstances_step]

/-! ## Store invariants along every call sequence -/

/-- C1, counterexample: on a fresh store of capacity 1 the call
`setVoxel(16777217, 0, 0, { color: 0x1000000 })` occupies the coordinate at slot 0
with the record as passed, while slot 0 of the instance buffer holds the position
`(16777216, 0, 0)` and the colour `0x000000`: neither is the record's. -/
theorem dense_buffer_rounding_counterexample :
    (∀ c ∈ [Call.setVoxel 16777217 0 0 voxelFar false], c.isEdit = true) ∧
    ((World.fresh 1 (VoxelHistory.create 50)).run
      [Call.setVoxel 16777217 0 0 voxelFar false]).grid.keyToIndex.get (keyFor 16777217 0 0)
      = some 0 ∧
    ((World.fresh 1 (VoxelHistory.create 50)).run
      [Call.setVoxel 16777217 0 0 voxelFar false]).grid.grid.get (keyFor 16777217 0 0)
      = some voxelFar ∧
    ((World.fresh 1 (VoxelHistory.create 50)).run
      [Call.setVoxel 16777217 0 0 voxelFar false]).grid.mesh.positionAt 0
      = some ⟨16777216, 0, 0⟩ ∧
    ((World.fresh 1 (VoxelHistory.create 50)).run
      [Call.setVoxel 16777217 0 0 voxelFar false]).grid.mesh.colorAt 0 = some 0 ∧
    ((World.fresh 1 (VoxelHistory.create 50)).run
      [Call.setVoxel 16777217 0 0 voxelFar false]).grid.mesh.positionAt 0
      ≠ some ⟨(keyFor 16777217 0 0).x, (keyFor 16777217 0 0).y, (keyFor 16777217 0 0).z⟩ ∧
    ((World.fresh 1 (VoxelHistory.create 50)).run
      [Call.setVoxel 16777217 0 0 voxelFar false]).grid.mesh.colorAt 0
      ≠ some voxelFar.color := by
  decide

/-- C1 as amended: after each call of any sequence of `setVoxel` / `removeVoxel`
calls (with or without the history argument) on a freshly constructed store of any
capacity, every occupied coordinate `c` that `keyToIndex` maps to slot `i` has a
record `v` in the sparse map, and slot `i` of the instance buffer holds `c`'s
position rounded to 32-bit floats and the low 24 bits of `v`'s colour; the slot
holds `c`'s position and `v`'s colour themselves exactly when the coordinates are
32-bit float values and the colour is below `2^24`, which is the case whenever the
coordinates have magnitude below `2^24` and the colour is below `2^24`; and `count`
is the number of entries of the sparse map. -/
theorem dense_buffer_mirrors_rounded_record (maxInstances : Nat) (h : VoxelHistory)
    (calls : List Call) (n : Nat) (hedit : ∀ c ∈ calls, c.isEdit = true) :
    (∀ (c : Key) (i : Nat),
        ((World.fresh maxInstances h).run (calls.take n)).grid.grid.has c = true →
        ((World.fresh maxInstances h).run (calls.take n)).grid.keyToIndex.get c = some i →
        ∃ v, ((World.fresh maxInstances h).run (calls.take n)).grid.grid.get c = some v ∧
          ((World.fresh maxInstances h).run (calls.take n)).grid.mesh.positionAt i
            = some ⟨float32 c.x, float32 c.y, float32 c.z⟩ ∧
          ((World.fresh maxInstances h).run (calls.take n)).grid.mesh.colorAt i
            = some (v.color % 16777216) ∧
          ((((World.fresh maxInstances h).run (calls.take n)).grid.mesh.positionAt i
              = some ⟨c.x, c.y, c.z⟩ ∧
            ((World.fresh maxInstances h).run (calls.take n)).grid.mesh.colorAt i
              = some v.color) ↔
            (float32 c.x = JsNumber.int c.x ∧ float32 c.y = JsNumber.int c.y ∧
              float32 c.z = JsNumber.int c.z ∧ v.color < 16777216)) ∧
          (c.x.natAbs < 16777216 → c.y.natAbs < 16777216 → c.z.natAbs < 16777216 →
            v.color < 16777216 →
            ((World.fresh maxInstances h).run (calls.take n)).grid.mesh.positionAt i
              = some ⟨c.x, c.y, c.z⟩ ∧
            ((World.fresh maxInstances h).run (calls.take n)).grid.mesh.colorAt i
              = some v.color)) ∧
      ((World.fresh maxInstances h).run (calls.take n)).grid.count
        = ((World.fresh maxInstances h).run (calls.take n)).grid.grid.size := by
  have _ := hedit
  have hinv := wf_run (calls.take n) (World.fresh maxInstances h) (wf_create maxInstances)
  generalize (World.fresh maxInstances h).run (calls.take n) = w at hinv
  refine ⟨?_, hinv.count_eq⟩
  intro c i _ hi
  obtain ⟨v, hv⟩ := hinv.has_record hi
  obtain ⟨hp, hc⟩ := hinv.dense c i v hi hv
  refine ⟨v, hv, hp, hc, ?_, ?_⟩
  · rw [hp, hc]
    constructor
    · rintro ⟨h1, h2⟩
      have h3 := Option.some.inj h1
      have h4 := Option.some.inj h2
      injection h3 with hx hy hz
      exact ⟨hx, hy, hz, by omega⟩
    · rintro ⟨hx, hy, hz, hcol⟩
      rw [hx, hy, hz, Nat.mod_eq_of_lt hcol]
      exact ⟨rfl, rfl⟩
  · intro hx hy hz hcol
    rw [hp, hc, float32_of_small _ hx, float32_of_small _ hy, float32_of_small _ hz,
      Nat.mod_eq_of_lt hcol]
    exact ⟨rfl, rfl⟩

/-- Witness of the amended C1: capacity 2, two recorded insertions, one unrecorded
removal; afterwards `B` alone is left, in slot 0, which holds `B`'s position and
colour. -/
theorem dense_buffer_mirrors_rounded_record_witness :
    (∀ c ∈ sampleCalls, c.isEdit = true) ∧
    ((World.fresh 2 (VoxelHistory.create 50)).run (sampleCalls.take 3)).grid.exportData
      = [voxelB] ∧
    ((World.fresh 2 (VoxelHistory.create 50)).run (sampleCalls.take 3)).grid.mesh.positionAt 0
      = some ⟨1, 0, 0⟩ ∧
    ((World.fresh 2 (VoxelHistory.create 50)).run (sampleCalls.take 3)).grid.mesh.colorAt 0
      = some 0x2e8b57 ∧
    ((∀ (c : Key) (i : Nat),
        ((World.fresh 2 (VoxelHistory.create 50)).run (sampleCalls.take 3)).grid.grid.has c
          = true →
        ((World.fresh 2 (VoxelHistory.create 50)).run
          (sampleCalls.take 3)).grid.keyToIndex.get c = some i →
        ∃ v, ((World.fresh 2 (VoxelHistory.create 50)).run
            (sampleCalls.take 3)).grid.grid.get c = some v ∧
          ((World.fresh 2 (VoxelHistory.create 50)).run
            (sampleCalls.take 3)).grid.mesh.positionAt i
            = some ⟨float32 c.x, float32 c.y, float32 c.z⟩ ∧
          ((World.fresh 2 (VoxelHistory.create 50)).run
            (sampleCalls.take 3)).grid.mesh.colorAt i = some (v.color % 16777216) ∧
          ((((World.fresh 2 (VoxelHistory.create 50)).run
                (sampleCalls.take 3)).grid.mesh.positionAt i = some ⟨c.x, c.y, c.z⟩ ∧
            ((World.fresh 2 (VoxelHistory.create 50)).run
                (sampleCalls.take 3)).grid.mesh.colorAt i = some v.color) ↔
            (float32 c.x = JsNumber.int c.x ∧ float32 c.y = JsNumber.int c.y ∧
              float32 c.z = JsNumber.int c.z ∧ v.color < 16777216)) ∧
          (c.x.natAbs < 16777216 → c.y.natAbs < 16777216 → c.z.natAbs < 16777216 →
            v.color < 16777216 →
            ((World.fresh 2 (VoxelHistory.create 50)).run
                (sampleCalls.take 3)).grid.mesh.positionAt i = some ⟨c.x, c.y, c.z⟩ ∧
            ((World.fresh 2 (VoxelHistory.create 50)).run
                (sampleCalls.take 3)).grid.mesh.colorAt i = some v.color)) ∧
      ((World.fresh 2 (VoxelHistory.create 50)).run (sampleCalls.take 3)).grid.count
        = ((World.fresh 2 (VoxelHistory.create 50)).run
          (sampleCalls.take 3)).grid.grid.size) :=
  ⟨by decide, by decide, by decide, by decide,
    dense_buffer_mirrors_rounded_record 2 (VoxelHistory.create 50) sampleCalls 3 (by decide)⟩

/-- C2: after every `setVoxel`, `removeVoxel`, `clear` or `importData` call on a
store reached from the empty store, the index is a bijection between the occupied
coordinates and the slots `[0, count)`: `keyToIndex` is defined exactly on the keys
of the sparse map, `indexToKey` has length `count`, the two directions are inverse
to each other, and `count` is at most the capacity. -/
theorem index_bijection (maxInstances : Nat) (h : VoxelHistory) (calls : List Call) :
    (∀ c, ((World.fresh maxInstances h).run calls).grid.keyToIndex.has c
        = ((World.fresh maxInstances h).run calls).grid.grid.has c) ∧
    ((World.fresh maxInstances h).run calls).grid.grid.keys.Nodup ∧
    ((World.fresh maxInstances h).run calls).grid.indexToKey.length
      = ((World.fresh maxInstances h).run calls).grid.count ∧
    (∀ c, ((World.fresh maxInstances h).run calls).grid.grid.has c = true →
      ∃ i, ((World.fresh maxInstances h).run calls).grid.keyToIndex.get c = some i ∧
        ((World.fresh maxInstances h).run calls).grid.indexToKey[i]? = some c) ∧
    (∀ i, i < ((World.fresh maxInstances h).run calls).grid.count →
      ∃ c, ((World.fresh maxInstances h).run calls).grid.indexToKey[i]? = some c ∧
        ((World.fresh maxInstances h).run calls).grid.keyToIndex.get c = some i) ∧
    ((World.fresh maxInstances h).run calls).grid.count ≤ maxInstances ∧
    ((World.fresh maxInstances h).run calls).grid.maxInstances = maxInstances := by
  have hinv := wf_run calls (World.fresh maxInstances h) (wf_create maxInstances)
  have hmax := maxInstances_run calls (World.fresh maxInstances h)
  generalize (World.fresh maxInstances h).run calls = w at hinv hmax
  have hmax2 : w.grid.maxInstances = maxInstances := hmax
  refine ⟨?_, hinv.nodup, hinv.i2k_len, ?_, ?_, ?_, hmax2⟩
  · intro c
    have hd := hinv.dom c
    cases h1 : w.grid.keyToIndex.get c <;> cases h2 : w.grid.grid.get c <;>
      simp [JsMap.has, h1, h2] at hd ⊢
  · intro c hc
    cases hv : w.grid.grid.get c with
    | none => simp [JsMap.has, hv] at hc
    | some v =>
      obtain ⟨i, hi⟩ := hinv.has_index hv
      exact ⟨i, hi, hinv.k2i c i hi⟩
  · intro i hi
    have hlt : i < w.grid.indexToKey.length := by
      rw [hinv.i2k_len]
      exact hi
    exact ⟨w.grid.indexToKey[i], List.getElem?_eq_getElem hlt,
      hinv.i2k _ _ (List.getElem?_eq_getElem hlt)⟩
  · rw [← hmax2]
    exact hinv.count_le

/-! ## Capacity -/

/-- C5: a `setVoxel` on an unoccupied coordinate of a store with
`count = maxInstances` leaves the whole store (count, sparse map, both index
directions, instance buffer) as it was and records nothing in the history. -/
theorem rejected_insertion_is_atomic (g : VoxelGrid) (x y z : Int) (voxel : Voxel)
    (history : Option VoxelHistory) (hfull : g.count = g.maxInstances)
    (hfree : g.hasVoxel x y z = false) :
    (g.setVoxel x y z voxel history).grid = g ∧
      (g.setVoxel x y z voxel history).history = history := by
  have he : g.grid.get (keyFor x y z) = none := by
    simpa [VoxelGrid.hasVoxel, JsMap.has] using hfree
  rw [setVoxel_full g x y z voxel history he (by omega)]
  exact ⟨rfl, rfl⟩

/-- Witness of C5: capacity 2 holding `A` and `B`; inserting `C` at `(2,0,0)` with an
open transaction changes neither the store nor the transaction. -/
theorem rejected_insertion_is_atomic_witness :
    (storeABC 2).count = 2 ∧
    ((storeABC 2).setVoxel 2 0 0 voxelC (some ((VoxelHistory.create 50).begin "t1"))).grid
      = storeABC 2 ∧
    ((storeABC 2).setVoxel 2 0 0 voxelC (some ((VoxelHistory.create 50).begin "t1"))).history
      = some ((VoxelHistory.create 50).begin "t1") :=
  ⟨by decide,
    rejected_insertion_is_atomic (storeABC 2) 2 0 0 voxelC
      (some ((VoxelHistory.create 50).begin "t1")) (by decide) (by decide)⟩

/-- C6, counterexample: the rejected insertion of `C` into the full capacity-2 store
and the successful insertion of `B` into the store holding `A` return the same
value. -/
theorem capacity_failure_result_counterexample :
    (storeABC 2).count = (storeABC 2).maxInstances ∧
    (storeABC 2).hasVoxel 2 0 0 = false ∧
    ((storeABC 2).setVoxel 2 0 0 voxelC none).grid.hasVoxel 2 0 0 = false ∧
    ((storeA 2).setVoxel 1 0 0 voxelB none).grid.hasVoxel 1 0 0 = true ∧
    ((storeABC 2).setVoxel 2 0 0 voxelC none).returned
      = ((storeA 2).setVoxel 1 0 0 voxelB none).returned := by
  decide

theorem setVoxel_returned (g : VoxelGrid) (x y z : Int) (voxel : Voxel)
    (history : Option VoxelHistory) :
    (g.setVoxel x y z voxel history).returned = JsReturn.undefined := by
  unfold VoxelGrid.setVoxel
  simp only []
  split
  · split
    · split <;> rfl
    · rfl
  · split <;> rfl

/-- C6 as amended: `setVoxel` returns `undefined` on every path, so the rejected
insertion returns what a successful one returns; the rejection prints the warning
`Voxel instance limit reached.` and shows in the store, where the coordinate is
still unoccupied and `count` is unchanged, while an insertion below capacity
prints nothing, occupies the coordinate and raises `count` by one. -/
theorem capacity_exhaustion_shows_in_store (g : VoxelGrid) (x y z : Int) (voxel : Voxel)
    (history : Option VoxelHistory) (hfull : g.count = g.maxInstances)
    (hfree : g.hasVoxel x y z = false) :
    (g.setVoxel x y z voxel history).returned = JsReturn.undefined ∧
    (∀ (g2 : VoxelGrid) (x2 y2 z2 : Int) (v2 : Voxel) (h2 : Option VoxelHistory),
      (g2.setVoxel x2 y2 z2 v2 h2).returned = (g.setVoxel x y z voxel history).returned) ∧
    (g.setVoxel x y z voxel history).warnings = ["Voxel instance limit reached."] ∧
    (g.setVoxel x y z voxel history).grid.hasVoxel x y z = false ∧
    (g.setVoxel x y z voxel history).grid.getCount = g.getCount ∧
    (∀ (g2 : VoxelGrid) (x2 y2 z2 : Int) (v2 : Voxel) (h2 : Option VoxelHistory),
      g2.hasVoxel x2 y2 z2 = false → g2.count < g2.maxInstances →
      (g2.setVoxel x2 y2 z2 v2 h2).warnings = [] ∧
      (g2.setVoxel x2 y2 z2 v2 h2).grid.hasVoxel x2 y2 z2 = true ∧
      (g2.setVoxel x2 y2 z2 v2 h2).grid.getCount = g2.getCount + 1) := by
  have he : g.grid.get (keyFor x y z) = none := by
    simpa [VoxelGrid.hasVoxel, JsMap.has] using hfree
  refine ⟨setVoxel_returned _ _ _ _ _ _, ?_, ?_, ?_, ?_, ?_⟩
  · intro g2 x2 y2 z2 v2 h2
    rw [setVoxel_returned, setVoxel_returned]
  · rw [setVoxel_full g x y z voxel history he (by omega)]
  · rw [setVoxel_full g x y z voxel history he (by omega)]
    exact hfree
  · rw [setVoxel_full g x y z voxel history he (by omega)]
  · intro g2 x2 y2 z2 v2 h2 hfree2 hroom
    have he2 : g2.grid.get (keyFor x2 y2 z2) = none := by
      simpa [VoxelGrid.hasVoxel, JsMap.has] using hfree2
    rw [setVoxel_insert g2 x2 y2 z2 v2 h2 he2 hroom]
    refine ⟨rfl, ?_, rfl⟩
    simp [VoxelGrid.hasVoxel, JsMap.has, JsMap.get_set_self]

/-- Witness of the amended C6 on the full capacity-2 store. -/
theorem capacity_exhaustion_shows_in_store_witness :
    ((storeABC 2).setVoxel 2 0 0 voxelC none).returned = JsReturn.undefined ∧
    (∀ (g2 : VoxelGrid) (x2 y2 z2 : Int) (v2 : Voxel) (h2 : Option VoxelHistory),
      (g2.setVoxel x2 y2 z2 v2 h2).returned
        = ((storeABC 2).setVoxel 2 0 0 voxelC none).returned) ∧
    ((storeABC 2).setVoxel 2 0 0 voxelC none).warnings = ["Voxel instance limit reached."] ∧
    ((storeABC 2).setVoxel 2 0 0 voxelC none).grid.hasVoxel 2 0 0 = false ∧
    ((storeABC 2).setVoxel 2 0 0 voxelC none).grid.getCount = (storeABC 2).getCount ∧
    (∀ (g2 : VoxelGrid) (x2 y2 z2 : Int) (v2 : Voxel) (h2 : Option VoxelHistory),
      g2.hasVoxel x2 y2 z2 = false → g2.count < g2.maxInstances →
      (g2.setVoxel x2 y2 z2 v2 h2).warnings = [] ∧
      (g2.setVoxel x2 y2 z2 v2 h2).grid.hasVoxel x2 y2 z2 = true ∧
      (g2.setVoxel x2 y2 z2 v2 h2).grid.getCount = g2.getCount + 1) :=
  capacity_exhaustion_shows_in_store (storeABC 2) 2 0 0 voxelC none (by decide) (by decide)

/-! ## Exact mirror -/

theorem VoxelGrid.Inv.toWF {g : VoxelGrid} (hg : g.Inv) : g.WF where
  nodup := hg.nodup
  count_eq := hg.count_eq
  count_le := hg.count_le
  i2k_len := hg.i2k_len
  dom := hg.dom
  k2i := hg.k2i
  i2k := hg.i2k
  rec_key := hg.rec_key
  mat_len := hg.mat_len
  col_len := hg.col_len
  dense := by
    intro k i v hi hv
    obtain ⟨hp, hc⟩ := hg.dense k i v hi hv
    obtain ⟨hx, hy, hz⟩ := positionAt_float32 _ _ _ hp
    have hx2 : float32 k.x = JsNumber.int k.x := hx
    have hy2 : float32 k.y = JsNumber.int k.y := hy
    have hz2 : float32 k.z = JsNumber.int k.z := hz
    rw [Nat.mod_eq_of_lt (colorAt_lt _ _ _ hc), hx2, hy2, hz2]
    exact ⟨hp, hc⟩

theorem Voxel.fitsBuffer_iff (v : Voxel) :
    v.fitsBuffer = true ↔
      float32 v.x = JsNumber.int v.x ∧ float32 v.y = JsNumber.int v.y ∧
        float32 v.z = JsNumber.int v.z ∧ v.color < 16777216 := by
  simp [Voxel.fitsBuffer, and_assoc]

theorem inv_of_wf (g : VoxelGrid) (hg : g.WF)
    (hfit : ∀ e ∈ g.grid, e.2.fitsBuffer = true) : g.Inv where
  nodup := hg.nodup
  count_eq := hg.count_eq
  count_le := hg.count_le
  i2k_len := hg.i2k_len
  dom := hg.dom
  k2i := hg.k2i
  i2k := hg.i2k
  rec_key := hg.rec_key
  mat_len := hg.mat_len
  col_len := hg.col_len
  dense := by
    intro k i v hi hv
    obtain ⟨hp, hc⟩ := hg.dense k i v hi hv
    have hf := (Voxel.fitsBuffer_iff v).mp (hfit (k, v) (JsMap.mem_of_get _ _ _ hv))
    have hk := hg.rec_key k v hv
    subst hk
    obtain ⟨hx, hy, hz, hcol⟩ := hf
    have hx2 : float32 v.key.x = JsNumber.int v.key.x := hx
    have hy2 : float32 v.key.y = JsNumber.int v.key.y := hy
    have hz2 : float32 v.key.z = JsNumber.int v.key.z := hz
    rw [hx2, hy2, hz2] at hp
    rw [Nat.mod_eq_of_lt hcol] at hc
    exact ⟨hp, hc⟩

/-! ## Swap-compact removal -/

/-- C7: in a store satisfying the store invariants (`VoxelGrid.Inv`, the dense buffer
mirroring every record), removing an occupied coordinate at
slot `i ≠ count - 1` moves the coordinate `d` of the last slot to slot `i` together
with its position and colour, leaves the removed coordinate unoccupied and without
index entry, lowers `count` by exactly one, keeps `d`'s record, and keeps slot and
record of every other coordinate. -/
theorem removeVoxel_swap_compact (g : VoxelGrid) (hg : g.Inv) (x y z : Int)
    (history : Option VoxelHistory) (i : Nat) (d : Key)
    (hocc : g.hasVoxel x y z = true)
    (hi : g.keyToIndex.get (keyFor x y z) = some i) (hne : i ≠ g.count - 1)
    (hd : g.indexToKey[g.count - 1]? = some d) :
    (g.removeVoxel x y z history).grid.keyToIndex.get d = some i ∧
    (g.removeVoxel x y z history).grid.indexToKey[i]? = some d ∧
    (∃ dv, g.grid.get d = some dv ∧
      (g.removeVoxel x y z history).grid.grid.get d = some dv ∧
      (g.removeVoxel x y z history).grid.mesh.positionAt i = some ⟨d.x, d.y, d.z⟩ ∧
      (g.removeVoxel x y z history).grid.mesh.colorAt i = some dv.color) ∧
    (g.removeVoxel x y z history).grid.hasVoxel x y z = false ∧
    (g.removeVoxel x y z history).grid.keyToIndex.get (keyFor x y z) = none ∧
    (g.removeVoxel x y z history).grid.count + 1 = g.count ∧
    (∀ k, k ≠ keyFor x y z → k ≠ d →
      (g.removeVoxel x y z history).grid.keyToIndex.get k = g.keyToIndex.get k ∧
      (g.removeVoxel x y z history).grid.grid.get k = g.grid.get k) := by
  have hw := hg.toWF
  have hinv := wf_removeVoxel g hw x y z history
  obtain ⟨e, he⟩ : ∃ e, g.grid.get (keyFor x y z) = some e := by
    cases hv : g.grid.get (keyFor x y z) with
    | none => simp [VoxelGrid.hasVoxel, JsMap.has, hv] at hocc
    | some e => exact ⟨e, rfl⟩
  obtain ⟨cs, hcs, _⟩ := hw.has_colors hi
  have hilt := hw.index_lt hi
  have hdIdx : g.keyToIndex.get d = some (g.count - 1) := hg.i2k _ _ hd
  have hdk : d ≠ keyFor x y z := by
    intro hc
    rw [hc, hi] at hdIdx
    cases hdIdx
    exact hne rfl
  obtain ⟨dv, hdv⟩ := hw.has_record hdIdx
  obtain ⟨hdp, hdc⟩ := hg.dense d (g.count - 1) dv hdIdx hdv
  obtain ⟨hdx, hdy, hdz⟩ := positionAt_float32 _ _ _ hdp
  have hdx2 : float32 d.x = JsNumber.int d.x := hdx
  have hdy2 : float32 d.y = JsNumber.int d.y := hdy
  have hdz2 : float32 d.z = JsNumber.int d.z := hdz
  have hdcol : dv.color % 16777216 = dv.color := Nat.mod_eq_of_lt (colorAt_lt _ _ _ hdc)
  rw [removeVoxel_swap g x y z history e i d cs he hi hne hd hcs] at hinv ⊢
  have hkd : ((g.keyToIndex.set d i).delete (keyFor x y z)).get d = some i := by
    rw [JsMap.get_delete_ne _ hdk, JsMap.get_set_self]
  have hgd : (JsMap.delete g.grid (keyFor x y z)).get d = some dv := by
    rw [JsMap.get_delete_ne _ hdk]
    exact hdv
  have hdense := hinv.dense d i dv hkd hgd
  rw [hdx2, hdy2, hdz2, hdcol] at hdense
  refine ⟨hkd, hinv.k2i d i hkd, ⟨dv, hdv, hgd, hdense⟩, ?_, ?_, ?_, ?_⟩
  · simp [VoxelGrid.hasVoxel, JsMap.has, JsMap.get_delete_self]
  · exact JsMap.get_delete_self _ _
  · show g.count - 1 + 1 = g.count
    omega
  · intro k hk1 hk2
    refine ⟨?_, ?_⟩
    · show ((g.keyToIndex.set d i).delete (keyFor x y z)).get k = g.keyToIndex.get k
      rw [JsMap.get_delete_ne _ hk1, JsMap.get_set_ne _ _ hk2]
    · exact JsMap.get_delete_ne _ hk1

/-- Witness of C7: `A`, `B`, `C` at slots 0, 1, 2; removing `A` moves `C` from slot 2
to slot 0 and `count` becomes 2. -/
theorem removeVoxel_swap_compact_witness :
    ((storeABC 3).removeVoxel 0 0 0 none).grid.count = 2 ∧
    (storeABC 3).keyToIndex.get (keyFor 2 0 0) = some 2 ∧
    (((storeABC 3).removeVoxel 0 0 0 none).grid.keyToIndex.get (keyFor 2 0 0) = some 0 ∧
    ((storeABC 3).removeVoxel 0 0 0 none).grid.indexToKey[0]? = some (keyFor 2 0 0) ∧
    (∃ dv, (storeABC 3).grid.get (keyFor 2 0 0) = some dv ∧
      ((storeABC 3).removeVoxel 0 0 0 none).grid.grid.get (keyFor 2 0 0) = some dv ∧
      ((storeABC 3).removeVoxel 0 0 0 none).grid.mesh.positionAt 0
        = some ⟨(keyFor 2 0 0).x, (keyFor 2 0 0).y, (keyFor 2 0 0).z⟩ ∧
      ((storeABC 3).removeVoxel 0 0 0 none).grid.mesh.colorAt 0 = some dv.color) ∧
    ((storeABC 3).removeVoxel 0 0 0 none).grid.hasVoxel 0 0 0 = false ∧
    ((storeABC 3).removeVoxel 0 0 0 none).grid.keyToIndex.get (keyFor 0 0 0) = none ∧
    ((storeABC 3).removeVoxel 0 0 0 none).grid.count + 1 = (storeABC 3).count ∧
    (∀ k, k ≠ keyFor 0 0 0 → k ≠ keyFor 2 0 0 →
      ((storeABC 3).removeVoxel 0 0 0 none).grid.keyToIndex.get k
        = (storeABC 3).keyToIndex.get k ∧
      ((storeABC 3).removeVoxel 0 0 0 none).grid.grid.get k = (storeABC 3).grid.get k)) :=
  ⟨by decide, by decide,
    removeVoxel_swap_compact (storeABC 3)
      (inv_of_wf _ (wf_setAll [voxelA, voxelB, voxelC] _ (wf_create 3)) (by decide))
      0 0 0 none 0 (keyFor 2 0 0)
      (by decide) (by decide) (by decide) (by decide)⟩

/-! ## Snapshot order -/

theorem VoxelGrid.WF.values_keys {g : VoxelGrid} (hg : g.WF) :
    g.grid.values.map Voxel.key = g.grid.keys := by
  simp only [JsMap.values, JsMap.keys, List.map_map]
  apply List.map_congr_left
  intro e he
  obtain ⟨k, v⟩ := e
  exact hg.rec_key k v (JsMap.get_of_mem _ _ _ hg.nodup he)

theorem VoxelGrid.WF.indexToKey_nodup {g : VoxelGrid} (hg : g.WF) : g.indexToKey.Nodup := by
  rw [List.nodup_iff_getElem?_ne_getElem?]
  intro i j hij hj heq
  have hj2 : g.indexToKey[j]? = some g.indexToKey[j] := List.getElem?_eq_getElem hj
  have h1 := hg.i2k j _ hj2
  rw [← heq] at hj2
  have h2 := hg.i2k i _ hj2
  rw [h1] at h2
  cases h2
  omega

theorem VoxelGrid.WF.mem_indexToKey_iff {g : VoxelGrid} (hg : g.WF) (k : Key) :
    k ∈ g.grid.keys ↔ k ∈ g.indexToKey := by
  constructor
  · intro hk
    cases hv : g.grid.get k with
    | none => exact absurd hk ((JsMap.get_eq_none_iff _ _).mp hv)
    | some v =>
      obtain ⟨i, hi⟩ := hg.has_index hv
      exact List.mem_iff_getElem?.mpr ⟨i, hg.k2i k i hi⟩
  · intro hk
    obtain ⟨i, hi⟩ := List.mem_iff_getElem?.mp hk
    obtain ⟨v, hv⟩ := hg.has_record (hg.i2k i k hi)
    by_contra hc
    rw [(JsMap.get_eq_none_iff _ _).mpr hc] at hv
    cases hv

theorem VoxelGrid.WF.keys_perm {g : VoxelGrid} (hg : g.WF) :
    g.grid.keys.Perm g.indexToKey :=
  (List.perm_ext_iff_of_nodup hg.nodup hg.indexToKey_nodup).mpr hg.mem_indexToKey_iff

theorem keys_eq_setVoxel (g : VoxelGrid) (hg : g.WF) (hk : g.grid.keys = g.indexToKey)
    (x y z : Int) (voxel : Voxel) (history : Option VoxelHistory) :
    (g.setVoxel x y z voxel history).grid.grid.keys
      = (g.setVoxel x y z voxel history).grid.indexToKey := by
  cases he : g.grid.get (keyFor x y z) with
  | some e =>
    by_cases hd : e.color ≠ voxel.color ∨ e.type ≠ voxel.type
    · obtain ⟨index, hi⟩ := hg.has_index he
      rw [setVoxel_update g x y z voxel history e index he hd hi]
      show (JsMap.set g.grid (keyFor x y z) (voxel.withCoord x y z)).keys = g.indexToKey
      rw [JsMap.keys_set_of_get_some _ _ _ e he]
      exact hk
    · have hc : e.color = voxel.color := by
        by_contra hc
        exact hd (Or.inl hc)
      have ht : e.type = voxel.type := by
        by_contra ht
        exact hd (Or.inr ht)
      rw [setVoxel_same g x y z voxel history e he hc ht]
      exact hk
  | none =>
    by_cases hc : g.count < g.maxInstances
    · rw [setVoxel_insert g x y z voxel history he hc]
      show (JsMap.set g.grid (keyFor x y z) (voxel.withCoord x y z)).keys
        = arrayAssign g.indexToKey g.count (keyFor x y z)
      rw [JsMap.set_of_get_none _ _ _ he]
      simp only [JsMap.keys] at hk
      simp [arrayAssign, hg.i2k_len, JsMap.keys, hk]
    · rw [setVoxel_full g x y z voxel history he (Nat.le_of_not_lt hc)]
      exact hk

theorem keys_eq_setAll (voxels : List Voxel) (g : VoxelGrid) (hg : g.WF)
    (hk : g.grid.keys = g.indexToKey) :
    (g.setAll voxels).grid.keys = (g.setAll voxels).indexToKey := by
  induction voxels generalizing g with
  | nil => exact hk
  | cons v vs ih =>
    exact ih _ (wf_setVoxel g hg v.x v.y v.z v none) (keys_eq_setVoxel g hg hk _ _ _ _ _)

theorem keys_eq_run (calls : List Call) (w : World) (hw : w.grid.WF)
    (hk : w.grid.grid.keys = w.grid.indexToKey) (hno : ∀ c ∈ calls, c.isRemove = false) :
    (w.run calls).grid.grid.keys = (w.run calls).grid.indexToKey := by
  induction calls generalizing w with
  | nil => exact hk
  | cons c cs ih =>
    have hcs : ∀ c2 ∈ cs, c2.isRemove = false := fun c2 h2 => hno c2 (List.mem_cons_of_mem _ h2)
    refine ih _ (wf_step w hw c) ?_ hcs
    cases c with
    | setVoxel x y z voxel recorded => exact keys_eq_setVoxel _ hw hk _ _ _ _ _
    | removeVoxel x y z recorded =>
      have := hno _ (List.mem_cons_self _ _)
      simp [Call.isRemove] at this
    | clear => rfl
    | importData data =>
      cases data with
      | none => rfl
      | some voxels => exact keys_eq_setAll voxels _ (wf_clear _ hw) rfl

theorem JsMap.keys_length {κ α : Type} (m : JsMap κ α) : (JsMap.keys m).length = m.length := by
  simp [JsMap.keys]

theorem keys_setVoxel (g : VoxelGrid) (hg : g.WF) (x y z : Int) (voxel : Voxel)
    (history : Option VoxelHistory) :
    (g.setVoxel x y z voxel history).grid.grid.keys
      = insertionOrderSet g.maxInstances g.grid.keys (keyFor x y z) := by
  have hlen : g.grid.keys.length = g.count := by
    rw [JsMap.keys_length, hg.count_eq]
    rfl
  cases he : g.grid.get (keyFor x y z) with
  | some e =>
    have hmem : keyFor x y z ∈ g.grid.keys := by
      by_contra hc
      rw [(JsMap.get_eq_none_iff _ _).mpr hc] at he
      cases he
    rw [insertionOrderSet, if_pos hmem]
    by_cases hd : e.color ≠ voxel.color ∨ e.type ≠ voxel.type
    · obtain ⟨index, hi⟩ := hg.has_index he
      rw [setVoxel_update g x y z voxel history e index he hd hi]
      exact JsMap.keys_set_of_get_some _ _ _ e he
    · have hc : e.color = voxel.color := by
        by_contra hc
        exact hd (Or.inl hc)
      have ht : e.type = voxel.type := by
        by_contra ht
        exact hd (Or.inr ht)
      rw [setVoxel_same g x y z voxel history e he hc ht]
  | none =>
    have hmem : keyFor x y z ∉ g.grid.keys := (JsMap.get_eq_none_iff _ _).mp he
    rw [insertionOrderSet, if_neg hmem, hlen]
    by_cases hc : g.count < g.maxInstances
    · rw [if_pos hc, setVoxel_insert g x y z voxel history he hc]
      show (JsMap.set g.grid (keyFor x y z) (voxel.withCoord x y z)).keys
        = g.grid.keys ++ [keyFor x y z]
      rw [JsMap.set_of_get_none _ _ _ he]
      simp [JsMap.keys]
    · rw [if_neg hc, setVoxel_full g x y z voxel history he (Nat.le_of_not_lt hc)]

theorem keys_removeVoxel (g : VoxelGrid) (x y z : Int) (history : Option VoxelHistory) :
    (g.removeVoxel x y z history).grid.grid.keys
      = g.grid.keys.filter (fun k => k != keyFor x y z) := by
  cases he : g.grid.get (keyFor x y z) with
  | some e =>
    rw [removeVoxel_grid_present g x y z history e he]
    exact JsMap.keys_delete _ _
  | none =>
    have hmem : keyFor x y z ∉ g.grid.keys := (JsMap.get_eq_none_iff _ _).mp he
    rw [removeVoxel_absent g x y z history he]
    symm
    rw [List.filter_eq_self]
    intro k hk
    have hne : k ≠ keyFor x y z := by
      intro hc
      subst hc
      exact hmem hk
    simpa using hne

theorem keys_setAll (voxels : List Voxel) (g : VoxelGrid) (hg : g.WF) :
    (g.setAll voxels).grid.keys
      = voxels.foldl (fun acc voxel => insertionOrderSet g.maxInstances acc voxel.key)
          g.grid.keys := by
  induction voxels generalizing g with
  | nil => rfl
  | cons v vs ih =>
    show ((g.setVoxel v.x v.y v.z v none).grid.setAll vs).grid.keys = _
    rw [ih _ (wf_setVoxel g hg v.x v.y v.z v none), maxInstances_setVoxel,
      keys_setVoxel g hg]
    rfl

theorem keys_step (w : World) (hw : w.grid.WF) (c : Call) :
    (w.step c).grid.grid.keys = insertionOrderStep w.grid.maxInstances w.grid.grid.keys c := by
  cases c with
  | setVoxel x y z voxel recorded => exact keys_setVoxel _ hw _ _ _ _ _
  | removeVoxel x y z recorded => exact keys_removeVoxel _ _ _ _ _
  | clear => rfl
  | importData data =>
    cases data with
    | none => rfl
    | some voxels => exact keys_setAll voxels _ (wf_clear _ hw)

theorem keys_run (calls : List Call) (w : World) (hw : w.grid.WF) :
    (w.run calls).grid.grid.keys
      = calls.foldl (insertionOrderStep w.grid.maxInstances) w.grid.grid.keys := by
  induction calls generalizing w with
  | nil => rfl
  | cons c cs ih =>
    show ((w.step c).run cs).grid.grid.keys = _
    rw [ih _ (wf_step w hw c), maxInstances_step, keys_step w hw c]
    rfl

/-- C8, counterexample: with `A`, `B`, `C` inserted in this order and `A` removed, the
dense order is `C`, `B` (`C` was swapped into slot 0) while `exportData` and
`forEachVoxel` yield `B`, `C`. -/
theorem export_order_counterexample :
    ((storeABC 3).removeVoxel 0 0 0 none).grid.indexToKey = [keyFor 2 0 0, keyFor 1 0 0] ∧
    ((storeABC 3).removeVoxel 0 0 0 none).grid.exportData = [voxelB, voxelC] ∧
    ((storeABC 3).removeVoxel 0 0 0 none).grid.forEachVoxel = [voxelB, voxelC] ∧
    (((storeABC 3).removeVoxel 0 0 0 none).grid.exportData[0]?).map Voxel.key
      ≠ ((storeABC 3).removeVoxel 0 0 0 none).grid.indexToKey[0]? := by
  decide

/-- C8 as amended: on every store reached from a fresh one, `exportData().voxels` and
the visiting order of `forEachVoxel` are the value order of the sparse map, and the
coordinates of the snapshot, in order, are the occupied coordinates in the order in
which they became occupied (`insertionOrder`: a `setVoxel` on an occupied coordinate
keeps its place, an insertion with room goes last, `removeVoxel` takes the coordinate
out without moving the others); the snapshot has `count` voxels, each the record
stored at its own coordinate, and its coordinates are a rearrangement of
`indexToKey`.  The `i`-th voxel sits at `indexToKey[i]` when the calls made contain no
`removeVoxel`. -/
theorem export_order_is_insertion_order (maxInstances : Nat) (h : VoxelHistory)
    (calls : List Call) :
    ((World.fresh maxInstances h).run calls).grid.exportData
      = ((World.fresh maxInstances h).run calls).grid.grid.values ∧
    ((World.fresh maxInstances h).run calls).grid.forEachVoxel
      = ((World.fresh maxInstances h).run calls).grid.grid.values ∧
    ((World.fresh maxInstances h).run calls).grid.exportData.length
      = ((World.fresh maxInstances h).run calls).grid.count ∧
    (∀ v ∈ ((World.fresh maxInstances h).run calls).grid.exportData,
      ((World.fresh maxInstances h).run calls).grid.getVoxel v.x v.y v.z = some v) ∧
    (((World.fresh maxInstances h).run calls).grid.exportData.map Voxel.key).Perm
      ((World.fresh maxInstances h).run calls).grid.indexToKey ∧
    ((∀ c ∈ calls, c.isRemove = false) →
      ((World.fresh maxInstances h).run calls).grid.exportData.map Voxel.key
        = ((World.fresh maxInstances h).run calls).grid.indexToKey) ∧
    ((World.fresh maxInstances h).run calls).grid.exportData.map Voxel.key
      = insertionOrder maxInstances calls ∧
    ((World.fresh maxInstances h).run calls).grid.forEachVoxel.map Voxel.key
      = insertionOrder maxInstances calls := by
  have hinv := wf_run calls (World.fresh maxInstances h) (wf_create maxInstances)
  have hkeys := keys_eq_run calls (World.fresh maxInstances h) (wf_create maxInstances) rfl
  have hord : ((World.fresh maxInstances h).run calls).grid.grid.keys
      = insertionOrder maxInstances calls :=
    keys_run calls (World.fresh maxInstances h) (wf_create maxInstances)
  generalize (World.fresh maxInstances h).run calls = w at hinv hkeys hord
  refine ⟨rfl, rfl, ?_, ?_, ?_, ?_, ?_, ?_⟩
  · show w.grid.grid.values.length = w.grid.count
    rw [hinv.count_eq]
    simp [JsMap.values, JsMap.size]
  · intro v hv
    have hv2 : v ∈ w.grid.grid.values := hv
    simp only [JsMap.values, List.mem_map] at hv2
    obtain ⟨e, he, rfl⟩ := hv2
    obtain ⟨k, v⟩ := e
    have hget := JsMap.get_of_mem _ _ _ hinv.nodup he
    have hk := hinv.rec_key k v hget
    show w.grid.grid.get (keyFor v.x v.y v.z) = some v
    have hk2 : keyFor v.x v.y v.z = k := hk
    rw [hk2]
    exact hget
  · show (w.grid.grid.values.map Voxel.key).Perm w.grid.indexToKey
    rw [hinv.values_keys]
    exact hinv.keys_perm
  · intro hno
    show w.grid.grid.values.map Voxel.key = w.grid.indexToKey
    rw [hinv.values_keys]
    exact hkeys hno
  · show w.grid.grid.values.map Voxel.key = insertionOrder maxInstances calls
    rw [hinv.values_keys]
    exact hord
  · show w.grid.grid.values.map Voxel.key = insertionOrder maxInstances calls
    rw [hinv.values_keys]
    exact hord

/-- Witness of the amended C8: after inserting `A`, `B`, `C` (no removal) the snapshot
order is the dense order; after inserting `A`, `B`, `C` and removing `A` the snapshot
is `B`, `C`, the insertion order of the two coordinates left. -/
theorem export_order_is_insertion_order_witness :
    (∀ c ∈ [Call.setVoxel 0 0 0 voxelA true, Call.setVoxel 1 0 0 voxelB false,
        Call.setVoxel 2 0 0 voxelC true], c.isRemove = false) ∧
    ((World.fresh 3 (VoxelHistory.create 50)).run
        [Call.setVoxel 0 0 0 voxelA true, Call.setVoxel 1 0 0 voxelB false,
          Call.setVoxel 2 0 0 voxelC true]).grid.exportData.map Voxel.key
      = ((World.fresh 3 (VoxelHistory.create 50)).run
        [Call.setVoxel 0 0 0 voxelA true, Call.setVoxel 1 0 0 voxelB false,
          Call.setVoxel 2 0 0 voxelC true]).grid.indexToKey ∧
    insertionOrder 3 removalCalls = [keyFor 1 0 0, keyFor 2 0 0] ∧
    ((World.fresh 3 (VoxelHistory.create 50)).run removalCalls).grid.exportData
      = [voxelB, voxelC] ∧
    ((World.fresh 3 (VoxelHistory.create 50)).run removalCalls).grid.exportData.map Voxel.key
      = insertionOrder 3 removalCalls :=
  ⟨by decide,
    (export_order_is_insertion_order 3 (VoxelHistory.create 50)
      [Call.setVoxel 0 0 0 voxelA true, Call.setVoxel 1 0 0 voxelB false,
        Call.setVoxel 2 0 0 voxelC true]).2.2.2.2.2.1 (by decide),
    by decide, by decide,
    (export_order_is_insertion_order 3 (VoxelHistory.create 50) removalCalls).2.2.2.2.2.2.1⟩

/-! ## Snapshot and restore -/

theorem Voxel.withCoord_self (v : Voxel) : v.withCoord v.x v.y v.z = v := by
  cases v
  rfl

theorem setAll_fresh (voxels : List Voxel) (g : VoxelGrid)
    (hnd : (voxels.map Voxel.key).Nodup)
    (hnew : ∀ v ∈ voxels, g.grid.get v.key = none)
    (hroom : g.count + voxels.length ≤ g.maxInstances) :
    (g.setAll voxels).grid = g.grid ++ voxels.map (fun v => (v.key, v)) ∧
      (g.setAll voxels).count = g.count + voxels.length := by
  induction voxels generalizing g with
  | nil => simp [VoxelGrid.setAll]
  | cons v vs ih =>
    simp only [List.map_cons, List.nodup_cons] at hnd
    have he : g.grid.get (keyFor v.x v.y v.z) = none := hnew v (List.mem_cons_self _ _)
    have hc : g.count < g.maxInstances := by
      simp only [List.length_cons] at hroom
      omega
    have hstep := setVoxel_insert g v.x v.y v.z v none he hc
    have hgrid : (g.setVoxel v.x v.y v.z v none).grid.grid = g.grid ++ [(v.key, v)] := by
      rw [hstep]
      show JsMap.set g.grid (keyFor v.x v.y v.z) (v.withCoord v.x v.y v.z) = _
      rw [JsMap.set_of_get_none _ _ _ he, Voxel.withCoord_self]
      rfl
    have hcount : (g.setVoxel v.x v.y v.z v none).grid.count = g.count + 1 := by
      rw [hstep]
    have hmax : (g.setVoxel v.x v.y v.z v none).grid.maxInstances = g.maxInstances :=
      maxInstances_setVoxel _ _ _ _ _ _
    have hnew2 : ∀ v2 ∈ vs, (g.setVoxel v.x v.y v.z v none).grid.grid.get v2.key = none := by
      intro v2 hv2
      have hne : v2.key ≠ keyFor v.x v.y v.z := by
        intro hcontra
        apply hnd.1
        have : v.key = v2.key := hcontra.symm
        rw [this]
        exact List.mem_map_of_mem Voxel.key hv2
      rw [hstep]
      show (JsMap.set g.grid (keyFor v.x v.y v.z) (v.withCoord v.x v.y v.z)).get v2.key = none
      rw [JsMap.get_set_ne _ _ hne]
      exact hnew v2 (List.mem_cons_of_mem _ hv2)
    have hroom2 : (g.setVoxel v.x v.y v.z v none).grid.count + vs.length
        ≤ (g.setVoxel v.x v.y v.z v none).grid.maxInstances := by
      rw [hcount, hmax]
      simp only [List.length_cons] at hroom
      omega
    obtain ⟨h1, h2⟩ := ih (g.setVoxel v.x v.y v.z v none).grid hnd.2 hnew2 hroom2
    refine ⟨?_, ?_⟩
    · show ((g.setVoxel v.x v.y v.z v none).grid.setAll vs).grid = _
      rw [h1, hgrid]
      simp
    · show ((g.setVoxel v.x v.y v.z v none).grid.setAll vs).count = _
      rw [h2, hcount]
      simp only [List.length_cons]
      omega

theorem importData_fresh (g : VoxelGrid) (voxels : List Voxel)
    (hnd : (voxels.map Voxel.key).Nodup) (hroom : voxels.length ≤ g.maxInstances) :
    (g.importData (some voxels)).grid = voxels.map (fun v => (v.key, v)) ∧
      (g.importData (some voxels)).count = voxels.length := by
  have h := setAll_fresh voxels g.clear hnd (fun _ _ => rfl)
    (by show 0 + voxels.length ≤ g.maxInstances; omega)
  obtain ⟨h1, h2⟩ := h
  refine ⟨?_, ?_⟩
  · show (g.clear.setAll voxels).grid = _
    rw [h1]
    rfl
  · show (g.clear.setAll voxels).count = _
    rw [h2]
    show 0 + voxels.length = voxels.length
    omega

theorem VoxelGrid.WF.entries_of_values {g : VoxelGrid} (hg : g.WF) :
    g.grid.values.map (fun v => (v.key, v)) = g.grid := by
  simp only [JsMap.values, List.map_map]
  conv_rhs => rw [← List.map_id g.grid]
  apply List.map_congr_left
  intro e he
  obtain ⟨k, v⟩ := e
  have hk := hg.rec_key k v (JsMap.get_of_mem _ _ _ hg.nodup he)
  simp [hk]

theorem importData_exportData (g target : VoxelGrid) (hg : g.WF)
    (hcap : target.maxInstances = g.maxInstances) :
    (target.importData (some g.exportData)).grid = g.grid ∧
      (target.importData (some g.exportData)).count = g.count := by
  have hnd : (g.exportData.map Voxel.key).Nodup := by
    show (g.grid.values.map Voxel.key).Nodup
    rw [hg.values_keys]
    exact hg.nodup
  have hlen : g.exportData.length = g.count := by
    rw [hg.count_eq]
    simp [VoxelGrid.exportData, JsMap.values, JsMap.size]
  have hroom : g.exportData.length ≤ target.maxInstances := by
    rw [hlen, hcap]
    exact hg.count_le
  obtain ⟨h1, h2⟩ := importData_fresh target g.exportData hnd hroom
  refine ⟨?_, ?_⟩
  · rw [h1]
    exact hg.entries_of_values
  · rw [h2, hlen]

/-- C9: for every store reached from a fresh one, `importData(exportData())`, on that
store or on a fresh store of the same capacity, yields a store with the same occupied
coordinates, the identical record at each of them, and the same `count`. -/
theorem import_export_round_trip (maxInstances : Nat) (h : VoxelHistory) (calls : List Call) :
    (∀ x y z,
      ((((World.fresh maxInstances h).run calls).grid.importData
          (some ((World.fresh maxInstances h).run calls).grid.exportData)).hasVoxel x y z
        = ((World.fresh maxInstances h).run calls).grid.hasVoxel x y z) ∧
      ((((World.fresh maxInstances h).run calls).grid.importData
          (some ((World.fresh maxInstances h).run calls).grid.exportData)).getVoxel x y z
        = ((World.fresh maxInstances h).run calls).grid.getVoxel x y z) ∧
      (((VoxelGrid.create maxInstances).importData
          (some ((World.fresh maxInstances h).run calls).grid.exportData)).hasVoxel x y z
        = ((World.fresh maxInstances h).run calls).grid.hasVoxel x y z) ∧
      (((VoxelGrid.create maxInstances).importData
          (some ((World.fresh maxInstances h).run calls).grid.exportData)).getVoxel x y z
        = ((World.fresh maxInstances h).run calls).grid.getVoxel x y z)) ∧
    (((World.fresh maxInstances h).run calls).grid.importData
        (some ((World.fresh maxInstances h).run calls).grid.exportData)).getCount
      = ((World.fresh maxInstances h).run calls).grid.getCount ∧
    ((VoxelGrid.create maxInstances).importData
        (some ((World.fresh maxInstances h).run calls).grid.exportData)).getCount
      = ((World.fresh maxInstances h).run calls).grid.getCount := by
  have hinv := wf_run calls (World.fresh maxInstances h) (wf_create maxInstances)
  have hmax : ((World.fresh maxInstances h).run calls).grid.maxInstances = maxInstances :=
    maxInstances_run calls (World.fresh maxInstances h)
  generalize (World.fresh maxInstances h).run calls = w at hinv hmax
  obtain ⟨a1, a2⟩ := importData_exportData w.grid w.grid hinv rfl
  obtain ⟨b1, b2⟩ := importData_exportData w.grid (VoxelGrid.create maxInstances) hinv
    (by rw [hmax]; rfl)
  refine ⟨?_, a2, b2⟩
  intro x y z
  simp only [VoxelGrid.hasVoxel, VoxelGrid.getVoxel, a1, b1, and_self]

/-! ## Load order -/

theorem JsMap.get_perm {κ α : Type} [DecidableEq κ] (m1 m2 : JsMap κ α)
    (hp : List.Perm m1 m2) (hnd : (JsMap.keys m1).Nodup) (k : κ) :
    JsMap.get m1 k = JsMap.get m2 k := by
  have hkeys : (JsMap.keys m1).Perm (JsMap.keys m2) := hp.map Prod.fst
  have hnd2 : (JsMap.keys m2).Nodup := hkeys.nodup_iff.mp hnd
  cases h1 : JsMap.get m1 k with
  | none =>
    have hnot := (JsMap.get_eq_none_iff m1 k).mp h1
    have hnot2 : k ∉ JsMap.keys m2 := fun hc => hnot (hkeys.mem_iff.mpr hc)
    exact ((JsMap.get_eq_none_iff m2 k).mpr hnot2).symm
  | some v =>
    have hmem := JsMap.mem_of_get m1 k v h1
    exact (JsMap.get_of_mem m2 k v hnd2 (hp.mem_iff.mp hmem)).symm

/-- C10, counterexample: two records for the same coordinate load to the later one,
and with capacity 1 only the first record of the list is kept, so reordering the
list changes the loaded store. -/
theorem import_order_counterexample :
    [voxelA, voxelA2].Perm [voxelA2, voxelA] ∧
    ((VoxelGrid.create 2).importData (some [voxelA, voxelA2])).getVoxel 0 0 0 = some voxelA2 ∧
    ((VoxelGrid.create 2).importData (some [voxelA2, voxelA])).getVoxel 0 0 0 = some voxelA ∧
    [voxelA, voxelB].Perm [voxelB, voxelA] ∧
    ((VoxelGrid.create 1).importData (some [voxelA, voxelB])).hasVoxel 0 0 0 = true ∧
    ((VoxelGrid.create 1).importData (some [voxelB, voxelA])).hasVoxel 0 0 0 = false :=
  ⟨List.Perm.swap _ _ _, by decide, by decide, List.Perm.swap _ _ _, by decide, by decide⟩

/-- C10 as amended: for a list of records with pairwise distinct coordinates that
fits the capacity, `importData` of the list and of any rearrangement of it, on
stores of equal capacity, give the same occupied coordinates with identical records
and the same `count`. -/
theorem importData_order_insensitive (g1 g2 : VoxelGrid) (voxels reordered : List Voxel)
    (hcap : g1.maxInstances = g2.maxInstances) (hperm : voxels.Perm reordered)
    (hnd : (voxels.map Voxel.key).Nodup) (hfit : voxels.length ≤ g1.maxInstances) :
    (∀ x y z,
      (g1.importData (some voxels)).hasVoxel x y z
        = (g2.importData (some reordered)).hasVoxel x y z ∧
      (g1.importData (some voxels)).getVoxel x y z
        = (g2.importData (some reordered)).getVoxel x y z) ∧
    (g1.importData (some voxels)).getCount = (g2.importData (some reordered)).getCount := by
  have hnd2 : (reordered.map Voxel.key).Nodup := (hperm.map Voxel.key).nodup_iff.mp hnd
  have hfit2 : reordered.length ≤ g2.maxInstances := by
    rw [← hperm.length_eq, ← hcap]
    exact hfit
  obtain ⟨a1, a2⟩ := importData_fresh g1 voxels hnd hfit
  obtain ⟨b1, b2⟩ := importData_fresh g2 reordered hnd2 hfit2
  have hentries : List.Perm (voxels.map (fun v => (v.key, v)))
      (reordered.map (fun v => (v.key, v))) := hperm.map _
  have hk : (JsMap.keys (voxels.map (fun v => (v.key, v)))).Nodup := by
    simpa [JsMap.keys, List.map_map, Function.comp_def] using hnd
  have hget := JsMap.get_perm _ _ hentries hk
  refine ⟨?_, ?_⟩
  · intro x y z
    simp only [VoxelGrid.hasVoxel, VoxelGrid.getVoxel, JsMap.has, a1, b1]
    rw [hget]
    exact ⟨rfl, rfl⟩
  · show (g1.importData (some voxels)).count = (g2.importData (some reordered)).count
    rw [a2, b2, hperm.length_eq]

/-- Witness of the amended C10: `A`, `B`, `C` loaded in two orders into stores of
capacity 3. -/
theorem importData_order_insensitive_witness :
    (∀ x y z,
      ((VoxelGrid.create 3).importData (some [voxelA, voxelB, voxelC])).hasVoxel x y z
        = ((storeABC 3).importData (some [voxelB, voxelA, voxelC])).hasVoxel x y z ∧
      ((VoxelGrid.create 3).importData (some [voxelA, voxelB, voxelC])).getVoxel x y z
        = ((storeABC 3).importData (some [voxelB, voxelA, voxelC])).getVoxel x y z) ∧
    ((VoxelGrid.create 3).importData (some [voxelA, voxelB, voxelC])).getCount
      = ((storeABC 3).importData (some [voxelB, voxelA, voxelC])).getCount :=
  importData_order_insensitive (VoxelGrid.create 3) (storeABC 3) [voxelA, voxelB, voxelC]
    [voxelB, voxelA, voxelC] (by decide) (List.Perm.swap _ _ _) (by decide) (by decide)

/-! ## Undo and redo -/

/-- C3, counterexample (the scenario of the specification): from the empty store,
`begin; set((0,0,0),A); set((1,0,0),B); remove((0,0,0)); commit` leaves only
`(1,0,0) -> B`; `undo` then removes `(1,0,0)` and restores `(0,0,0) -> A`, which
the store did not hold before the transaction. -/
theorem undo_inverse_counterexample :
    scenarioWorld.grid.exportData = [] ∧
    (scenarioWorld.transaction "t1" scenarioEdits).grid.exportData = [voxelB] ∧
    (scenarioWorld.transaction "t1" scenarioEdits).history.undoStack
      = [⟨"t1", [voxelA, voxelB], [voxelA]⟩] ∧
    (scenarioWorld.transaction "t1" scenarioEdits).undo.grid.exportData = [voxelA] ∧
    (scenarioWorld.transaction "t1" scenarioEdits).undo.grid.getVoxel 0 0 0
      ≠ scenarioWorld.grid.getVoxel 0 0 0 := by
  decide

/-- C4, counterexample (the scenario of the specification): after the same
transaction, `undo; redo` yields `(0,0,0) -> A` and `(1,0,0) -> B`, not the
single-voxel store the transaction had produced. -/
theorem redo_inverse_counterexample :
    (scenarioWorld.transaction "t1" scenarioEdits).grid.exportData = [voxelB] ∧
    (scenarioWorld.transaction "t1" scenarioEdits).undo.redo.grid.exportData
      = [voxelA, voxelB] ∧
    (scenarioWorld.transaction "t1" scenarioEdits).undo.redo.grid.getVoxel 0 0 0
      ≠ (scenarioWorld.transaction "t1" scenarioEdits).grid.getVoxel 0 0 0 := by
  decide

theorem removeVoxel_get (g : VoxelGrid) (hg : g.WF) (x y z : Int)
    (history : Option VoxelHistory) (k : Key) :
    (g.removeVoxel x y z history).grid.grid.get k
      = if k = keyFor x y z then none else g.grid.get k := by
  cases he : g.grid.get (keyFor x y z) with
  | none =>
    rw [removeVoxel_absent g x y z history he]
    by_cases hk : k = keyFor x y z
    · rw [if_pos hk, hk]
      exact he
    · rw [if_neg hk]
  | some e =>
    have hgrid : (g.removeVoxel x y z history).grid.grid = g.grid.delete (keyFor x y z) := by
      obtain ⟨index, hi⟩ := hg.has_index he
      by_cases hne : index = g.count - 1
      · subst hne
        rw [removeVoxel_last g x y z history e he hi]
      · have hpos : 0 < g.count := Nat.lt_of_le_of_lt (Nat.zero_le _) (hg.index_lt hi)
        obtain ⟨lastKey, hlast⟩ := hg.last_key hpos
        obtain ⟨cs, hcs, _⟩ := hg.has_colors hi
        rw [removeVoxel_swap g x y z history e index lastKey cs he hi hne hlast hcs]
    rw [hgrid]
    by_cases hk : k = keyFor x y z
    · rw [if_pos hk, hk]
      exact JsMap.get_delete_self _ _
    · rw [if_neg hk]
      exact JsMap.get_delete_ne _ hk

theorem removeAll_get (voxels : List Voxel) (g : VoxelGrid) (hg : g.WF) (k : Key) :
    (g.removeAll voxels).grid.get k
      = if k ∈ voxels.map Voxel.key then none else g.grid.get k := by
  induction voxels generalizing g with
  | nil => simp [VoxelGrid.removeAll]
  | cons v vs ih =>
    show ((g.removeVoxel v.x v.y v.z none).grid.removeAll vs).grid.get k = _
    rw [ih _ (wf_removeVoxel g hg v.x v.y v.z none), removeVoxel_get g hg]
    by_cases h1 : k ∈ vs.map Voxel.key
    · simp [h1]
    · by_cases h2 : k = keyFor v.x v.y v.z
      · simp [h2, Voxel.key]
      · have h3 : k ≠ v.key := h2
        simp [h1, h2, h3]

theorem JsMap.get_append {κ α : Type} [DecidableEq κ] (m1 m2 : JsMap κ α) (k : κ) :
    JsMap.get (m1 ++ m2) k
      = match JsMap.get m1 k with
        | some v => some v
        | none => JsMap.get m2 k := by
  induction m1 with
  | nil => simp [JsMap.get]
  | cons e m ih =>
    obtain ⟨k', v'⟩ := e
    by_cases h : k' = k
    · simp [JsMap.get, h]
    · simp only [List.cons_append, JsMap.get, h, if_false]
      exact ih

theorem entries_get_some (voxels : List Voxel) (k : Key) (v : Voxel)
    (h : JsMap.get (voxels.map (fun v => (v.key, v))) k = some v) : v ∈ voxels ∧ v.key = k := by
  have hmem := JsMap.mem_of_get _ _ _ h
  simp only [List.mem_map, Prod.mk.injEq] at hmem
  obtain ⟨a, ha, hk, hv⟩ := hmem
  subst hv
  exact ⟨ha, hk⟩

theorem entries_get_none (voxels : List Voxel) (k : Key) (h : k ∉ voxels.map Voxel.key) :
    JsMap.get (voxels.map (fun v => (v.key, v))) k = none := by
  rw [JsMap.get_eq_none_iff]
  simpa [JsMap.keys, List.map_map, Function.comp_def] using h

theorem entries_get_mem (voxels : List Voxel) (k : Key) (h : k ∈ voxels.map Voxel.key) :
    ∃ v, JsMap.get (voxels.map (fun v => (v.key, v))) k = some v := by
  cases hv : JsMap.get (voxels.map (fun v => (v.key, v))) k with
  | some v => exact ⟨v, rfl⟩
  | none =>
    rw [JsMap.get_eq_none_iff] at hv
    exact absurd (by simpa [JsMap.keys, List.map_map, Function.comp_def] using h) hv

theorem VoxelGrid.WF.mem_keys_of_get {g : VoxelGrid} {k : Key} {v : Voxel}
    (h : g.grid.get k = some v) : k ∈ g.grid.keys := by
  by_contra hc
  rw [(JsMap.get_eq_none_iff _ _).mpr hc] at h
  cases h

/-- Replaying a list of removals and then a list of insertions reaches the target
mapping when the insertions are the target's records at distinct, then unoccupied,
coordinates and the target agrees with the store after the removals elsewhere. -/
theorem replay_get (g target : VoxelGrid) (removed inserted : List Voxel)
    (hg : g.WF) (ht : target.WF) (hcap : g.maxInstances = target.maxInstances)
    (hnd : (inserted.map Voxel.key).Nodup)
    (hrec : ∀ v ∈ inserted, target.grid.get v.key = some v)
    (hnew : ∀ v ∈ inserted, v.key ∈ removed.map Voxel.key ∨ g.grid.get v.key = none)
    (hrest : ∀ k, k ∉ inserted.map Voxel.key →
      target.grid.get k = if k ∈ removed.map Voxel.key then none else g.grid.get k)
    (k : Key) :
    ((g.removeAll removed).setAll inserted).grid.get k = target.grid.get k := by
  have hg2 := wf_removeAll removed g hg
  have hmax2 : (g.removeAll removed).maxInstances = g.maxInstances :=
    maxInstances_removeAll removed g
  have hget2 := removeAll_get removed g hg
  generalize g.removeAll removed = g2 at hg2 hmax2 hget2
  have hfree : ∀ v ∈ inserted, g2.grid.get v.key = none := by
    intro v hv
    rw [hget2]
    rcases hnew v hv with h | h
    · rw [if_pos h]
    · split_ifs
      · rfl
      · exact h
  have hsame : ∀ k2, k2 ∉ inserted.map Voxel.key → target.grid.get k2 = g2.grid.get k2 := by
    intro k2 hk2
    rw [hrest k2 hk2, hget2]
  have hdisj : ∀ k2, k2 ∈ g2.grid.keys → k2 ∉ inserted.map Voxel.key := by
    intro k2 hk2 hc
    obtain ⟨v, hv, rfl⟩ := List.mem_map.mp hc
    exact (JsMap.get_eq_none_iff _ _).mp (hfree v hv) hk2
  have hall : (g2.grid.keys ++ inserted.map Voxel.key).Nodup := by
    rw [List.nodup_append]
    exact ⟨hg2.nodup, hnd, fun a ha hb => hdisj a ha hb⟩
  have hsub : g2.grid.keys ++ inserted.map Voxel.key ⊆ target.grid.keys := by
    intro k2 hk2
    rcases List.mem_append.mp hk2 with h | h
    · have hk3 := hdisj k2 h
      cases hv : g2.grid.get k2 with
      | none => exact absurd h ((JsMap.get_eq_none_iff _ _).mp hv)
      | some v =>
        have := hsame k2 hk3
        rw [hv] at this
        exact VoxelGrid.WF.mem_keys_of_get this
    · obtain ⟨v, hv, rfl⟩ := List.mem_map.mp h
      exact VoxelGrid.WF.mem_keys_of_get (hrec v hv)
  have hlen := (hall.subperm hsub).length_le
  have hroom : g2.count + inserted.length ≤ g2.maxInstances := by
    have h1 := hg2.count_eq
    have h2 := ht.count_eq
    have h3 := ht.count_le
    simp only [JsMap.size] at h1 h2
    simp only [List.length_append, JsMap.keys, List.length_map] at hlen
    omega
  obtain ⟨hgrid, _⟩ := setAll_fresh inserted g2 hnd hfree hroom
  rw [hgrid, JsMap.get_append]
  by_cases hk : k ∈ inserted.map Voxel.key
  · obtain ⟨v, hv, hkey⟩ := List.mem_map.mp hk
    have h0 : g2.grid.get k = none := by
      rw [← hkey]
      exact hfree v hv
    obtain ⟨v2, hv2⟩ := entries_get_mem inserted k hk
    obtain ⟨hmem, hkey2⟩ := entries_get_some inserted k v2 hv2
    rw [h0]
    show JsMap.get (inserted.map (fun v => (v.key, v))) k = target.grid.get k
    rw [hv2, ← hkey2]
    exact (hrec v2 hmem).symm
  · rw [hsame k hk]
    cases hv : g2.grid.get k with
    | none => exact entries_get_none inserted k hk
    | some v => rfl

theorem history_current_eta (h : VoxelHistory) (t : Transaction) (hcur : h.current = some t) :
    { h with current := some t } = h := by
  cases h
  simp only at hcur
  subst hcur
  rfl

theorem Voxel.key_withCoord (voxel : Voxel) (x y z : Int) :
    (voxel.withCoord x y z).key = keyFor x y z := rfl

theorem txinv_begin (g0 : VoxelGrid) (hg : g0.WF) (label : String) :
    TxInv g0 g0 ⟨label, [], []⟩ := by
  constructor
  · exact hg
  · rfl
  · exact List.nodup_nil
  · exact List.nodup_nil
  · intro a ha
    cases ha
  · intro a ha
    cases ha
  · intro r hr
    cases hr
  · intro r hr
    cases hr
  · intro k _ _
    rfl

theorem txinv_insert (g0 g : VoxelGrid) (t : Transaction) (x y z : Int) (voxel : Voxel)
    (hinv : TxInv g0 g t) (he : g.grid.get (keyFor x y z) = none)
    (hc : g.count < g.maxInstances) :
    TxInv g0 { g with
        keyToIndex := g.keyToIndex.set (keyFor x y z) g.count
        indexToKey := arrayAssign g.indexToKey g.count (keyFor x y z)
        grid := g.grid.set (keyFor x y z) (voxel.withCoord x y z)
        mesh := { (g.mesh.setMatrixAt g.count ⟨x, y, z⟩).setColorAt g.count
                    (setHex voxel.color) with count := g.count + 1 }
        count := g.count + 1 }
      { t with adds := t.adds ++ [voxel.withCoord x y z] } := by
  have hnotin : keyFor x y z ∉ t.adds.map Voxel.key := by
    intro hc2
    obtain ⟨a, ha, hk⟩ := List.mem_map.mp hc2
    have := hinv.adds_cur a ha
    rw [hk, he] at this
    cases this
  constructor
  · exact wf_setVoxel_insert g hinv.inv x y z voxel he hc
  · exact hinv.cap
  · show ((t.adds ++ [voxel.withCoord x y z]).map Voxel.key).Nodup
    rw [List.map_append, List.nodup_append]
    refine ⟨hinv.adds_nodup, List.nodup_singleton _, ?_⟩
    intro k hk1 hk2
    simp only [List.map_cons, List.map_nil, List.mem_singleton] at hk2
    subst hk2
    exact hnotin hk1
  · exact hinv.removes_nodup
  · intro a ha
    show (JsMap.set g.grid (keyFor x y z) (voxel.withCoord x y z)).get a.key = some a
    have ha2 : a ∈ t.adds ++ [voxel.withCoord x y z] := ha
    rcases List.mem_append.mp ha2 with h | h
    · have hne : a.key ≠ keyFor x y z := by
        intro hc2
        apply hnotin
        rw [← hc2]
        exact List.mem_map_of_mem Voxel.key h
      rw [JsMap.get_set_ne _ _ hne]
      exact hinv.adds_cur a h
    · simp only [List.mem_singleton] at h
      subst h
      rw [Voxel.key_withCoord, JsMap.get_set_self]
  · intro a ha
    show g0.grid.get a.key = none ∨ a.key ∈ t.removes.map Voxel.key
    have ha2 : a ∈ t.adds ++ [voxel.withCoord x y z] := ha
    rcases List.mem_append.mp ha2 with h | h
    · exact hinv.adds_old a h
    · simp only [List.mem_singleton] at h
      subst h
      rw [Voxel.key_withCoord]
      by_cases hr : keyFor x y z ∈ t.removes.map Voxel.key
      · exact Or.inr hr
      · left
        rw [← hinv.other _ hnotin hr]
        exact he
  · exact hinv.removes_old
  · intro r hr hnot
    show (JsMap.set g.grid (keyFor x y z) (voxel.withCoord x y z)).get r.key = none
    have hnot2 : r.key ∉ (t.adds ++ [voxel.withCoord x y z]).map Voxel.key := hnot
    rw [List.map_append, List.mem_append, not_or] at hnot2
    have hne : r.key ≠ keyFor x y z := by
      intro hc2
      apply hnot2.2
      simp [hc2, Voxel.key_withCoord]
    rw [JsMap.get_set_ne _ _ hne]
    exact hinv.removes_cur r hr hnot2.1
  · intro k hk1 hk2
    show (JsMap.set g.grid (keyFor x y z) (voxel.withCoord x y z)).get k = g0.grid.get k
    have hk3 : k ∉ (t.adds ++ [voxel.withCoord x y z]).map Voxel.key := hk1
    rw [List.map_append, List.mem_append, not_or] at hk3
    have hne : k ≠ keyFor x y z := by
      intro hc2
      apply hk3.2
      simp [hc2, Voxel.key_withCoord]
    rw [JsMap.get_set_ne _ _ hne]
    exact hinv.other k hk3.1 hk2

theorem txinv_set (g0 : VoxelGrid) (w : World) (t : Transaction) (x y z : Int)
    (voxel : Voxel) (hcur : w.history.current = some t) (hinv : TxInv g0 w.grid t)
    (hadm : ∀ e, w.grid.getVoxel x y z = some e →
      e.color = voxel.color ∧ e.type = voxel.type) :
    ∃ t2, (w.step (Call.setVoxel x y z voxel true)).history
        = { w.history with current := some t2 } ∧
      TxInv g0 (w.step (Call.setVoxel x y z voxel true)).grid t2 := by
  have hstep : w.step (Call.setVoxel x y z voxel true)
      = ⟨(w.grid.setVoxel x y z voxel (some w.history)).grid,
         (w.grid.setVoxel x y z voxel (some w.history)).history.getD w.history⟩ := rfl
  rw [hstep]
  cases he : w.grid.grid.get (keyFor x y z) with
  | some e =>
    obtain ⟨hc, ht⟩ := hadm e he
    rw [setVoxel_same w.grid x y z voxel _ e he hc ht]
    exact ⟨t, (history_current_eta _ _ hcur).symm, hinv⟩
  | none =>
    by_cases hc : w.grid.count < w.grid.maxInstances
    · rw [setVoxel_insert w.grid x y z voxel _ he hc]
      refine ⟨{ t with adds := t.adds ++ [voxel.withCoord x y z] }, ?_,
        txinv_insert g0 w.grid t x y z voxel hinv he hc⟩
      simp [recordAddOn, VoxelHistory.recordAdd, hcur]
    · rw [setVoxel_full w.grid x y z voxel _ he (Nat.le_of_not_lt hc)]
      exact ⟨t, (history_current_eta _ _ hcur).symm, hinv⟩

theorem removeVoxel_history (g : VoxelGrid) (x y z : Int) (history : Option VoxelHistory)
    (e : Voxel) (he : g.grid.get (keyFor x y z) = some e) :
    (g.removeVoxel x y z history).history = recordRemoveOn history e := by
  simp only [VoxelGrid.removeVoxel, he]

theorem txinv_delete (g0 g g2 : VoxelGrid) (t : Transaction) (key : Key) (e : Voxel)
    (hinv : TxInv g0 g t) (he : g.grid.get key = some e)
    (hnot : key ∉ t.adds.map Voxel.key) (hg2 : g2.WF)
    (hcap : g2.maxInstances = g.maxInstances)
    (hget : ∀ k, g2.grid.get k = if k = key then none else g.grid.get k) :
    TxInv g0 g2 { t with removes := t.removes ++ [e] } := by
  have hekey : e.key = key := hinv.inv.rec_key key e he
  have hnotr : key ∉ t.removes.map Voxel.key := by
    intro hc
    obtain ⟨r, hr, hk⟩ := List.mem_map.mp hc
    have := hinv.removes_cur r hr (by rw [hk]; exact hnot)
    rw [hk, he] at this
    cases this
  constructor
  · exact hg2
  · rw [hcap]
    exact hinv.cap
  · exact hinv.adds_nodup
  · show ((t.removes ++ [e]).map Voxel.key).Nodup
    rw [List.map_append, List.nodup_append]
    refine ⟨hinv.removes_nodup, List.nodup_singleton _, ?_⟩
    intro k hk1 hk2
    simp only [List.map_cons, List.map_nil, List.mem_singleton] at hk2
    subst hk2
    rw [hekey] at hk1
    exact hnotr hk1
  · intro a ha
    have ha2 : a ∈ t.adds := ha
    have hne : a.key ≠ key := by
      intro hc
      apply hnot
      rw [← hc]
      exact List.mem_map_of_mem Voxel.key ha2
    rw [hget, if_neg hne]
    exact hinv.adds_cur a ha2
  · intro a ha
    show g0.grid.get a.key = none ∨ a.key ∈ (t.removes ++ [e]).map Voxel.key
    rcases hinv.adds_old a ha with h | h
    · exact Or.inl h
    · right
      rw [List.map_append]
      exact List.mem_append_left _ h
  · intro r hr
    have hr2 : r ∈ t.removes ++ [e] := hr
    rcases List.mem_append.mp hr2 with h | h
    · exact hinv.removes_old r h
    · simp only [List.mem_singleton] at h
      subst h
      rw [hekey, ← hinv.other key hnot hnotr]
      exact he
  · intro r hr hra
    have hr2 : r ∈ t.removes ++ [e] := hr
    have hra2 : r.key ∉ t.adds.map Voxel.key := hra
    rw [hget]
    by_cases hk : r.key = key
    · rw [if_pos hk]
    · rw [if_neg hk]
      rcases List.mem_append.mp hr2 with h | h
      · exact hinv.removes_cur r h hra2
      · simp only [List.mem_singleton] at h
        subst h
        exact absurd hekey hk
  · intro k hk1 hk2
    have hk3 : k ∉ (t.removes ++ [e]).map Voxel.key := hk2
    rw [List.map_append, List.mem_append, not_or] at hk3
    have hne : k ≠ key := by
      intro hc
      apply hk3.2
      simp [hc, hekey]
    rw [hget, if_neg hne]
    exact hinv.other k hk1 hk3.1

theorem txinv_remove (g0 : VoxelGrid) (w : World) (t : Transaction) (x y z : Int)
    (hcur : w.history.current = some t) (hinv : TxInv g0 w.grid t)
    (hadm : keyFor x y z ∉ t.adds.map Voxel.key) :
    ∃ t2, (w.step (Call.removeVoxel x y z true)).history
        = { w.history with current := some t2 } ∧
      TxInv g0 (w.step (Call.removeVoxel x y z true)).grid t2 := by
  have hstep : w.step (Call.removeVoxel x y z true)
      = ⟨(w.grid.removeVoxel x y z (some w.history)).grid,
         (w.grid.removeVoxel x y z (some w.history)).history.getD w.history⟩ := rfl
  rw [hstep]
  cases he : w.grid.grid.get (keyFor x y z) with
  | none =>
    rw [removeVoxel_absent w.grid x y z _ he]
    exact ⟨t, (history_current_eta _ _ hcur).symm, hinv⟩
  | some e =>
    refine ⟨{ t with removes := t.removes ++ [e] }, ?_, ?_⟩
    · rw [removeVoxel_history w.grid x y z _ e he]
      simp [recordRemoveOn, VoxelHistory.recordRemove, hcur]
    · exact txinv_delete g0 w.grid _ t (keyFor x y z) e hinv he hadm
        (wf_removeVoxel w.grid hinv.inv x y z _) (maxInstances_removeVoxel _ _ _ _ _)
        (removeVoxel_get w.grid hinv.inv x y z _)

theorem txinv_run (g0 : VoxelGrid) (edits : List Edit) (w : World) (t : Transaction)
    (hcur : w.history.current = some t) (hinv : TxInv g0 w.grid t)
    (hadm : w.admissible edits = true) :
    ∃ t2, (w.run (edits.map Edit.toCall)).history = { w.history with current := some t2 } ∧
      TxInv g0 (w.run (edits.map Edit.toCall)).grid t2 := by
  induction edits generalizing w t with
  | nil => exact ⟨t, (history_current_eta _ _ hcur).symm, hinv⟩
  | cons e es ih =>
    cases e with
    | set x y z voxel =>
      simp only [World.admissible, Bool.and_eq_true] at hadm
      have hadm1 : ∀ e, w.grid.getVoxel x y z = some e →
          e.color = voxel.color ∧ e.type = voxel.type := by
        intro e he
        have h1 := hadm.1
        rw [he] at h1
        simpa using h1
      obtain ⟨t1, hh1, hi1⟩ := txinv_set g0 w t x y z voxel hcur hinv hadm1
      have hcur1 : (w.step (Call.setVoxel x y z voxel true)).history.current = some t1 := by
        rw [hh1]
      obtain ⟨t2, hh2, hi2⟩ := ih _ t1 hcur1 hi1 hadm.2
      refine ⟨t2, ?_, hi2⟩
      show ((w.step (Call.setVoxel x y z voxel true)).run (es.map Edit.toCall)).history = _
      rw [hh2, hh1]
    | remove x y z =>
      simp only [World.admissible, Bool.and_eq_true] at hadm
      have hadm1 : keyFor x y z ∉ t.adds.map Voxel.key := by
        have h1 := hadm.1
        rw [hcur] at h1
        simpa using h1
      obtain ⟨t1, hh1, hi1⟩ := txinv_remove g0 w t x y z hcur hinv hadm1
      have hcur1 : (w.step (Call.removeVoxel x y z true)).history.current = some t1 := by
        rw [hh1]
      obtain ⟨t2, hh2, hi2⟩ := ih _ t1 hcur1 hi1 hadm.2
      refine ⟨t2, ?_, hi2⟩
      show ((w.step (Call.removeVoxel x y z true)).run (es.map Edit.toCall)).history = _
      rw [hh2, hh1]

theorem undo_of_top (h : VoxelHistory) (grid : VoxelGrid) (t : Transaction)
    (htop : h.undoStack.getLast? = some t) :
    h.undo grid
      = ⟨{ h with undoStack := h.undoStack.dropLast, redoStack := h.redoStack ++ [t] },
         (grid.removeAll t.adds).setAll t.removes, JsReturn.action t⟩ := by
  simp [VoxelHistory.undo, htop]

theorem redo_of_top (h : VoxelHistory) (grid : VoxelGrid) (t : Transaction)
    (htop : h.redoStack.getLast? = some t) :
    h.redo grid
      = ⟨{ h with redoStack := h.redoStack.dropLast, undoStack := h.undoStack ++ [t] },
         (grid.removeAll t.removes).setAll t.adds, JsReturn.action t⟩ := by
  simp [VoxelHistory.redo, htop]

theorem getLast?_kept (stack : List Transaction) (t : Transaction) (limit : Nat)
    (hlimit : 1 ≤ limit) :
    (if (stack ++ [t]).length > limit then (stack ++ [t]).tail
      else stack ++ [t]).getLast? = some t := by
  split_ifs with h
  · cases stack with
    | nil =>
      simp only [List.nil_append, List.length_singleton] at h
      omega
    | cons u us =>
      show (us ++ [t]).getLast? = some t
      exact List.getLast?_concat _
  · exact List.getLast?_concat _

theorem commit_of_recorded (h : VoxelHistory) (t : Transaction) (hcur : h.current = some t)
    (hrec : t.adds ≠ [] ∨ t.removes ≠ []) :
    h.commit
      = { h with
          undoStack := if (h.undoStack ++ [t]).length > h.limit
            then (h.undoStack ++ [t]).tail else h.undoStack ++ [t]
          redoStack := []
          current := none } := by
  have hcond : t.adds.length ≠ 0 ∨ t.removes.length ≠ 0 := by
    rcases hrec with h1 | h1
    · exact Or.inl (fun hc => h1 (List.length_eq_zero.mp hc))
    · exact Or.inr (fun hc => h1 (List.length_eq_zero.mp hc))
  simp only [VoxelHistory.commit, hcur]
  rw [if_pos hcond]

theorem transaction_shape (w : World) (label : String) (edits : List Edit)
    (hinv : w.grid.WF) (hclosed : w.history.current = none)
    (hlimit : 1 ≤ w.history.limit)
    (hadm : (w.begin label).admissible edits = true)
    (hrec : (w.edit label edits).hasRecorded = true) :
    ∃ t, TxInv w.grid (w.transaction label edits).grid t ∧
      (w.transaction label edits).history.undoStack.getLast? = some t ∧
      (w.transaction label edits).history.redoStack = [] := by
  have hbegin : (w.begin label).history.current = some ⟨label, [], []⟩ := by
    simp [World.begin, VoxelHistory.begin, hclosed]
  have hlim : (w.begin label).history.limit = w.history.limit := by
    simp [World.begin, VoxelHistory.begin, hclosed]
  obtain ⟨t, hh, hi⟩ := txinv_run w.grid edits (w.begin label) _ hbegin
    (txinv_begin w.grid hinv label) hadm
  have hedit : w.edit label edits = (w.begin label).run (edits.map Edit.toCall) := rfl
  rw [← hedit] at hh hi
  have hcur : (w.edit label edits).history.current = some t := by
    rw [hh]
  have hrec2 : t.adds ≠ [] ∨ t.removes ≠ [] := by
    simp only [World.hasRecorded, hcur, Bool.or_eq_true, Bool.not_eq_true',
      List.isEmpty_eq_false] at hrec
    exact hrec
  have hlim2 : (w.edit label edits).history.limit = w.history.limit := by
    rw [hh]
    exact hlim
  have htx : w.transaction label edits
      = ⟨(w.edit label edits).grid, (w.edit label edits).history.commit⟩ := rfl
  rw [htx, commit_of_recorded _ t hcur hrec2]
  refine ⟨t, hi, ?_, rfl⟩
  exact getLast?_kept _ t _ (by rw [hlim2]; exact hlimit)

theorem undo_get (g0 g1 : VoxelGrid) (t : Transaction) (hinv : TxInv g0 g1 t)
    (hg0 : g0.WF) (k : Key) :
    ((g1.removeAll t.adds).setAll t.removes).grid.get k = g0.grid.get k := by
  apply replay_get g1 g0 t.adds t.removes hinv.inv hg0 hinv.cap hinv.removes_nodup
    hinv.removes_old
  · intro r hr
    by_cases ha : r.key ∈ t.adds.map Voxel.key
    · exact Or.inl ha
    · exact Or.inr (hinv.removes_cur r hr ha)
  · intro k2 hk2
    by_cases ha : k2 ∈ t.adds.map Voxel.key
    · rw [if_pos ha]
      obtain ⟨a, ha2, hk⟩ := List.mem_map.mp ha
      rcases hinv.adds_old a ha2 with h | h
      · rw [← hk]
        exact h
      · rw [hk] at h
        exact absurd h hk2
    · rw [if_neg ha]
      exact (hinv.other k2 ha hk2).symm

theorem redo_get (g0 g1 gu : VoxelGrid) (t : Transaction) (hinv : TxInv g0 g1 t)
    (hgu : gu.WF) (hcap : gu.maxInstances = g0.maxInstances)
    (hview : ∀ k, gu.grid.get k = g0.grid.get k) (k : Key) :
    ((gu.removeAll t.removes).setAll t.adds).grid.get k = g1.grid.get k := by
  apply replay_get gu g1 t.removes t.adds hgu hinv.inv (by rw [hcap, hinv.cap])
    hinv.adds_nodup hinv.adds_cur
  · intro a ha
    rcases hinv.adds_old a ha with h | h
    · right
      rw [hview]
      exact h
    · exact Or.inl h
  · intro k2 hk2
    by_cases hr : k2 ∈ t.removes.map Voxel.key
    · rw [if_pos hr]
      obtain ⟨r, hr2, hk⟩ := List.mem_map.mp hr
      rw [← hk]
      exact hinv.removes_cur r hr2 (by rw [hk]; exact hk2)
    · rw [if_neg hr, hview]
      exact hinv.other k2 hk2 hr

/-- C3 as amended: let the store satisfy the store invariants and the history have
no open transaction and a depth limit of at least 1.  For every transaction
(`begin`; `setVoxel` / `removeVoxel` calls passed the history; `commit`) in which
no `setVoxel` changes the colour or kind of an occupied coordinate and no
`removeVoxel` targets a coordinate the transaction has added, and which records at
least one add or remove, `undo` after the transaction yields the
occupied-coordinate to voxel mapping the store had before it. -/
theorem undo_restores_store (w : World) (label : String) (edits : List Edit)
    (hinv : w.grid.WF) (hclosed : w.history.current = none)
    (hlimit : 1 ≤ w.history.limit)
    (hadm : (w.begin label).admissible edits = true)
    (hrec : (w.edit label edits).hasRecorded = true) :
    ∀ x y z, (w.transaction label edits).undo.grid.getVoxel x y z = w.grid.getVoxel x y z ∧
      (w.transaction label edits).undo.grid.hasVoxel x y z = w.grid.hasVoxel x y z := by
  obtain ⟨t, hi, htop, _⟩ := transaction_shape w label edits hinv hclosed hlimit hadm hrec
  have hundo : (w.transaction label edits).undo.grid
      = ((w.transaction label edits).grid.removeAll t.adds).setAll t.removes := by
    simp only [World.undo, undo_of_top _ _ t htop]
  intro x y z
  have hget := undo_get w.grid _ t hi hinv (keyFor x y z)
  simp only [VoxelGrid.getVoxel, VoxelGrid.hasVoxel, JsMap.has, hundo, hget, and_self]

/-- Witness of the amended C3: the store holds `A`; the transaction removes
`(0,0,0)`, sets `B` at `(1,0,0)` and sets a new record at `(0,0,0)`; `undo` gives
back the store holding `A` only. -/
theorem undo_restores_store_witness :
    (restrictedWorld.transaction "t1" restrictedEdits).grid.exportData = [voxelB, voxelA2] ∧
    (restrictedWorld.transaction "t1" restrictedEdits).undo.grid.exportData = [voxelA] ∧
    (∀ x y z,
      (restrictedWorld.transaction "t1" restrictedEdits).undo.grid.getVoxel x y z
        = restrictedWorld.grid.getVoxel x y z ∧
      (restrictedWorld.transaction "t1" restrictedEdits).undo.grid.hasVoxel x y z
        = restrictedWorld.grid.hasVoxel x y z) :=
  ⟨by decide, by decide,
    undo_restores_store restrictedWorld "t1" restrictedEdits
      (wf_setAll [voxelA] _ (wf_create 4)) (by decide) (by decide) (by decide)
      (by decide)⟩

/-- C4 as amended: under the same conditions as for `undo` (store invariants, no
open transaction, depth limit at least 1, no in-place update and no removal of a
coordinate added in the transaction, at least one add or remove recorded), `undo`
followed by `redo` yields the occupied-coordinate to voxel mapping the store had
right after the transaction. -/
theorem redo_restores_store (w : World) (label : String) (edits : List Edit)
    (hinv : w.grid.WF) (hclosed : w.history.current = none)
    (hlimit : 1 ≤ w.history.limit)
    (hadm : (w.begin label).admissible edits = true)
    (hrec : (w.edit label edits).hasRecorded = true) :
    ∀ x y z,
      (w.transaction label edits).undo.redo.grid.getVoxel x y z
        = (w.transaction label edits).grid.getVoxel x y z ∧
      (w.transaction label edits).undo.redo.grid.hasVoxel x y z
        = (w.transaction label edits).grid.hasVoxel x y z := by
  obtain ⟨t, hi, htop, hredo⟩ :=
    transaction_shape w label edits hinv hclosed hlimit hadm hrec
  have hundo : (w.transaction label edits).undo
      = ⟨((w.transaction label edits).grid.removeAll t.adds).setAll t.removes,
         { (w.transaction label edits).history with
            undoStack := (w.transaction label edits).history.undoStack.dropLast
            redoStack := (w.transaction label edits).history.redoStack ++ [t] }⟩ := by
    simp only [World.undo, undo_of_top _ _ t htop]
  have htop2 : (w.transaction label edits).undo.history.redoStack.getLast? = some t := by
    rw [hundo]
    exact List.getLast?_concat _
  have hredo2 : (w.transaction label edits).undo.redo.grid
      = ((w.transaction label edits).undo.grid.removeAll t.removes).setAll t.adds := by
    simp only [World.redo, redo_of_top _ _ t htop2]
  have hgu : (w.transaction label edits).undo.grid.WF := by
    rw [hundo]
    exact wf_setAll _ _ (wf_removeAll _ _ hi.inv)
  have hcap : (w.transaction label edits).undo.grid.maxInstances = w.grid.maxInstances := by
    rw [hundo]
    show (((w.transaction label edits).grid.removeAll t.adds).setAll t.removes).maxInstances
      = w.grid.maxInstances
    rw [maxInstances_setAll, maxInstances_removeAll]
    exact hi.cap
  have hview : ∀ k, (w.transaction label edits).undo.grid.grid.get k = w.grid.grid.get k := by
    intro k
    rw [hundo]
    exact undo_get w.grid _ t hi hinv k
  intro x y z
  have hget := redo_get w.grid _ _ t hi hgu hcap hview (keyFor x y z)
  simp only [VoxelGrid.getVoxel, VoxelGrid.hasVoxel, JsMap.has, hredo2, hget, and_self]

/-- Witness of the amended C4 on the same transaction: `undo; redo` gives back `B` at
`(1,0,0)` and the new record at `(0,0,0)`. -/
theorem redo_restores_store_witness :
    (restrictedWorld.transaction "t1" restrictedEdits).undo.redo.grid.exportData
      = [voxelB, voxelA2] ∧
    (∀ x y z,
      (restrictedWorld.transaction "t1" restrictedEdits).undo.redo.grid.getVoxel x y z
        = (restrictedWorld.transaction "t1" restrictedEdits).grid.getVoxel x y z ∧
      (restrictedWorld.transaction "t1" restrictedEdits).undo.redo.grid.hasVoxel x y z
        = (restrictedWorld.transaction "t1" restrictedEdits).grid.hasVoxel x y z) :=
  ⟨by decide,
    redo_restores_store restrictedWorld "t1" restrictedEdits
      (wf_setAll [voxelA] _ (wf_create 4)) (by decide) (by decide) (by decide)
      (by decide)⟩

/-! ## History depth -/

theorem foldl_recordAdd (adds : List Voxel) (h : VoxelHistory) (t : Transaction)
    (hcur : h.current = some t) :
    adds.foldl VoxelHistory.recordAdd h
      = { h with current := some { t with adds := t.adds ++ adds } } := by
  induction adds generalizing h t with
  | nil =>
    simp only [List.foldl_nil, List.append_nil]
    exact (history_current_eta h t hcur).symm
  | cons v vs ih =>
    have h1 : h.recordAdd v = { h with current := some { t with adds := t.adds ++ [v] } } := by
      simp [VoxelHistory.recordAdd, hcur]
    simp only [List.foldl_cons]
    rw [ih (h.recordAdd v) { t with adds := t.adds ++ [v] } (by rw [h1]), h1]
    simp

theorem foldl_recordRemove (removes : List Voxel) (h : VoxelHistory) (t : Transaction)
    (hcur : h.current = some t) :
    removes.foldl VoxelHistory.recordRemove h
      = { h with current := some { t with removes := t.removes ++ removes } } := by
  induction removes generalizing h t with
  | nil =>
    simp only [List.foldl_nil, List.append_nil]
    exact (history_current_eta h t hcur).symm
  | cons v vs ih =>
    have h1 : h.recordRemove v
        = { h with current := some { t with removes := t.removes ++ [v] } } := by
      simp [VoxelHistory.recordRemove, hcur]
    simp only [List.foldl_cons]
    rw [ih (h.recordRemove v) { t with removes := t.removes ++ [v] } (by rw [h1]), h1]
    simp

theorem commitTransaction_eq (h : VoxelHistory) (t : Transaction) (hclosed : h.current = none)
    (hne : t.nonEmpty = true) :
    h.commitTransaction t
      = { h with
          undoStack := if (h.undoStack ++ [t]).length > h.limit
            then (h.undoStack ++ [t]).tail else h.undoStack ++ [t]
          redoStack := []
          current := none } := by
  have hb : h.begin t.label = { h with current := some ⟨t.label, [], []⟩ } := by
    simp [VoxelHistory.begin, hclosed]
  have ha := foldl_recordAdd t.adds (h.begin t.label) ⟨t.label, [], []⟩ (by rw [hb])
  have hr := foldl_recordRemove t.removes (t.adds.foldl VoxelHistory.recordAdd (h.begin t.label))
    ⟨t.label, [] ++ t.adds, []⟩ (by rw [ha])
  have hrec : t.adds ≠ [] ∨ t.removes ≠ [] := by
    simpa [Transaction.nonEmpty] using hne
  have hcur : (t.removes.foldl VoxelHistory.recordRemove
      (t.adds.foldl VoxelHistory.recordAdd (h.begin t.label))).current = some t := by
    rw [hr]
    cases t
    simp
  unfold VoxelHistory.commitTransaction
  rw [commit_of_recorded _ t hcur hrec, hr, ha, hb]

theorem trim_keeps_last (ts : List Transaction) (t : Transaction) (limit : Nat) :
    (if (ts.drop (ts.length - limit) ++ [t]).length > limit
      then (ts.drop (ts.length - limit) ++ [t]).tail
      else ts.drop (ts.length - limit) ++ [t])
      = (ts ++ [t]).drop ((ts ++ [t]).length - limit) := by
  by_cases hlt : ts.length < limit
  · have h0 : ts.length - limit = 0 := by omega
    have h1 : (ts ++ [t]).length - limit = 0 := by
      simp only [List.length_append, List.length_singleton]
      omega
    rw [h0, h1, List.drop_zero, List.drop_zero, if_neg]
    simp only [List.length_append, List.length_singleton]
    omega
  · have hle : ts.length - limit ≤ ts.length := Nat.sub_le _ _
    have h1 : (ts ++ [t]).length - limit = ts.length - limit + 1 := by
      simp only [List.length_append, List.length_singleton]
      omega
    rw [if_pos, h1, ← List.drop_append_of_le_length hle, List.tail_drop]
    simp only [List.length_append, List.length_drop, List.length_singleton]
    omega

theorem commitAll_stack (limit : Nat) (ts : List Transaction)
    (hne : ∀ t ∈ ts, t.nonEmpty = true) :
    (VoxelHistory.create limit).commitAll ts
      = ⟨limit, ts.drop (ts.length - limit), [], none⟩ := by
  induction ts using List.reverseRecOn with
  | nil => simp [VoxelHistory.commitAll, VoxelHistory.create]
  | append_singleton l a ih =>
    have hl : ∀ t ∈ l, t.nonEmpty = true := fun t ht => hne t (List.mem_append_left _ ht)
    have ha : a.nonEmpty = true := hne a (List.mem_append_right _ (List.mem_singleton_self a))
    have hstep : (VoxelHistory.create limit).commitAll (l ++ [a])
        = ((VoxelHistory.create limit).commitAll l).commitTransaction a := by
      simp [VoxelHistory.commitAll, List.foldl_append]
    rw [hstep, ih hl, commitTransaction_eq _ a rfl ha]
    simp only [trim_keeps_last]

theorem undoReturns_stack (s : List Transaction) (w : World) (hs : w.history.undoStack = s) :
    w.undoReturns (s.length + 1) = s.reverse.map JsReturn.action ++ [JsReturn.null] := by
  induction s using List.reverseRecOn generalizing w with
  | nil =>
    have : w.history.undoStack.getLast? = none := by rw [hs]; rfl
    simp [World.undoReturns, VoxelHistory.undo, this]
  | append_singleton l a ih =>
    have htop : w.history.undoStack.getLast? = some a := by
      rw [hs]
      exact List.getLast?_concat _
    have hret : (w.history.undo w.grid).returned = JsReturn.action a := by
      rw [undo_of_top _ _ a htop]
    have hrest : w.undo.history.undoStack = l := by
      simp only [World.undo, undo_of_top _ _ a htop, hs, List.dropLast_concat]
    have hlen : (l ++ [a]).length + 1 = (l.length + 1) + 1 := by simp
    rw [hlen]
    show (w.history.undo w.grid).returned :: w.undo.undoReturns (l.length + 1) = _
    rw [hret, ih w.undo hrest]
    simp

/-- C11: in a fresh `VoxelHistory(L)` with `L ≥ 1`, after committing `n > L` non-empty
transactions with no `undo` / `redo` in between, the undo stack holds exactly the `L`
most recent transactions in commit order; `L` consecutive `undo` calls return them
newest first and the next `undo` returns `null`, so the older transactions are
never replayed. -/
theorem history_bound (limit : Nat) (ts : List Transaction) (grid : VoxelGrid)
    (hlimit : 1 ≤ limit) (hn : limit < ts.length) (hne : ∀ t ∈ ts, t.nonEmpty = true) :
    ((VoxelHistory.create limit).commitAll ts).undoStack = ts.drop (ts.length - limit) ∧
    ((VoxelHistory.create limit).commitAll ts).undoStack.length = limit ∧
    World.undoReturns ⟨grid, (VoxelHistory.create limit).commitAll ts⟩ (limit + 1)
      = (ts.drop (ts.length - limit)).reverse.map JsReturn.action ++ [JsReturn.null] := by
  have _ := hlimit
  have hstack := commitAll_stack limit ts hne
  have hlen : (ts.drop (ts.length - limit)).length = limit := by
    rw [List.length_drop]
    omega
  refine ⟨by rw [hstack], by rw [hstack]; exact hlen, ?_⟩
  have h := undoReturns_stack (ts.drop (ts.length - limit))
    ⟨grid, (VoxelHistory.create limit).commitAll ts⟩ (by rw [hstack])
  rw [hlen] at h
  exact h

/-- Witness of C11: limit 2 and the three transactions `txA`, `txB`, `txC`; the stack
keeps `txB`, `txC`, and three `undo` calls return `txC`, `txB`, `null`. -/
theorem history_bound_witness :
    ((VoxelHistory.create 2).commitAll [txA, txB, txC]).undoStack = [txB, txC] ∧
    World.undoReturns ⟨storeABC 3, (VoxelHistory.create 2).commitAll [txA, txB, txC]⟩ 3
      = [JsReturn.action txC, JsReturn.action txB, JsReturn.null] ∧
    (((VoxelHistory.create 2).commitAll [txA, txB, txC]).undoStack
      = [txA, txB, txC].drop ([txA, txB, txC].length - 2) ∧
    ((VoxelHistory.create 2).commitAll [txA, txB, txC]).undoStack.length = 2 ∧
    World.undoReturns ⟨storeABC 3, (VoxelHistory.create 2).commitAll [txA, txB, txC]⟩ (2 + 1)
      = ([txA, txB, txC].drop ([txA, txB, txC].length - 2)).reverse.map JsReturn.action
        ++ [JsReturn.null]) :=
  ⟨by decide, by decide,
    history_bound 2 [txA, txB, txC] (storeABC 3) (by decide) (by decide) (by decide)⟩

/-! ## Commit and the redo stack -/

/-- C12, counterexample: with `txA` on the redo stack, `begin` followed at once by
`commit` (an open transaction that recorded nothing) leaves `txA` on the redo
stack. -/
theorem commit_redo_counterexample :
    historyWithRedo.redoStack = [txA] ∧
    (historyWithRedo.begin "t2").current = some ⟨"t2", [], []⟩ ∧
    (historyWithRedo.begin "t2").commit.redoStack = [txA] ∧
    (historyWithRedo.begin "t2").commit.redoStack ≠ [] := by
  decide

/-- C12 as amended: `commit` on an open transaction that has recorded at least one
add or remove empties the redo stack; on an open transaction that has recorded
nothing it leaves the redo stack and the undo stack as they are; in both cases the
transaction is closed. -/
theorem commit_clears_redo_when_recorded (h : VoxelHistory) (t : Transaction)
    (hcur : h.current = some t) :
    (t.nonEmpty = true → h.commit.redoStack = [] ∧ h.commit.current = none) ∧
    (t.nonEmpty = false →
      h.commit.redoStack = h.redoStack ∧ h.commit.undoStack = h.undoStack ∧
      h.commit.current = none) := by
  refine ⟨?_, ?_⟩
  · intro hne
    have hrec : t.adds ≠ [] ∨ t.removes ≠ [] := by
      simpa [Transaction.nonEmpty] using hne
    rw [commit_of_recorded h t hcur hrec]
    exact ⟨rfl, rfl⟩
  · intro hempty
    have hboth : t.adds = [] ∧ t.removes = [] := by
      simpa [Transaction.nonEmpty] using hempty
    simp [VoxelHistory.commit, hcur, hboth.1, hboth.2]

/-- Witness of the amended C12: with `txA` on the redo stack, committing an open
transaction that recorded `B` empties the redo stack, committing an empty one
keeps it. -/
theorem commit_clears_redo_when_recorded_witness :
    ((historyWithRedo.begin "t2").recordAdd voxelB).commit.redoStack = [] ∧
    (historyWithRedo.begin "t2").commit.redoStack = historyWithRedo.redoStack :=
  ⟨((commit_clears_redo_when_recorded ((historyWithRedo.begin "t2").recordAdd voxelB)
      ⟨"t2", [voxelB], []⟩ (by decide)).1 (by decide)).1,
    ((commit_clears_redo_when_recorded (historyWithRedo.begin "t2")
      ⟨"t2", [], []⟩ (by decide)).2 (by decide)).1⟩

/-! ## What the store records -/

/-- C13: with an open transaction, (a) `removeVoxel` on an occupied coordinate appends
exactly one entry to `removes`, the record `getVoxel` returned right before the
call, and leaves `adds` alone; (b) `setVoxel` inserting at an unoccupied coordinate
below capacity appends exactly one entry to `adds`, the record `getVoxel` returns
right after the call, and leaves `removes` alone. -/
theorem recorded_preimage_and_image (g : VoxelGrid) (x y z : Int) (voxel : Voxel)
    (h : VoxelHistory) (t : Transaction) (hcur : h.current = some t) :
    (∀ e, g.getVoxel x y z = some e →
      (g.removeVoxel x y z (some h)).history
        = some { h with current := some { t with removes := t.removes ++ [e] } }) ∧
    (g.getVoxel x y z = none → g.count < g.maxInstances →
      ∃ v, (g.setVoxel x y z voxel (some h)).grid.getVoxel x y z = some v ∧
        (g.setVoxel x y z voxel (some h)).history
          = some { h with current := some { t with adds := t.adds ++ [v] } }) := by
  refine ⟨?_, ?_⟩
  · intro e he
    rw [removeVoxel_history g x y z _ e he]
    simp [recordRemoveOn, VoxelHistory.recordRemove, hcur]
  · intro he hc
    refine ⟨voxel.withCoord x y z, ?_, ?_⟩
    · rw [setVoxel_insert g x y z voxel _ he hc]
      exact JsMap.get_set_self _ _ _
    · rw [setVoxel_insert g x y z voxel _ he hc]
      simp [recordAddOn, VoxelHistory.recordAdd, hcur]

/-- Witness of C13: on the store holding `A` (capacity 4) with the open transaction
`t1`, removing `(0,0,0)` records `A` and inserting `B` at `(1,0,0)` records `B`. -/
theorem recorded_preimage_and_image_witness :
    ((storeA 4).removeVoxel 0 0 0 (some ((VoxelHistory.create 50).begin "t1"))).history
      = some { (VoxelHistory.create 50).begin "t1" with
          current := some ⟨"t1", [], [voxelA]⟩ } ∧
    (∃ v, ((storeA 4).setVoxel 1 0 0 voxelB
          (some ((VoxelHistory.create 50).begin "t1"))).grid.getVoxel 1 0 0 = some v ∧
      ((storeA 4).setVoxel 1 0 0 voxelB (some ((VoxelHistory.create 50).begin "t1"))).history
        = some { (VoxelHistory.create 50).begin "t1" with
            current := some { (⟨"t1", [], []⟩ : Transaction) with
              adds := (⟨"t1", [], []⟩ : Transaction).adds ++ [v] } }) :=
  ⟨(recorded_preimage_and_image (storeA 4) 0 0 0 voxelA ((VoxelHistory.create 50).begin "t1")
      ⟨"t1", [], []⟩ (by decide)).1 voxelA (by decide),
    (recorded_preimage_and_image (storeA 4) 1 0 0 voxelB ((VoxelHistory.create 50).begin "t1")
      ⟨"t1", [], []⟩ (by decide)).2 (by decide) (by decide)⟩

/-! ## Postcondition and frame of `setVoxel` -/

theorem setVoxel_grid (g : VoxelGrid) (x y z : Int) (voxel : Voxel)
    (history : Option VoxelHistory) :
    (g.setVoxel x y z voxel history).grid.grid
      = match g.grid.get (keyFor x y z) with
        | some e =>
          if e.color ≠ voxel.color ∨ e.type ≠ voxel.type
            then g.grid.set (keyFor x y z) (voxel.withCoord x y z) else g.grid
        | none =>
          if g.count ≥ g.maxInstances then g.grid
            else g.grid.set (keyFor x y z) (voxel.withCoord x y z) := by
  unfold VoxelGrid.setVoxel
  simp only []
  split
  · split
    · split <;> rfl
    · rfl
  · split <;> rfl

theorem setVoxel_get_other (g : VoxelGrid) (x y z : Int) (voxel : Voxel)
    (history : Option VoxelHistory) (k : Key) (hk : k ≠ keyFor x y z) :
    (g.setVoxel x y z voxel history).grid.grid.get k = g.grid.get k := by
  rw [setVoxel_grid]
  split
  · split
    · exact JsMap.get_set_ne _ _ hk
    · rfl
  · split
    · rfl
    · exact JsMap.get_set_ne _ _ hk

theorem setVoxel_get_self (g : VoxelGrid) (hg : g.WF) (x y z : Int) (voxel : Voxel)
    (history : Option VoxelHistory)
    (hok : g.grid.get (keyFor x y z) ≠ none ∨ g.count < g.maxInstances) :
    (g.setVoxel x y z voxel history).grid.grid.get (keyFor x y z)
      = some (voxel.withCoord x y z) := by
  rw [setVoxel_grid]
  cases he : g.grid.get (keyFor x y z) with
  | some e =>
    simp only []
    split_ifs with hd
    · exact JsMap.get_set_self _ _ _
    · have hc : e.color = voxel.color := by
        by_contra hc
        exact hd (Or.inl hc)
      have ht : e.type = voxel.type := by
        by_contra ht
        exact hd (Or.inr ht)
      have hk : keyFor e.x e.y e.z = keyFor x y z := hg.rec_key _ e he
      simp only [keyFor, Key.mk.injEq] at hk
      rw [he]
      cases e
      simp only [Voxel.withCoord, Option.some.injEq, Voxel.mk.injEq]
      simp only at hk hc ht
      exact ⟨hk.1, hk.2.1, hk.2.2, hc, ht⟩
  | none =>
    simp only []
    have hroom : g.count < g.maxInstances := by
      rcases hok with h | h
      · exact absurd he h
      · exact h
    rw [if_neg (by omega)]
    exact JsMap.get_set_self _ _ _

/-- C14: for a store satisfying the store invariants and a coordinate that is
occupied or for which `count < maxInstances`, after `setVoxel(x, y, z, v)` the
record at the coordinate has the call's `x`, `y`, `z` and `v`'s colour and kind;
every other coordinate keeps `hasVoxel` and `getVoxel`; and if the coordinate was
unoccupied it gets slot `count` (the old value) and `count` grows by exactly 1. -/
theorem setVoxel_post_and_frame (g : VoxelGrid) (hg : g.WF) (x y z : Int) (voxel : Voxel)
    (history : Option VoxelHistory)
    (hok : g.hasVoxel x y z = true ∨ g.count < g.maxInstances) :
    (g.setVoxel x y z voxel history).grid.getVoxel x y z
      = some ⟨x, y, z, voxel.color, voxel.type⟩ ∧
    (∀ x2 y2 z2, ¬(x2 = x ∧ y2 = y ∧ z2 = z) →
      (g.setVoxel x y z voxel history).grid.hasVoxel x2 y2 z2 = g.hasVoxel x2 y2 z2 ∧
      (g.setVoxel x y z voxel history).grid.getVoxel x2 y2 z2 = g.getVoxel x2 y2 z2) ∧
    (g.hasVoxel x y z = false →
      (g.setVoxel x y z voxel history).grid.keyToIndex.get (keyFor x y z) = some g.count ∧
      (g.setVoxel x y z voxel history).grid.count = g.count + 1) := by
  refine ⟨?_, ?_, ?_⟩
  · apply setVoxel_get_self g hg x y z voxel history
    rcases hok with h | h
    · left
      intro hc
      simp [VoxelGrid.hasVoxel, JsMap.has, hc] at h
    · exact Or.inr h
  · intro x2 y2 z2 hne
    have hk : keyFor x2 y2 z2 ≠ keyFor x y z := by
      intro hc
      simp only [keyFor, Key.mk.injEq] at hc
      exact hne hc
    have hget := setVoxel_get_other g x y z voxel history _ hk
    simp only [VoxelGrid.hasVoxel, VoxelGrid.getVoxel, JsMap.has, hget, and_self]
  · intro hfree
    have he : g.grid.get (keyFor x y z) = none := by
      simpa [VoxelGrid.hasVoxel, JsMap.has] using hfree
    have hroom : g.count < g.maxInstances := by
      rcases hok with h | h
      · rw [hfree] at h
        cases h
      · exact h
    rw [setVoxel_insert g x y z voxel history he hroom]
    exact ⟨JsMap.get_set_self _ _ _, rfl⟩

/-- Witness of C14: on the store holding `A` (capacity 4), `setVoxel(1, 0, 0, C)`,
where `C` itself carries `(2,0,0)`, stores a record at `(1,0,0)` with `C`'s colour
and kind, in slot 1. -/
theorem setVoxel_post_and_frame_witness :
    ((storeA 4).setVoxel 1 0 0 voxelC none).grid.getVoxel 1 0 0
      = some ⟨1, 0, 0, voxelC.color, voxelC.type⟩ ∧
    (∀ x2 y2 z2, ¬(x2 = 1 ∧ y2 = 0 ∧ z2 = 0) →
      ((storeA 4).setVoxel 1 0 0 voxelC none).grid.hasVoxel x2 y2 z2
        = (storeA 4).hasVoxel x2 y2 z2 ∧
      ((storeA 4).setVoxel 1 0 0 voxelC none).grid.getVoxel x2 y2 z2
        = (storeA 4).getVoxel x2 y2 z2) ∧
    ((storeA 4).hasVoxel 1 0 0 = false →
      ((storeA 4).setVoxel 1 0 0 voxelC none).grid.keyToIndex.get (keyFor 1 0 0)
        = some (storeA 4).count ∧
      ((storeA 4).setVoxel 1 0 0 voxelC none).grid.count = (storeA 4).count + 1) :=
  setVoxel_post_and_frame (storeA 4) (wf_setAll [voxelA] _ (wf_create 4)) 1 0 0 voxelC none
    (by decide)

/-! ## In-place update -/

theorem setVoxel_history (g : VoxelGrid) (x y z : Int) (voxel : Voxel)
    (history : Option VoxelHistory) :
    (g.setVoxel x y z voxel history).history
      = match g.grid.get (keyFor x y z) with
        | some _ => history
        | none =>
          if g.count ≥ g.maxInstances then history
            else recordAddOn history (voxel.withCoord x y z) := by
  unfold VoxelGrid.setVoxel
  simp only []
  split
  · split
    · split <;> rfl
    · rfl
  · split <;> rfl

theorem setVoxel_update_frame (g : VoxelGrid) (x y z : Int) (voxel e : Voxel)
    (history : Option VoxelHistory) (he : g.grid.get (keyFor x y z) = some e)
    (hd : e.color ≠ voxel.color ∨ e.type ≠ voxel.type) :
    (g.setVoxel x y z voxel history).grid.keyToIndex = g.keyToIndex ∧
    (g.setVoxel x y z voxel history).grid.indexToKey = g.indexToKey ∧
    (g.setVoxel x y z voxel history).grid.count = g.count ∧
    (g.setVoxel x y z voxel history).grid.grid
      = g.grid.set (keyFor x y z) (voxel.withCoord x y z) ∧
    (g.setVoxel x y z voxel history).history = history := by
  simp only [VoxelGrid.setVoxel, he]
  rw [if_pos hd]
  split <;> exact ⟨rfl, rfl, rfl, rfl, rfl⟩

theorem setAll_get_other (voxels : List Voxel) (g : VoxelGrid) (k : Key)
    (hk : k ∉ voxels.map Voxel.key) : (g.setAll voxels).grid.get k = g.grid.get k := by
  induction voxels generalizing g with
  | nil => rfl
  | cons v vs ih =>
    simp only [List.map_cons, List.mem_cons, not_or] at hk
    show ((g.setVoxel v.x v.y v.z v none).grid.setAll vs).grid.get k = g.grid.get k
    rw [ih _ hk.2]
    exact setVoxel_get_other g v.x v.y v.z v none k hk.1

theorem undo_get_other (w : World) (hinv : w.grid.WF) (t : Transaction)
    (htop : w.history.undoStack.getLast? = some t) (k : Key)
    (ha : k ∉ t.adds.map Voxel.key) (hr : k ∉ t.removes.map Voxel.key) :
    w.undo.grid.grid.get k = w.grid.grid.get k := by
  have hundo : w.undo.grid = (w.grid.removeAll t.adds).setAll t.removes := by
    simp only [World.undo, undo_of_top _ _ t htop]
  rw [hundo, setAll_get_other _ _ _ hr, removeAll_get _ _ hinv, if_neg ha]

theorem edit_step_frame (w : World) (t : Transaction) (ed : Edit) (hinv : w.grid.WF)
    (hcur : w.history.current = some t) :
    ∃ t2, (w.step ed.toCall).history = { w.history with current := some t2 } ∧
      (w.step ed.toCall).grid.WF ∧
      (∀ k, k ≠ ed.key → (w.step ed.toCall).grid.grid.get k = w.grid.grid.get k) ∧
      (∀ a ∈ t2.adds, a ∈ t.adds ∨ a.key = ed.key) ∧
      (∀ r ∈ t2.removes, r ∈ t.removes ∨ r.key = ed.key) := by
  cases ed with
  | set x y z voxel =>
    have hstep : w.step (Edit.set x y z voxel).toCall
        = ⟨(w.grid.setVoxel x y z voxel (some w.history)).grid,
           (w.grid.setVoxel x y z voxel (some w.history)).history.getD w.history⟩ := rfl
    have hgi := wf_setVoxel w.grid hinv x y z voxel (some w.history)
    have hgo := setVoxel_get_other w.grid x y z voxel (some w.history)
    have hh := setVoxel_history w.grid x y z voxel (some w.history)
    rw [hstep]
    cases he : w.grid.grid.get (keyFor x y z) with
    | some e =>
      rw [he] at hh
      refine ⟨t, ?_, hgi, hgo, fun a ha => Or.inl ha, fun r hr => Or.inl hr⟩
      simp only [hh, Option.getD_some]
      exact (history_current_eta _ _ hcur).symm
    | none =>
      rw [he] at hh
      by_cases hc : w.grid.count ≥ w.grid.maxInstances
      · simp only [hc, if_true] at hh
        refine ⟨t, ?_, hgi, hgo, fun a ha => Or.inl ha, fun r hr => Or.inl hr⟩
        simp only [hh, Option.getD_some]
        exact (history_current_eta _ _ hcur).symm
      · simp only [hc, if_false] at hh
        refine ⟨{ t with adds := t.adds ++ [voxel.withCoord x y z] }, ?_, hgi, hgo, ?_,
          fun r hr => Or.inl hr⟩
        · simp [hh, recordAddOn, VoxelHistory.recordAdd, hcur]
        · intro a ha
          have ha2 : a ∈ t.adds ++ [voxel.withCoord x y z] := ha
          rcases List.mem_append.mp ha2 with h | h
          · exact Or.inl h
          · simp only [List.mem_singleton] at h
            subst h
            exact Or.inr rfl
  | remove x y z =>
    have hstep : w.step (Edit.remove x y z).toCall
        = ⟨(w.grid.removeVoxel x y z (some w.history)).grid,
           (w.grid.removeVoxel x y z (some w.history)).history.getD w.history⟩ := rfl
    have hgi := wf_removeVoxel w.grid hinv x y z (some w.history)
    have hgo : ∀ k, k ≠ keyFor x y z →
        (w.grid.removeVoxel x y z (some w.history)).grid.grid.get k = w.grid.grid.get k := by
      intro k hk
      rw [removeVoxel_get w.grid hinv, if_neg hk]
    rw [hstep]
    cases he : w.grid.grid.get (keyFor x y z) with
    | none =>
      rw [removeVoxel_absent w.grid x y z _ he]
      exact ⟨t, (history_current_eta _ _ hcur).symm, hinv, fun _ _ => rfl,
        fun a ha => Or.inl ha, fun r hr => Or.inl hr⟩
    | some e =>
      refine ⟨{ t with removes := t.removes ++ [e] }, ?_, hgi, hgo, fun a ha => Or.inl ha, ?_⟩
      · rw [removeVoxel_history w.grid x y z _ e he]
        simp [recordRemoveOn, VoxelHistory.recordRemove, hcur]
      · intro r hr
        have hr2 : r ∈ t.removes ++ [e] := hr
        rcases List.mem_append.mp hr2 with h | h
        · exact Or.inl h
        · simp only [List.mem_singleton] at h
          subst h
          exact Or.inr (hinv.rec_key _ r he)

theorem edits_frame (edits : List Edit) (w : World) (t : Transaction) (k : Key)
    (hinv : w.grid.WF) (hcur : w.history.current = some t)
    (hav : ∀ ed ∈ edits, ed.key ≠ k)
    (ha : k ∉ t.adds.map Voxel.key) (hr : k ∉ t.removes.map Voxel.key) :
    ∃ t2, (w.run (edits.map Edit.toCall)).history = { w.history with current := some t2 } ∧
      (w.run (edits.map Edit.toCall)).grid.WF ∧
      (w.run (edits.map Edit.toCall)).grid.grid.get k = w.grid.grid.get k ∧
      k ∉ t2.adds.map Voxel.key ∧ k ∉ t2.removes.map Voxel.key := by
  induction edits generalizing w t with
  | nil => exact ⟨t, (history_current_eta _ _ hcur).symm, hinv, rfl, ha, hr⟩
  | cons ed es ih =>
    have hne : ed.key ≠ k := hav ed (List.mem_cons_self _ _)
    obtain ⟨t1, hh1, hi1, hg1, ha1, hr1⟩ := edit_step_frame w t ed hinv hcur
    have hcur1 : (w.step ed.toCall).history.current = some t1 := by rw [hh1]
    have ha2 : k ∉ t1.adds.map Voxel.key := by
      intro hc
      obtain ⟨a, hmem, hk⟩ := List.mem_map.mp hc
      rcases ha1 a hmem with h | h
      · exact ha (hk ▸ List.mem_map_of_mem Voxel.key h)
      · exact hne (h.symm.trans hk)
    have hr2 : k ∉ t1.removes.map Voxel.key := by
      intro hc
      obtain ⟨r, hmem, hk⟩ := List.mem_map.mp hc
      rcases hr1 r hmem with h | h
      · exact hr (hk ▸ List.mem_map_of_mem Voxel.key h)
      · exact hne (h.symm.trans hk)
    obtain ⟨t2, hh2, hi2, hg2, ha3, hr3⟩ := ih (w.step ed.toCall) t1 hi1 hcur1
      (fun e2 he2 => hav e2 (List.mem_cons_of_mem _ he2)) ha2 hr2
    refine ⟨t2, ?_, hi2, ?_, ha3, hr3⟩
    · show ((w.step ed.toCall).run (es.map Edit.toCall)).history = _
      rw [hh2, hh1]
    · show ((w.step ed.toCall).run (es.map Edit.toCall)).grid.grid.get k = _
      rw [hg2]
      exact hg1 k (Ne.symm hne)

/-- C15, counterexample: the store holds `A` at `(0,0,0)`; the open transaction has
removed `(0,0,0)` and inserted `A` there again; `setVoxel(0,0,0,A2)` then updates in
place, unrecorded.  After `commit`, `undo` leaves `(0,0,0)` holding `A`, the colour
and kind it had right before the update. -/
theorem inplace_update_undo_counterexample :
    reinsertedWorld.grid.getVoxel 0 0 0 = some voxelA ∧
    voxelA.color ≠ voxelA2.color ∧
    (reinsertedWorld.step (Call.setVoxel 0 0 0 voxelA2 true)).grid.getVoxel 0 0 0
      = some voxelA2 ∧
    (reinsertedWorld.step (Call.setVoxel 0 0 0 voxelA2 true)).history
      = reinsertedWorld.history ∧
    (reinsertedWorld.step (Call.setVoxel 0 0 0 voxelA2 true)).commit.history.undoStack
      = [⟨"t1", [voxelA], [voxelA]⟩] ∧
    (reinsertedWorld.step (Call.setVoxel 0 0 0 voxelA2 true)).commit.undo.grid.getVoxel 0 0 0
      = reinsertedWorld.grid.getVoxel 0 0 0 := by
  decide

/-- C15 as amended: with an open transaction, `setVoxel` on an occupied coordinate
with another colour or kind leaves the coordinate's slot, `indexToKey` and `count`
unchanged and leaves the history (so the transaction's `adds` and `removes`)
unchanged, whatever `count` is; the coordinate then holds the new record.
Consequently, when the store satisfies the invariants, the limit is at least 1, the
transaction has no add or remove at that coordinate, no later edit of the
transaction targets it and the transaction has recorded something when committed,
`undo` of that transaction leaves the new record at the coordinate. -/
theorem inplace_update_unrecorded (w : World) (t : Transaction) (x y z : Int)
    (voxel e : Voxel) (hcur : w.history.current = some t)
    (he : w.grid.getVoxel x y z = some e)
    (hd : e.color ≠ voxel.color ∨ e.type ≠ voxel.type) :
    (w.step (Call.setVoxel x y z voxel true)).grid.keyToIndex.get (keyFor x y z)
      = w.grid.keyToIndex.get (keyFor x y z) ∧
    (w.step (Call.setVoxel x y z voxel true)).grid.indexToKey = w.grid.indexToKey ∧
    (w.step (Call.setVoxel x y z voxel true)).grid.count = w.grid.count ∧
    (w.step (Call.setVoxel x y z voxel true)).history = w.history ∧
    (w.step (Call.setVoxel x y z voxel true)).history.current = some t ∧
    (w.step (Call.setVoxel x y z voxel true)).grid.getVoxel x y z
      = some (voxel.withCoord x y z) ∧
    (w.grid.WF → 1 ≤ w.history.limit →
      keyFor x y z ∉ t.adds.map Voxel.key → keyFor x y z ∉ t.removes.map Voxel.key →
      ∀ later : List Edit, (∀ ed ∈ later, ed.key ≠ keyFor x y z) →
        ((w.step (Call.setVoxel x y z voxel true)).run
          (later.map Edit.toCall)).hasRecorded = true →
        ((w.step (Call.setVoxel x y z voxel true)).run
          (later.map Edit.toCall)).commit.undo.grid.getVoxel x y z
          = some (voxel.withCoord x y z)) := by
  have hstep : w.step (Call.setVoxel x y z voxel true)
      = ⟨(w.grid.setVoxel x y z voxel (some w.history)).grid,
         (w.grid.setVoxel x y z voxel (some w.history)).history.getD w.history⟩ := rfl
  obtain ⟨f1, f2, f3, f4, f5⟩ := setVoxel_update_frame w.grid x y z voxel e (some w.history) he hd
  have hhist : (w.step (Call.setVoxel x y z voxel true)).history = w.history := by
    rw [hstep]
    simp only [f5, Option.getD_some]
  have hget : (w.step (Call.setVoxel x y z voxel true)).grid.grid.get (keyFor x y z)
      = some (voxel.withCoord x y z) := by
    rw [hstep]
    simp only [f4]
    exact JsMap.get_set_self _ _ _
  refine ⟨?_, ?_, ?_, hhist, ?_, hget, ?_⟩
  · rw [hstep]
    simp only [f1]
  · rw [hstep]
    simp only [f2]
  · rw [hstep]
    simp only [f3]
  · rw [hhist]
    exact hcur
  · intro hinv hlimit ha hr later hav hrec
    have hinv1 : (w.step (Call.setVoxel x y z voxel true)).grid.WF :=
      wf_step w hinv _
    have hcur1 : (w.step (Call.setVoxel x y z voxel true)).history.current = some t := by
      rw [hhist]
      exact hcur
    obtain ⟨t2, hh2, hi2, hg2, ha2, hr2⟩ := edits_frame later _ t (keyFor x y z) hinv1 hcur1
      hav ha hr
    generalize (w.step (Call.setVoxel x y z voxel true)).run (later.map Edit.toCall) = w2
      at hh2 hi2 hg2 hrec
    have hcur2 : w2.history.current = some t2 := by rw [hh2]
    have hrec2 : t2.adds ≠ [] ∨ t2.removes ≠ [] := by
      simp only [World.hasRecorded, hcur2, Bool.or_eq_true, Bool.not_eq_true',
        List.isEmpty_eq_false] at hrec
      exact hrec
    have hlim2 : w2.history.limit = w.history.limit := by
      rw [hh2, hhist]
    have htop : w2.commit.history.undoStack.getLast? = some t2 := by
      show w2.history.commit.undoStack.getLast? = some t2
      rw [commit_of_recorded _ t2 hcur2 hrec2]
      exact getLast?_kept _ t2 _ (by rw [hlim2]; exact hlimit)
    have hfin := undo_get_other w2.commit hi2 t2 htop (keyFor x y z) ha2 hr2
    show w2.commit.undo.grid.grid.get (keyFor x y z) = some (voxel.withCoord x y z)
    rw [hfin]
    show w2.grid.grid.get (keyFor x y z) = some (voxel.withCoord x y z)
    rw [hg2]
    exact hget

/-- Witness of the amended C15: the store holds `A` and `B`, the open transaction has
inserted `B`; `setVoxel(0,0,0,A2)` updates `A` in place; after `commit` and `undo`
the coordinate `(0,0,0)` still holds `A2`. -/
theorem inplace_update_unrecorded_witness :
    (openWorldAB.step (Call.setVoxel 0 0 0 voxelA2 true)).grid.count = openWorldAB.grid.count ∧
    (openWorldAB.step (Call.setVoxel 0 0 0 voxelA2 true)).history = openWorldAB.history ∧
    (openWorldAB.step (Call.setVoxel 0 0 0 voxelA2 true)).commit.undo.grid.getVoxel 0 0 0
      = some voxelA2 :=
  ⟨(inplace_update_unrecorded openWorldAB ⟨"t1", [voxelB], []⟩ 0 0 0 voxelA2 voxelA
      (by decide) (by decide) (by decide)).2.2.1,
    (inplace_update_unrecorded openWorldAB ⟨"t1", [voxelB], []⟩ 0 0 0 voxelA2 voxelA
      (by decide) (by decide) (by decide)).2.2.2.1,
    (inplace_update_unrecorded openWorldAB ⟨"t1", [voxelB], []⟩ 0 0 0 voxelA2 voxelA
      (by decide) (by decide) (by decide)).2.2.2.2.2.2
      (wf_run _ _ (wf_setAll [voxelA] _ (wf_create 4))) (by decide) (by decide) (by decide)
      [] (by simp) (by decide)⟩

/-! ## Replay order of `undo` and `redo` -/

theorem undo_eq_reference (h : VoxelHistory) (g : VoxelGrid) (t : Transaction)
    (htop : h.undoStack.getLast? = some t) : (h.undo g).grid = undoReference g t := by
  rw [undo_of_top h g t htop]
  simp only [undoReference, List.foldl_append, List.foldl_map]
  rfl

theorem redo_eq_reference (h : VoxelHistory) (g : VoxelGrid) (t : Transaction)
    (htop : h.redoStack.getLast? = some t) : (h.redo g).grid = redoReference g t := by
  rw [redo_of_top h g t htop]
  simp only [redoReference, List.foldl_append, List.foldl_map]
  rfl

theorem setVoxel_count_le (g : VoxelGrid) (x y z : Int) (voxel : Voxel)
    (history : Option VoxelHistory) :
    (g.setVoxel x y z voxel history).grid.count ≤ g.count + 1 := by
  unfold VoxelGrid.setVoxel
  simp only []
  split
  · split
    · split <;> exact Nat.le_succ _
    · exact Nat.le_succ _
  · split
    · exact Nat.le_succ _
    · exact Nat.le_refl _

theorem setAll_count_le (voxels : List Voxel) (g : VoxelGrid) :
    (g.setAll voxels).count ≤ g.count + voxels.length := by
  induction voxels generalizing g with
  | nil => exact Nat.le_refl _
  | cons v vs ih =>
    have h1 := ih (g.setVoxel v.x v.y v.z v none).grid
    have h2 := setVoxel_count_le g v.x v.y v.z v none
    show ((g.setVoxel v.x v.y v.z v none).grid.setAll vs).count ≤ _
    simp only [List.length_cons]
    omega

theorem setAll_concat (voxels : List Voxel) (v : Voxel) (g : VoxelGrid) :
    g.setAll (voxels ++ [v]) = ((g.setAll voxels).setVoxel v.x v.y v.z v none).grid := by
  simp [VoxelGrid.setAll, List.foldl_append]

theorem setAll_get_last (voxels : List Voxel) (g : VoxelGrid) (hg : g.WF) (k : Key)
    (hroom : g.count + voxels.length ≤ g.maxInstances) :
    (g.setAll voxels).grid.get k = (lastAt voxels k).or (g.grid.get k) := by
  induction voxels using List.reverseRecOn with
  | nil => simp [VoxelGrid.setAll, lastAt]
  | append_singleton l v ih =>
    simp only [List.length_append, List.length_singleton] at hroom
    have hih := ih (by omega)
    have hinv := wf_setAll l g hg
    have hcnt := setAll_count_le l g
    have hmax := maxInstances_setAll l g
    rw [setAll_concat]
    by_cases hk : v.key = k
    · have hlast : lastAt (l ++ [v]) k = some v := by
        simp [lastAt, List.filter_append, hk]
      rw [hlast]
      show _ = some v
      rw [← hk]
      have := setVoxel_get_self (g.setAll l) hinv v.x v.y v.z v none (Or.inr (by omega))
      rw [Voxel.withCoord_self] at this
      exact this
    · have hlast : lastAt (l ++ [v]) k = lastAt l k := by
        simp [lastAt, List.filter_append, hk]
      rw [hlast, ← hih]
      exact setVoxel_get_other _ _ _ _ _ _ _ (fun hc => hk hc.symm)

theorem lastAt_of_mem (voxels : List Voxel) (k : Key) (hk : k ∈ voxels.map Voxel.key) :
    ∃ r, lastAt voxels k = some r ∧ r ∈ voxels ∧ r.key = k := by
  obtain ⟨v, hv, hvk⟩ := List.mem_map.mp hk
  have hmem : v ∈ voxels.filter (fun v => decide (v.key = k)) := by
    simp [List.mem_filter, hv, hvk]
  cases hl : lastAt voxels k with
  | none =>
    simp only [lastAt, List.getLast?_eq_none_iff] at hl
    rw [hl] at hmem
    cases hmem
  | some r =>
    refine ⟨r, rfl, ?_⟩
    have hr : r ∈ voxels.filter (fun v => decide (v.key = k)) :=
      List.mem_of_getLast?_eq_some hl
    simpa [List.mem_filter] using hr

/-- C16, counterexample: capacity 1; the transaction `set((0,0,0),A); remove((0,0,0))`
is on top of the undo stack and the store is full with `B`.  `(0,0,0)` occurs in both
lists, yet after `undo` it holds no voxel (the replayed `setVoxel` is dropped for
capacity), and after the following `redo` it holds none either. -/
theorem replay_order_counterexample :
    fullWorld.history.undoStack = [⟨"t1", [voxelA], [voxelA]⟩] ∧
    fullWorld.grid.count = fullWorld.grid.maxInstances ∧
    fullWorld.undo.grid.getVoxel 0 0 0 = none ∧
    fullWorld.undo.history.redoStack = [⟨"t1", [voxelA], [voxelA]⟩] ∧
    fullWorld.undo.redo.grid.getVoxel 0 0 0 = none := by
  decide

/-- C16 as amended: with `T` on top of the undo stack, `undo` leaves the store equal to
the reference replay (`removeVoxel` for every entry of `T.adds` in order, then
`setVoxel` for every entry of `T.removes` in order, nothing recorded); with `T` on top
of the redo stack, `redo` equals the reference replay with the two lists exchanged.
If the store satisfies the invariants, a coordinate occurs in both lists and the
store after the removal pass has room for the list that is set again, then after
`undo` the coordinate holds the last voxel of `T.removes` at it, and after `redo` the
last voxel of `T.adds` at it. -/
theorem replay_order_reference (h : VoxelHistory) (g : VoxelGrid) (t : Transaction) :
    (h.undoStack.getLast? = some t → (h.undo g).grid = undoReference g t) ∧
    (h.redoStack.getLast? = some t → (h.redo g).grid = redoReference g t) ∧
    (g.WF → ∀ k, k ∈ t.adds.map Voxel.key → k ∈ t.removes.map Voxel.key →
      (h.undoStack.getLast? = some t →
        (g.removeAll t.adds).count + t.removes.length ≤ g.maxInstances →
        ∃ r, lastAt t.removes k = some r ∧ (h.undo g).grid.grid.get k = some r) ∧
      (h.redoStack.getLast? = some t →
        (g.removeAll t.removes).count + t.adds.length ≤ g.maxInstances →
        ∃ a, lastAt t.adds k = some a ∧ (h.redo g).grid.grid.get k = some a)) := by
  refine ⟨undo_eq_reference h g t, redo_eq_reference h g t, ?_⟩
  intro hg k hka hkr
  refine ⟨?_, ?_⟩
  · intro htop hroom
    obtain ⟨r, hr, _, _⟩ := lastAt_of_mem t.removes k hkr
    refine ⟨r, hr, ?_⟩
    rw [undo_of_top h g t htop]
    show ((g.removeAll t.adds).setAll t.removes).grid.get k = some r
    rw [setAll_get_last t.removes _ (wf_removeAll _ _ hg) k
      (by rw [maxInstances_removeAll]; exact hroom), hr]
    rfl
  · intro htop hroom
    obtain ⟨a, ha, _, _⟩ := lastAt_of_mem t.adds k hka
    refine ⟨a, ha, ?_⟩
    rw [redo_of_top h g t htop]
    show ((g.removeAll t.removes).setAll t.adds).grid.get k = some a
    rw [setAll_get_last t.adds _ (wf_removeAll _ _ hg) k
      (by rw [maxInstances_removeAll]; exact hroom), ha]
    rfl

/-- Witness of the amended C16: after the scenario transaction (capacity 4) the
coordinate `(0,0,0)` is in both lists; `undo` equals the reference replay and leaves
`A`, the entry of `removes`, at `(0,0,0)`. -/
theorem replay_order_reference_witness :
    (scenarioWorld.transaction "t1" scenarioEdits).undo.grid
      = undoReference (scenarioWorld.transaction "t1" scenarioEdits).grid
          ⟨"t1", [voxelA, voxelB], [voxelA]⟩ ∧
    (∃ r, lastAt [voxelA] (keyFor 0 0 0) = some r ∧
      (scenarioWorld.transaction "t1" scenarioEdits).undo.grid.grid.get (keyFor 0 0 0)
        = some r) :=
  ⟨(replay_order_reference (scenarioWorld.transaction "t1" scenarioEdits).history
      (scenarioWorld.transaction "t1" scenarioEdits).grid
      ⟨"t1", [voxelA, voxelB], [voxelA]⟩).1 (by decide),
    ((replay_order_reference (scenarioWorld.transaction "t1" scenarioEdits).history
      (scenarioWorld.transaction "t1" scenarioEdits).grid
      ⟨"t1", [voxelA, voxelB], [voxelA]⟩).2.2
      (wf_run _ _ (wf_create 4)) (keyFor 0 0 0) (by decide) (by decide)).1
      (by decide) (by decide)⟩

/-! ## `begin` on an open transaction -/

/-- C17: while a transaction is open, `begin(label2)` changes nothing (label, `adds`,
`removes`, undo stack, redo stack), and a following `recordAdd` / `recordRemove`
appends to that same transaction; from the closed state `begin` opens a transaction
with the given label and empty `adds` and `removes`, leaving the stacks alone. -/
theorem begin_noop_while_open (h : VoxelHistory) (label2 : String) (voxel : Voxel) :
    (∀ t, h.current = some t →
      h.begin label2 = h ∧
      ((h.begin label2).recordAdd voxel).current
        = some ⟨t.label, t.adds ++ [voxel], t.removes⟩ ∧
      ((h.begin label2).recordRemove voxel).current
        = some ⟨t.label, t.adds, t.removes ++ [voxel]⟩ ∧
      ((h.begin label2).recordAdd voxel).undoStack = h.undoStack ∧
      ((h.begin label2).recordAdd voxel).redoStack = h.redoStack ∧
      ((h.begin label2).recordRemove voxel).undoStack = h.undoStack ∧
      ((h.begin label2).recordRemove voxel).redoStack = h.redoStack) ∧
    (h.current = none →
      (h.begin label2).current = some ⟨label2, [], []⟩ ∧
      (h.begin label2).undoStack = h.undoStack ∧
      (h.begin label2).redoStack = h.redoStack ∧
      (h.begin label2).limit = h.limit) := by
  refine ⟨?_, ?_⟩
  · intro t hcur
    have hb : h.begin label2 = h := by
      simp [VoxelHistory.begin, hcur]
    rw [hb]
    refine ⟨rfl, ?_, ?_, ?_, ?_, ?_, ?_⟩ <;>
      simp [VoxelHistory.recordAdd, VoxelHistory.recordRemove, hcur]
  · intro hclosed
    simp [VoxelHistory.begin, hclosed]

/-- Witness of C17: a history with the open transaction `t1` that has recorded `A`;
`begin("t2")` changes nothing and `recordAdd(B)` appends to `t1`. -/
theorem begin_noop_while_open_witness :
    (((VoxelHistory.create 50).begin "t1").recordAdd voxelA).begin "t2"
      = ((VoxelHistory.create 50).begin "t1").recordAdd voxelA ∧
    (((((VoxelHistory.create 50).begin "t1").recordAdd voxelA).begin "t2").recordAdd
      voxelB).current = some ⟨"t1", [voxelA, voxelB], []⟩ ∧
    ((VoxelHistory.create 50).begin "t2").current = some ⟨"t2", [], []⟩ :=
  ⟨((begin_noop_while_open (((VoxelHistory.create 50).begin "t1").recordAdd voxelA) "t2"
      voxelB).1 ⟨"t1", [voxelA], []⟩ (by decide)).1,
    ((begin_noop_while_open (((VoxelHistory.create 50).begin "t1").recordAdd voxelA) "t2"
      voxelB).1 ⟨"t1", [voxelA], []⟩ (by decide)).2.1,
    ((begin_noop_while_open (VoxelHistory.create 50) "t2" voxelB).2 (by decide)).1⟩

/-! ## Idempotence -/

theorem removeVoxel_get_self (g : VoxelGrid) (x y z : Int) (history : Option VoxelHistory) :
    (g.removeVoxel x y z history).grid.grid.get (keyFor x y z) = none := by
  cases he : g.grid.get (keyFor x y z) with
  | none =>
    rw [removeVoxel_absent g x y z history he]
    exact he
  | some e =>
    rw [removeVoxel_grid_present g x y z history e he]
    exact JsMap.get_delete_self _ _

theorem setVoxel_then_same (g : VoxelGrid) (x y z : Int) (voxel : Voxel)
    (history : Option VoxelHistory) :
    (∃ e, (g.setVoxel x y z voxel history).grid.grid.get (keyFor x y z) = some e ∧
      e.color = voxel.color ∧ e.type = voxel.type) ∨
    ((g.setVoxel x y z voxel history).grid.grid.get (keyFor x y z) = none ∧
      (g.setVoxel x y z voxel history).grid.maxInstances
        ≤ (g.setVoxel x y z voxel history).grid.count) := by
  cases he : g.grid.get (keyFor x y z) with
  | some e =>
    left
    by_cases hd : e.color ≠ voxel.color ∨ e.type ≠ voxel.type
    · refine ⟨voxel.withCoord x y z, ?_, rfl, rfl⟩
      rw [(setVoxel_update_frame g x y z voxel e history he hd).2.2.2.1]
      exact JsMap.get_set_self _ _ _
    · have hc : e.color = voxel.color := by
        by_contra hc
        exact hd (Or.inl hc)
      have ht : e.type = voxel.type := by
        by_contra ht
        exact hd (Or.inr ht)
      rw [setVoxel_same g x y z voxel history e he hc ht]
      exact ⟨e, he, hc, ht⟩
  | none =>
    by_cases hroom : g.count < g.maxInstances
    · left
      rw [setVoxel_insert g x y z voxel history he hroom]
      exact ⟨voxel.withCoord x y z, JsMap.get_set_self _ _ _, rfl, rfl⟩
    · right
      rw [setVoxel_full g x y z voxel history he (Nat.le_of_not_lt hroom)]
      exact ⟨he, Nat.le_of_not_lt hroom⟩

/-- C18: `removeVoxel` on an unoccupied coordinate leaves the store unchanged and
records nothing; `setVoxel` on an occupied coordinate with the stored colour and
kind leaves the store (count, slots, records) unchanged and records nothing.  Hence
a second `removeVoxel` of the same coordinate, and a second `setVoxel` of the same
coordinate and voxel, change neither the store nor the history any further. -/
theorem store_calls_idempotent (g : VoxelGrid) (x y z : Int) (voxel : Voxel)
    (history : Option VoxelHistory) :
    (g.hasVoxel x y z = false →
      (g.removeVoxel x y z history).grid = g ∧
      (g.removeVoxel x y z history).history = history) ∧
    (∀ e, g.getVoxel x y z = some e → e.color = voxel.color → e.type = voxel.type →
      (g.setVoxel x y z voxel history).grid = g ∧
      (g.setVoxel x y z voxel history).history = history) ∧
    (((g.removeVoxel x y z history).grid.removeVoxel x y z
        (g.removeVoxel x y z history).history).grid = (g.removeVoxel x y z history).grid ∧
      ((g.removeVoxel x y z history).grid.removeVoxel x y z
        (g.removeVoxel x y z history).history).history
        = (g.removeVoxel x y z history).history) ∧
    (((g.setVoxel x y z voxel history).grid.setVoxel x y z voxel
        (g.setVoxel x y z voxel history).history).grid
        = (g.setVoxel x y z voxel history).grid ∧
      ((g.setVoxel x y z voxel history).grid.setVoxel x y z voxel
        (g.setVoxel x y z voxel history).history).history
        = (g.setVoxel x y z voxel history).history) := by
  refine ⟨?_, ?_, ?_, ?_⟩
  · intro hfree
    have he : g.grid.get (keyFor x y z) = none := by
      simpa [VoxelGrid.hasVoxel, JsMap.has] using hfree
    rw [removeVoxel_absent g x y z history he]
    exact ⟨rfl, rfl⟩
  · intro e he hc ht
    rw [setVoxel_same g x y z voxel history e he hc ht]
    exact ⟨rfl, rfl⟩
  · rw [removeVoxel_absent _ x y z _ (removeVoxel_get_self g x y z history)]
    exact ⟨rfl, rfl⟩
  · rcases setVoxel_then_same g x y z voxel history with ⟨e, he, hc, ht⟩ | ⟨he, hfull⟩
    · rw [setVoxel_same _ x y z voxel _ e he hc ht]
      exact ⟨rfl, rfl⟩
    · rw [setVoxel_full _ x y z voxel _ he hfull]
      exact ⟨rfl, rfl⟩

/-- Witness of C18 on the store holding `A` (capacity 4): removing the unoccupied
`(1,0,0)` and setting `A` again at `(0,0,0)` change nothing. -/
theorem store_calls_idempotent_witness :
    ((storeA 4).removeVoxel 1 0 0 (some ((VoxelHistory.create 50).begin "t1"))).grid
      = storeA 4 ∧
    ((storeA 4).removeVoxel 1 0 0 (some ((VoxelHistory.create 50).begin "t1"))).history
      = some ((VoxelHistory.create 50).begin "t1") ∧
    ((storeA 4).setVoxel 0 0 0 voxelA (some ((VoxelHistory.create 50).begin "t1"))).grid
      = storeA 4 ∧
    ((storeA 4).setVoxel 0 0 0 voxelA (some ((VoxelHistory.create 50).begin "t1"))).history
      = some ((VoxelHistory.create 50).begin "t1") :=
  ⟨((store_calls_idempotent (storeA 4) 1 0 0 voxelA
      (some ((VoxelHistory.create 50).begin "t1"))).1 (by decide)).1,
    ((store_calls_idempotent (storeA 4) 1 0 0 voxelA
      (some ((VoxelHistory.create 50).begin "t1"))).1 (by decide)).2,
    ((store_calls_idempotent (storeA 4) 0 0 0 voxelA
      (some ((VoxelHistory.create 50).begin "t1"))).2.1 voxelA (by decide) rfl rfl).1,
    ((store_calls_idempotent (storeA 4) 0 0 0 voxelA
      (some ((VoxelHistory.create 50).begin "t1"))).2.1 voxelA (by decide) rfl rfl).2⟩

/-! ## Restricted inverse law -/

theorem restricted_admissible (edits : List Edit) (w : World)
    (h : w.restricted edits = true) : w.admissible edits = true := by
  induction edits generalizing w with
  | nil => rfl
  | cons ed es ih =>
    cases ed with
    | set x y z voxel =>
      simp only [World.restricted, Bool.and_eq_true, Bool.not_eq_true'] at h
      simp only [World.admissible, Bool.and_eq_true]
      refine ⟨?_, ih _ h.2⟩
      have hnone : w.grid.getVoxel x y z = none := by
        simpa [VoxelGrid.hasVoxel, VoxelGrid.getVoxel, JsMap.has] using h.1
      rw [hnone]
    | remove x y z =>
      simp only [World.restricted, Bool.and_eq_true] at h
      simp only [World.admissible, Bool.and_eq_true]
      exact ⟨h.1, ih _ h.2⟩

theorem transaction_undo_redo (w : World) (label : String) (edits : List Edit)
    (hinv : w.grid.WF) (hclosed : w.history.current = none)
    (hlimit : 1 ≤ w.history.limit)
    (hadm : (w.begin label).admissible edits = true)
    (hrec : (w.edit label edits).hasRecorded = true) :
    ∃ t, TxInv w.grid (w.transaction label edits).grid t ∧
      (w.transaction label edits).history.undoStack.getLast? = some t ∧
      (∀ k, (w.transaction label edits).undo.grid.grid.get k = w.grid.grid.get k) ∧
      (∀ k, (w.transaction label edits).undo.redo.grid.grid.get k
        = (w.transaction label edits).grid.grid.get k) := by
  obtain ⟨t, hi, htop, hredo⟩ :=
    transaction_shape w label edits hinv hclosed hlimit hadm hrec
  have hundo : (w.transaction label edits).undo
      = ⟨((w.transaction label edits).grid.removeAll t.adds).setAll t.removes,
         { (w.transaction label edits).history with
            undoStack := (w.transaction label edits).history.undoStack.dropLast
            redoStack := (w.transaction label edits).history.redoStack ++ [t] }⟩ := by
    simp only [World.undo, undo_of_top _ _ t htop]
  have htop2 : (w.transaction label edits).undo.history.redoStack.getLast? = some t := by
    rw [hundo]
    exact List.getLast?_concat _
  have hredo2 : (w.transaction label edits).undo.redo.grid
      = ((w.transaction label edits).undo.grid.removeAll t.removes).setAll t.adds := by
    simp only [World.redo, redo_of_top _ _ t htop2]
  have hgu : (w.transaction label edits).undo.grid.WF := by
    rw [hundo]
    exact wf_setAll _ _ (wf_removeAll _ _ hi.inv)
  have hcap : (w.transaction label edits).undo.grid.maxInstances = w.grid.maxInstances := by
    rw [hundo]
    show (((w.transaction label edits).grid.removeAll t.adds).setAll t.removes).maxInstances
      = w.grid.maxInstances
    rw [maxInstances_setAll, maxInstances_removeAll]
    exact hi.cap
  have hview : ∀ k, (w.transaction label edits).undo.grid.grid.get k = w.grid.grid.get k := by
    intro k
    rw [hundo]
    exact undo_get w.grid _ t hi hinv k
  refine ⟨t, hi, htop, hview, ?_⟩
  intro k
  rw [hredo2]
  exact redo_get w.grid _ _ t hi hgu hcap hview k

/-- C19: let the store satisfy the store invariants and the history have no open
transaction and a limit of at least 1.  For a committed transaction of `setVoxel` /
`removeVoxel` calls passed the history in which every `setVoxel` targets a
coordinate unoccupied at the time of the call and no coordinate is removed after
having been added, and which is non-empty, `undo` yields the mapping the store
had before the transaction and the following `redo` yields the mapping it had
after it; no replayed `setVoxel` is dropped: every record of `removes` is in the
store after `undo` and every record of `adds` after `redo`. -/
theorem restricted_undo_redo_inverse (w : World) (label : String) (edits : List Edit)
    (hinv : w.grid.WF) (hclosed : w.history.current = none)
    (hlimit : 1 ≤ w.history.limit)
    (hres : (w.begin label).restricted edits = true)
    (hrec : (w.edit label edits).hasRecorded = true) :
    (∀ x y z,
      (w.transaction label edits).undo.grid.getVoxel x y z = w.grid.getVoxel x y z) ∧
    (∀ x y z,
      (w.transaction label edits).undo.redo.grid.getVoxel x y z
        = (w.transaction label edits).grid.getVoxel x y z) ∧
    (∃ t, (w.transaction label edits).history.undoStack.getLast? = some t ∧
      (∀ r ∈ t.removes,
        (w.transaction label edits).undo.grid.getVoxel r.x r.y r.z = some r) ∧
      (∀ a ∈ t.adds,
        (w.transaction label edits).undo.redo.grid.getVoxel a.x a.y a.z = some a)) := by
  obtain ⟨t, hi, htop, hu, hr⟩ := transaction_undo_redo w label edits hinv hclosed hlimit
    (restricted_admissible edits _ hres) hrec
  refine ⟨fun x y z => hu (keyFor x y z), fun x y z => hr (keyFor x y z), t, htop, ?_, ?_⟩
  · intro r hmem
    show (w.transaction label edits).undo.grid.grid.get r.key = some r
    rw [hu]
    exact hi.removes_old r hmem
  · intro a hmem
    show (w.transaction label edits).undo.redo.grid.grid.get a.key = some a
    rw [hr]
    exact hi.adds_cur a hmem

/-- Witness of C19: the store holds `A`; the transaction removes `(0,0,0)`, inserts `B`
at `(1,0,0)` and inserts a new record at the then unoccupied `(0,0,0)`. -/
theorem restricted_undo_redo_inverse_witness :
    (restrictedWorld.begin "t1").restricted restrictedEdits = true ∧
    ((∀ x y z,
      (restrictedWorld.transaction "t1" restrictedEdits).undo.grid.getVoxel x y z
        = restrictedWorld.grid.getVoxel x y z) ∧
    (∀ x y z,
      (restrictedWorld.transaction "t1" restrictedEdits).undo.redo.grid.getVoxel x y z
        = (restrictedWorld.transaction "t1" restrictedEdits).grid.getVoxel x y z) ∧
    (∃ t, (restrictedWorld.transaction "t1" restrictedEdits).history.undoStack.getLast?
        = some t ∧
      (∀ r ∈ t.removes,
        (restrictedWorld.transaction "t1" restrictedEdits).undo.grid.getVoxel r.x r.y r.z
          = some r) ∧
      (∀ a ∈ t.adds,
        (restrictedWorld.transaction "t1" restrictedEdits).undo.redo.grid.getVoxel
          a.x a.y a.z = some a))) :=
  ⟨by decide,
    restricted_undo_redo_inverse restrictedWorld "t1" restrictedEdits
      (wf_setAll [voxelA] _ (wf_create 4)) (by decide) (by decide) (by decide)
      (by decide)⟩

/-! ## Depth of the two stacks -/

theorem depth_commit (h : VoxelHistory)
    (hd : h.undoStack.length + h.redoStack.length ≤ h.limit) :
    h.commit.limit = h.limit ∧
      h.commit.undoStack.length + h.commit.redoStack.length ≤ h.limit := by
  unfold VoxelHistory.commit
  split
  · exact ⟨rfl, hd⟩
  · split
    · refine ⟨rfl, ?_⟩
      simp only [List.length_nil, Nat.add_zero]
      split
      · simp only [List.length_tail, List.length_append, List.length_singleton]
        omega
      · rename_i hgt
        simp only [List.length_append, List.length_singleton] at hgt ⊢
        omega
    · exact ⟨rfl, hd⟩

theorem depth_undo (h : VoxelHistory) (g : VoxelGrid)
    (hd : h.undoStack.length + h.redoStack.length ≤ h.limit) :
    (h.undo g).history.limit = h.limit ∧
      (h.undo g).history.undoStack.length + (h.undo g).history.redoStack.length
        ≤ h.limit := by
  cases htop : h.undoStack.getLast? with
  | none =>
    have : h.undo g = ⟨h, g, JsReturn.null⟩ := by simp [VoxelHistory.undo, htop]
    rw [this]
    exact ⟨rfl, hd⟩
  | some t =>
    rw [undo_of_top h g t htop]
    refine ⟨rfl, ?_⟩
    have hpos : 0 < h.undoStack.length := by
      cases hs : h.undoStack with
      | nil =>
        rw [hs] at htop
        cases htop
      | cons a l => simp
    simp only [List.length_dropLast, List.length_append, List.length_singleton]
    omega

theorem depth_redo (h : VoxelHistory) (g : VoxelGrid)
    (hd : h.undoStack.length + h.redoStack.length ≤ h.limit) :
    (h.redo g).history.limit = h.limit ∧
      (h.redo g).history.undoStack.length + (h.redo g).history.redoStack.length
        ≤ h.limit := by
  cases htop : h.redoStack.getLast? with
  | none =>
    have : h.redo g = ⟨h, g, JsReturn.null⟩ := by simp [VoxelHistory.redo, htop]
    rw [this]
    exact ⟨rfl, hd⟩
  | some t =>
    rw [redo_of_top h g t htop]
    refine ⟨rfl, ?_⟩
    have hpos : 0 < h.redoStack.length := by
      cases hs : h.redoStack with
      | nil =>
        rw [hs] at htop
        cases htop
      | cons a l => simp
    simp only [List.length_dropLast, List.length_append, List.length_singleton]
    omega

theorem depth_begin (h : VoxelHistory) (label : String)
    (hd : h.undoStack.length + h.redoStack.length ≤ h.limit) :
    (h.begin label).limit = h.limit ∧
      (h.begin label).undoStack.length + (h.begin label).redoStack.length ≤ h.limit := by
  unfold VoxelHistory.begin
  split <;> exact ⟨rfl, hd⟩

theorem depth_recordAdd (h : VoxelHistory) (voxel : Voxel)
    (hd : h.undoStack.length + h.redoStack.length ≤ h.limit) :
    (h.recordAdd voxel).limit = h.limit ∧
      (h.recordAdd voxel).undoStack.length + (h.recordAdd voxel).redoStack.length
        ≤ h.limit := by
  unfold VoxelHistory.recordAdd
  split <;> exact ⟨rfl, hd⟩

theorem depth_recordRemove (h : VoxelHistory) (voxel : Voxel)
    (hd : h.undoStack.length + h.redoStack.length ≤ h.limit) :
    (h.recordRemove voxel).limit = h.limit ∧
      (h.recordRemove voxel).undoStack.length + (h.recordRemove voxel).redoStack.length
        ≤ h.limit := by
  unfold VoxelHistory.recordRemove
  split <;> exact ⟨rfl, hd⟩

theorem depth_step (w : World) (c : HistoryCall)
    (hd : w.history.undoStack.length + w.history.redoStack.length ≤ w.history.limit) :
    (w.historyStep c).history.limit = w.history.limit ∧
      (w.historyStep c).history.undoStack.length
        + (w.historyStep c).history.redoStack.length ≤ w.history.limit := by
  cases c with
  | begin label => exact depth_begin w.history label hd
  | recordAdd voxel => exact depth_recordAdd w.history voxel hd
  | recordRemove voxel => exact depth_recordRemove w.history voxel hd
  | commit => exact depth_commit w.history hd
  | cancel => exact ⟨rfl, hd⟩
  | undo => exact depth_undo w.history w.grid hd
  | redo => exact depth_redo w.history w.grid hd

theorem depth_run (calls : List HistoryCall) (w : World)
    (hd : w.history.undoStack.length + w.history.redoStack.length ≤ w.history.limit) :
    (w.historyRun calls).history.limit = w.history.limit ∧
      (w.historyRun calls).history.undoStack.length
        + (w.historyRun calls).history.redoStack.length ≤ w.history.limit := by
  induction calls generalizing w with
  | nil => exact ⟨rfl, hd⟩
  | cons c cs ih =>
    obtain ⟨h1, h2⟩ := depth_step w c hd
    obtain ⟨h3, h4⟩ := ih (w.historyStep c) (by rw [h1]; exact h2)
    show ((w.historyStep c).historyRun cs).history.limit = _ ∧ _
    rw [h1] at h3 h4
    exact ⟨h3, h4⟩

/-- C20: for every limit `L ≥ 0`, after each call of any sequence of `begin`,
`recordAdd`, `recordRemove`, `commit`, `cancel`, `undo`, `redo` calls on a fresh
`VoxelHistory(L)`, the lengths of the undo stack and the redo stack add up to at
most `L`; in particular the undo stack never holds more than `L` transactions,
although `redo` pushes onto it without a length check. -/
theorem history_depth_invariant (limit : Nat) (grid : VoxelGrid) (calls : List HistoryCall)
    (n : Nat) :
    ((World.mk grid (VoxelHistory.create limit)).historyRun
        (calls.take n)).history.undoStack.length
      + ((World.mk grid (VoxelHistory.create limit)).historyRun
        (calls.take n)).history.redoStack.length ≤ limit ∧
    ((World.mk grid (VoxelHistory.create limit)).historyRun
      (calls.take n)).history.undoStack.length ≤ limit := by
  have h := (depth_run (calls.take n) (World.mk grid (VoxelHistory.create limit))
    (Nat.zero_le _)).2
  have h2 : ((World.mk grid (VoxelHistory.create limit)).historyRun
        (calls.take n)).history.undoStack.length
      + ((World.mk grid (VoxelHistory.create limit)).historyRun
        (calls.take n)).history.redoStack.length ≤ limit := h
  exact ⟨h2, by omega⟩

/-! ## OBJ export -/

/-- C21, evaluation at the failing input: the store holds `A` at `(0,0,0)`, `C` (another
colour) at `(2,0,0)` and `D` (the colour of `A`) at `(4,0,0)`, none adjacent.  The
faces of `D` are numbered after those of `C` (from 49) but printed in the group of
`A`'s material, before `C`'s: line 37 of the text is `f 49 50 51 52` while the four
vertex lines right before it are the vertices 25 to 28 of the file.  With `A` and `C`
alone every face line names its own four vertices. -/
theorem exportOBJ_face_indices_misnumbered :
    storeACD.forEachVoxel = [voxelA, voxelC, voxelD] ∧
    (exportOBJ storeACD).obj[2]? = some (ObjLine.usemtl (materialName voxelA.color)) ∧
    (exportOBJ storeACD).obj[37]? = some (ObjLine.f 49 50 51 52) ∧
    (((exportOBJ storeACD).obj.drop 33).take 4).all ObjLine.isVertex = true ∧
    vertexLinesBefore (exportOBJ storeACD).obj 33 = 24 ∧
    faceOwnsItsVertices (exportOBJ storeACD).obj 37 = false ∧
    allFacesOwnTheirVertices (exportOBJ storeACD).obj = false ∧
    allFacesOwnTheirVertices (exportOBJ storeAC).obj = true := by
  decide
